import Mathlib

/-!
Verification development for the IsleGameLab ECS runtime core.

The model below is a shallow embedding of `src/core/ecs/World.ts` together
with the pieces it orchestrates: `Entity.ts` (per-entity component map),
`HierarchyComponents.ts` (`Parent` / `Children` with their static hooks),
`Event.ts` / the observer registries, the resource registry, the system
registration entries with their cached entity sets, and `Replay.ts`
(`IntentRecorder.record` / `replay`).

Modelling conventions, chosen to mirror the JavaScript runtime:
* JS `Map`s are association lists with `aset` giving `Map.set` semantics
  (replace in place, else append) so that insertion order is preserved.
* JS `Set`s are duplicate-free lists: `sadd` is `Set.add` (append if absent),
  `sdel` is `Set.delete`.  JS sets never hold duplicates, so removing all
  occurrences coincides with removing the one occurrence.
* JS object identity is modelled by allocation counters: entities get ids from
  `nextEntityID` (as in the source), component instances get instance ids from
  a counter standing for `new C(...)` allocation, and buffered event objects
  get ids from a counter standing for `new E(...)` allocation.
* Entity objects outlive their removal from `ECS.entities` (the source keeps
  the `Entity` object, its component map and its `destroyed` flag alive), so
  the model keeps a `heap` of every entity ever created next to the `table`
  of ids currently in `ECS.entities`.
* Callbacks registered from outside the core (initialize/destroy hooks,
  observers, system `update` bodies) are arbitrary consumer code; the model
  treats them as opaque labels, records their invocations in a trace, and
  treats their bodies as effect-free.  The static hooks of `Parent` are part
  of the core (`HierarchyComponents.ts`) and are modelled concretely.
-/

namespace ECSM

/-- Association-list lookup, first binding wins (JS `Map.get`). -/
def alookup [DecidableEq α] : List (α × β) → α → Option β
  | [], _ => none
  | kv :: rest, k => if kv.1 = k then some kv.2 else alookup rest k

/-- JS `Map.set`: replace the existing binding in place, else append. -/
def aset [DecidableEq α] : List (α × β) → α → β → List (α × β)
  | [], k, v => [(k, v)]
  | kv :: rest, k, v => if kv.1 = k then (k, v) :: rest else kv :: aset rest k v

/-- JS `Map.delete`: drop the binding for a key. -/
def adel [DecidableEq α] (l : List (α × β)) (k : α) : List (α × β) :=
  l.filter (fun kv => decide (kv.1 ≠ k))

/-- Update the value bound to a key in place, identity when the key is absent. -/
def amod [DecidableEq α] (l : List (α × β)) (k : α) (f : β → β) : List (α × β) :=
  l.map (fun kv => if kv.1 = k then (kv.1, f kv.2) else kv)

/-- JS `Set.add`: append if absent (sets preserve insertion order). -/
def sadd [DecidableEq α] (l : List α) (x : α) : List α :=
  if x ∈ l then l else l ++ [x]

/-- JS `Set.delete`: remove an element. -/
def sdel [DecidableEq α] (l : List α) (x : α) : List α :=
  l.filter (fun y => decide (y ≠ x))

/-- Number of occurrences of an element in a list. -/
def countOcc [DecidableEq α] (l : List α) (x : α) : Nat :=
  (l.filter (fun y => decide (y = x))).length

/-- Keys of an association list. -/
def akeys (l : List (α × β)) : List α := l.map Prod.fst

/-! ## The data model

Component classes are map keys in the source (`ComponentClass`).  The model
distinguishes the two core classes with concrete static hooks
(`Parent` / `Children` from `HierarchyComponents.ts`), consumer-defined
classes without static hooks (`plain`), and consumer-defined classes that
declare static `onAdd` / `onRemove` hooks (`hooked`, bodies opaque). -/

inductive CompType where
  | parent
  | children
  | plain (n : Nat)
  | hooked (n : Nat)
deriving DecidableEq

/-- Payload of a component instance: `Parent.value` is an entity reference,
`Children.value` is an ordered array of entity references, consumer
components carry opaque data. -/
inductive CompVal where
  | parentVal (p : Nat)
  | childrenVal (l : List Nat)
  | userVal (d : Nat)
deriving DecidableEq

/-- Event classes (`EventClass` in the source): the two lifecycle event
classes `OnAdd` / `OnRemove` from `Event.ts`, and consumer event classes. -/
inductive EvTy where
  | onAdd
  | onRemove
  | user (n : Nat)
deriving DecidableEq

/-- One `Entity` object (`Entity.ts`): its private component map
(component class to component instance) and its public `destroyed` flag. -/
structure EntityRec where
  comps : List (CompType × Nat)
  destroyed : Bool
deriving DecidableEq

/-- One component instance: concrete class, current value, and the `entity`
back-reference assigned by `ECS.addComponent`. -/
structure CompRec where
  cty : CompType
  val : CompVal
  owner : Nat
deriving DecidableEq

/-- One entry of `ECS.systems`: the system object (its identity `sid`, its
`componentsRequired` list and `isGlobal` flag) with its cached entity set. -/
structure SysRec where
  sid : Nat
  req : List CompType
  isGlobal : Bool
  cache : List Nat
deriving DecidableEq

/-- The `ECS` (World) state from `World.ts`, plus the heap of `Entity`
objects and component instances that the JS runtime keeps alive by
reference.  `table` is the key set of `ECS.entities`; `index` is
`componentsByType`; `toDestroy` is `entitiesToDestroy`. -/
structure World where
  heap : List (Nat × EntityRec)
  table : List Nat
  compHeap : List (Nat × CompRec)
  index : List (CompType × List Nat)
  systems : List SysRec
  toDestroy : List Nat
  eventQueues : List (EvTy × List Nat)
  nextFrameEvents : List (EvTy × List Nat)
  resources : List (Nat × Nat)
  initSys : List (CompType × List Nat)
  destroySys : List (CompType × List Nat)
  globalObs : List (EvTy × List Nat)
  entityObs : List (Nat × List (EvTy × List Nat))
  nextEntityID : Nat
  nextIid : Nat
  nextEvId : Nat
deriving DecidableEq

/-- The state of `new ECS()`. -/
def initWorld : World :=
  { heap := [], table := [], compHeap := [], index := [], systems := []
    toDestroy := [], eventQueues := [], nextFrameEvents := [], resources := []
    initSys := [], destroySys := [], globalObs := [], entityObs := []
    nextEntityID := 0, nextIid := 0, nextEvId := 0 }

/-! ## Read-only accessors -/

/-- The `Entity` object for an id. -/
def entRec (w : World) (e : Nat) : Option EntityRec := alookup w.heap e

/-- `entity.get(componentClass)`: the instance stored in the entity's own
component map. -/
def compOf (w : World) (e : Nat) (ty : CompType) : Option Nat :=
  match entRec w e with
  | some r => alookup r.comps ty
  | none => none

/-- `entity.has(componentClass)`. -/
def hasComp (w : World) (e : Nat) (ty : CompType) : Bool :=
  (compOf w e ty).isSome

/-- `entity._hasAll(componentClasses)`. -/
def hasAll (w : World) (e : Nat) (req : List CompType) : Bool :=
  req.all (fun ty => hasComp w e ty)

/-- `entity.destroyed`. -/
def destroyedFlag (w : World) (e : Nat) : Bool :=
  match entRec w e with
  | some r => r.destroyed
  | none => false

/-- Current value of a component instance. -/
def getCompVal (w : World) (iid : Nat) : Option CompVal :=
  (alookup w.compHeap iid).map (·.val)

/-- The `componentsByType` set for a component class (`ECS.query`). -/
def getIndex (w : World) (ty : CompType) : List Nat :=
  (alookup w.index ty).getD []

/-- Registered initialize callbacks for a component class. -/
def initCbs (w : World) (ty : CompType) : List Nat :=
  (alookup w.initSys ty).getD []

/-- Registered destroy callbacks for a component class. -/
def destroyCbs (w : World) (ty : CompType) : List Nat :=
  (alookup w.destroySys ty).getD []

/-- Global observers registered for an event class. -/
def getGlobalObs (w : World) (t : EvTy) : List Nat :=
  (alookup w.globalObs t).getD []

/-- Entity-scoped observers registered for an entity and event class. -/
def getEntityObs (w : World) (e : Nat) (t : EvTy) : List Nat :=
  (alookup ((alookup w.entityObs e).getD []) t).getD []

/-- `ECS.readEvents(eventClass)`: the readable (previous-frame) queue. -/
def readEvents (w : World) (t : EvTy) : List Nat :=
  (alookup w.eventQueues t).getD []

/-- The pending (next-frame) queue for an event class. -/
def pendingEvents (w : World) (t : EvTy) : List Nat :=
  (alookup w.nextFrameEvents t).getD []

/-! ## Trace steps

The observable actions performed by `addComponent` / `removeComponent` /
`trigger`, in the order the source performs them.  The `attached` flag on a
hook step records whether `entity.has(C)` held at the moment the hook ran. -/

inductive Step where
  | attach (e : Nat) (ty : CompType) (iid : Nat)
  | indexAdd (ty : CompType) (iid : Nat)
  | recheck (e : Nat)
  | initCb (label : Nat) (e : Nat) (ty : CompType)
  | staticAddHook (e : Nat) (ty : CompType)
  | lifecycleAdd (iid : Nat) (attached : Bool)
  | destroyCb (label : Nat) (e : Nat) (ty : CompType) (attached : Bool)
  | staticRemoveHook (e : Nat) (ty : CompType) (attached : Bool)
  | lifecycleRemove (iid : Nat) (attached : Bool)
  | detach (e : Nat) (ty : CompType) (iid : Nat)
  | indexDel (ty : CompType) (iid : Nat)
  | entityObsCall (target : Nat) (label : Nat) (t : EvTy)
  | globalObsCall (label : Nat) (t : EvTy)
deriving DecidableEq

/-! ## Operations -/

/-- `ECS.trigger(event, target?)`: entity-scoped observers of the target
first, then global observers, each synchronously in registration order.
Observer bodies are opaque; the trace records every invocation. -/
def triggerSteps (w : World) (t : EvTy) (target : Option Nat) : List Step :=
  (match target with
   | some e => (getEntityObs w e t).map (fun l => Step.entityObsCall e l t)
   | none => []) ++ (getGlobalObs w t).map (fun l => Step.globalObsCall l t)

/-- `ECS.createEntity()`: allocate the next id, register the entity. -/
def createEntity (w : World) : World × Nat :=
  let id := w.nextEntityID
  ({ w with
      nextEntityID := id + 1
      heap := aset w.heap id { comps := [], destroyed := false }
      table := w.table ++ [id] }, id)

/-- `ECS.checkES(entity, system)`: skip global systems, otherwise add the
entity to (or remove it from) the system's cached set per `_hasAll`. -/
def checkES (w : World) (e : Nat) (s : SysRec) : SysRec :=
  if s.isGlobal then s
  else if hasAll w e s.req then { s with cache := sadd s.cache e }
  else { s with cache := sdel s.cache e }

/-- `ECS.checkE(entity)`: membership re-check against every registered
system. -/
def checkE (w : World) (e : Nat) : World :=
  { w with systems := w.systems.map (checkES w e) }

/-- First phase of `ECS.addComponent`: set the `entity` back-reference,
store the instance in the entity's map, and add it to `componentsByType`.
Allocation of the fresh instance (`new C(...)` on the caller's side) is
modelled by the `nextIid` counter. -/
def attachComp (w : World) (e : Nat) (ty : CompType) (v : CompVal) : World × Nat :=
  let iid := w.nextIid
  let w1 := { w with
      nextIid := iid + 1
      compHeap := aset w.compHeap iid { cty := ty, val := v, owner := e }
      heap := amod w.heap e (fun r => { r with comps := aset r.comps ty iid }) }
  ({ w1 with index := aset w1.index ty (sadd (getIndex w1 ty) iid) }, iid)

/-- `ECS.addComponent` with the static-hook stage passed as a parameter:
attach + index update, membership re-check, registered initialize
callbacks, static `onAdd` hook, `OnAdd` lifecycle event. -/
def addComponentWith (hook : World → Nat → World × List Step)
    (w : World) (e : Nat) (ty : CompType) (v : CompVal) : World × List Step :=
  let (w1, iid) := attachComp w e ty v
  let w2 := checkE w1 e
  let cbs := initCbs w2 ty
  let (w3, ht) := hook w2 e
  (w3,
    [Step.attach e ty iid, Step.indexAdd ty iid, Step.recheck e]
      ++ cbs.map (fun l => Step.initCb l e ty)
      ++ ht
      ++ [Step.lifecycleAdd iid (hasComp w3 e ty)]
      ++ triggerSteps w3 EvTy.onAdd (some e))

/-- A component class with no static hooks. -/
def noHook : World → Nat → World × List Step := fun w _ => (w, [])

/-- `childrenComp.value.push(entity)` guarded by `includes` (from
`Parent.onAdd`). -/
def pushChild (w : World) (cid : Nat) (c : Nat) : World :=
  match getCompVal w cid with
  | some (CompVal.childrenVal l) =>
      if c ∈ l then w
      else
        let ch := amod w.compHeap cid (fun r => { r with val := CompVal.childrenVal (l ++ [c]) })
        { w with compHeap := ch }
  | _ => w

/-- `childrenComp.value.splice(indexOf(entity), 1)` (from
`Parent.onRemove`). -/
def spliceChild (w : World) (cid : Nat) (c : Nat) : World :=
  match getCompVal w cid with
  | some (CompVal.childrenVal l) =>
      let ch := amod w.compHeap cid (fun r => { r with val := CompVal.childrenVal (l.erase c) })
      { w with compHeap := ch }
  | _ => w

/-- `Parent.onAdd(entity)`: read the just-attached `Parent` component,
ensure the parent entity has a `Children` component (adding a fresh empty
one through the full `addComponent` pipeline when absent), then push the
child into its value if not already present. -/
def parentOnAdd (w : World) (c : Nat) : World × List Step :=
  match compOf w c CompType.parent with
  | none => (w, [])
  | some iid =>
      match getCompVal w iid with
      | some (CompVal.parentVal p) =>
          match compOf w p CompType.children with
          | some cid => (pushChild w cid c, [])
          | none =>
              let cid := w.nextIid
              let (w1, t) := addComponentWith noHook w p CompType.children (CompVal.childrenVal [])
              (pushChild w1 cid c, t)
      | _ => (w, [])

/-- `Parent.onRemove(entity)`: while the `Parent` component is still
attached, splice the child out of the parent's `Children` value unless the
parent entity is already destroyed. -/
def parentOnRemove (w : World) (c : Nat) : World × List Step :=
  match compOf w c CompType.parent with
  | none => (w, [])
  | some iid =>
      match getCompVal w iid with
      | some (CompVal.parentVal p) =>
          if destroyedFlag w p then (w, [])
          else
            match compOf w p CompType.children with
            | some cid => (spliceChild w cid c, [])
            | none => (w, [])
      | _ => (w, [])

/-- Dispatch of the static `onAdd` hook by component class
(`if (compClass.onAdd) compClass.onAdd(entity)`). -/
def staticAddHookFn : CompType → World → Nat → World × List Step
  | CompType.parent => parentOnAdd
  | CompType.hooked n => fun w e => (w, [Step.staticAddHook e (CompType.hooked n)])
  | _ => noHook

/-- Dispatch of the static `onRemove` hook by component class. -/
def staticRemoveHookFn : CompType → World → Nat → World × List Step
  | CompType.parent => parentOnRemove
  | CompType.hooked n => fun w e =>
      (w, [Step.staticRemoveHook e (CompType.hooked n) (hasComp w e (CompType.hooked n))])
  | _ => noHook

/-- `ECS.addComponent(entity, component)`. -/
def addComponent (w : World) (e : Nat) (ty : CompType) (v : CompVal) : World × List Step :=
  addComponentWith (staticAddHookFn ty) w e ty v

/-- `ECS.removeComponent(entity, componentClass)`: destroy callbacks, static
`onRemove` hook and `OnRemove` lifecycle event run first, with the component
still attached; only then detach, remove from `componentsByType`, and
re-check system membership.  No-op when the entity lacks the component. -/
def removeComponent (w : World) (e : Nat) (ty : CompType) : World × List Step :=
  match compOf w e ty with
  | none => (w, [])
  | some iid =>
      let cbs := destroyCbs w ty
      let t1 := cbs.map (fun l => Step.destroyCb l e ty (hasComp w e ty))
      let (w1, t2) := staticRemoveHookFn ty w e
      let t3 := [Step.lifecycleRemove iid (hasComp w1 e ty)]
        ++ triggerSteps w1 EvTy.onRemove (some e)
      let w2 := { w1 with
        heap := amod w1.heap e (fun r => { r with comps := adel r.comps ty }) }
      let w3 := { w2 with index := aset w2.index ty (sdel (getIndex w2 ty) iid) }
      let w4 := checkE w3 e
      (w4, t1 ++ t2 ++ t3 ++ [Step.detach e ty iid, Step.indexDel ty iid, Step.recheck e])

/-- `ECS.removeEntity(entity)`: enqueue for deferred destruction. -/
def removeEntity (w : World) (e : Nat) : World :=
  { w with toDestroy := w.toDestroy ++ [e] }

/-- `ECS.destroyEntity(entity)`: set the `destroyed` flag, discard the
entity's observers, drop it from the entity table and from every system's
cached set.  (`componentsByType` and the entity's own map are untouched.) -/
def destroyEntity (w : World) (e : Nat) : World :=
  { w with
      heap := amod w.heap e (fun r => { r with destroyed := true })
      entityObs := adel w.entityObs e
      table := sdel w.table e
      systems := w.systems.map (fun s => { s with cache := sdel s.cache e }) }

/-- The destruction flush in `ECS.update`: pop from the end of
`entitiesToDestroy` until empty. -/
def flushDestroy (w : World) : World :=
  w.toDestroy.reverse.foldl destroyEntity { w with toDestroy := [] }

/-- `ECS.update()`: swap the buffered-event queues, run the Update stage
(system bodies opaque and effect-free in this model), then flush the
pending destructions. -/
def update (w : World) : World :=
  flushDestroy { w with eventQueues := w.nextFrameEvents, nextFrameEvents := [] }

/-- `ECS.pushEvent(event)`: append a freshly allocated event object to the
next-frame queue of its class. -/
def pushEvent (w : World) (t : EvTy) : World :=
  { w with
      nextFrameEvents := aset w.nextFrameEvents t (pendingEvents w t ++ [w.nextEvId])
      nextEvId := w.nextEvId + 1 }

/-- `ECS.addObserver(eventClass, callback)`. -/
def addObserver (w : World) (t : EvTy) (l : Nat) : World :=
  { w with globalObs := aset w.globalObs t (sadd (getGlobalObs w t) l) }

/-- `ECS.addEntityObserver(entity, eventClass, callback)`. -/
def addEntityObserver (w : World) (e : Nat) (t : EvTy) (l : Nat) : World :=
  let m := aset ((alookup w.entityObs e).getD []) t (sadd (getEntityObs w e t) l)
  { w with entityObs := aset w.entityObs e m }

/-- `ECS.addInitializeSystem(componentClass, callback)`. -/
def addInitSystem (w : World) (ty : CompType) (l : Nat) : World :=
  { w with initSys := aset w.initSys ty (sadd (initCbs w ty) l) }

/-- `ECS.addDestroySystem(componentClass, callback)`. -/
def addDestroySystem (w : World) (ty : CompType) (l : Nat) : World :=
  { w with destroySys := aset w.destroySys ty (sadd (destroyCbs w ty) l) }

/-- `ECS.registerSystem(system)`: no-op when already registered, otherwise
give the system an empty cached set and run `checkES` for every entity in
the entity table. -/
def registerSystem (w : World) (sid : Nat) (req : List CompType) (g : Bool) : World :=
  if w.systems.any (fun s => s.sid = sid) then w
  else
    let s1 := w.table.foldl (fun s e => checkES w e s) { sid := sid, req := req, isGlobal := g, cache := [] }
    { w with systems := w.systems ++ [s1] }

/-- `ECS.insertResource(resource)`. -/
def insertResource (w : World) (rid v : Nat) : World :=
  { w with resources := aset w.resources rid v }

/-- `ECS.getResource(resourceClass)`. -/
def getResource (w : World) (rid : Nat) : Option Nat :=
  alookup w.resources rid

/-- `ECS.removeResource(resourceClass)`. -/
def removeResource (w : World) (rid : Nat) : World :=
  { w with resources := adel w.resources rid }

/-- A resource class token: identity, `name`, and the instance produced by
its zero-argument constructor. -/
structure ResType where
  rid : Nat
  rname : String
  defaultVal : Nat
deriving DecidableEq

/-- `System.res(resourceClass)` (`Query.ts`): return the stored instance or
throw an `ECSError` whose message names the missing resource class. -/
def sysRes (w : World) (t : ResType) : Except String Nat :=
  match getResource w t.rid with
  | some v => Except.ok v
  | none => Except.error ("Resource " ++ t.rname ++ " not found!")

/-- `System.tryRes(resourceClass)`: return the stored instance, or
`undefined` plus a logged warning naming the resource class. -/
def tryRes (w : World) (t : ResType) : Option Nat × List String :=
  match getResource w t.rid with
  | some v => (some v, [])
  | none => (none, ["[ECS] Resource " ++ t.rname ++ " not found"])

/-- `ECS.getSingleComp(resourceClass)`: auto-create with the default
constructor and register when absent, else return the stored instance. -/
def getSingleComp (w : World) (t : ResType) : Nat × World :=
  match getResource w t.rid with
  | some v => (v, w)
  | none => (t.defaultVal, insertResource w t.rid t.defaultVal)

/-- `ECS.setParent(child, parent)`: `child.add(new Parent(parent))`. -/
def setParent (w : World) (c p : Nat) : World :=
  (addComponent w c CompType.parent (CompVal.parentVal p)).1

/-- `ECS.removeParent(entity)`: `entity.remove(Parent)`. -/
def removeParent (w : World) (e : Nat) : World :=
  (removeComponent w e CompType.parent).1

/-- `ECS.getParent(entity)`: the `value` of the entity's `Parent`
component, `undefined` when absent. -/
def getParentE (w : World) (e : Nat) : Option Nat :=
  match compOf w e CompType.parent with
  | some iid =>
      match getCompVal w iid with
      | some (CompVal.parentVal p) => some p
      | _ => none
  | none => none

/-- `ECS.getChildren(entity)`: the `value` array of the entity's `Children`
component, `[]` when absent. -/
def getChildrenE (w : World) (e : Nat) : List Nat :=
  match compOf w e CompType.children with
  | some iid =>
      match getCompVal w iid with
      | some (CompVal.childrenVal l) => l
      | _ => []
  | none => []

/-- `ECS.despawnRecursive(entity)`: depth-first over a snapshot of the
current children, then enqueue the entity itself.  The JS recursion is
unbounded; `fuel` bounds the recursion depth and is irrelevant whenever it
exceeds the hierarchy depth. -/
def despawnRec : Nat → World → Nat → World
  | 0, w, _ => w
  | fuel + 1, w, e =>
      let w1 := (getChildrenE w e).foldl (fun acc c => despawnRec fuel acc c) w
      removeEntity w1 e

/-! ## The call language

A top-level API call sequence against one `ECS` instance.  Entity arguments
are guarded by `nextEntityID`: in the source an entity argument is always an
`Entity` object previously handed out by this world, so a call naming a
never-created id has no JS counterpart and is modelled as a no-op. -/

inductive Op where
  | createE
  | addComp (e : Nat) (ty : CompType) (v : CompVal)
  | removeComp (e : Nat) (ty : CompType)
  | removeEnt (e : Nat)
  | updateW
  | pushEv (t : EvTy)
  | triggerEv (t : EvTy) (target : Option Nat)
  | setPar (c p : Nat)
  | removePar (e : Nat)
  | despawn (fuel : Nat) (e : Nat)
  | addObs (t : EvTy) (l : Nat)
  | addEntObs (e : Nat) (t : EvTy) (l : Nat)
  | addInitCb (ty : CompType) (l : Nat)
  | addDestroyCb (ty : CompType) (l : Nat)
  | regSystem (sid : Nat) (req : List CompType) (g : Bool)
  | insertRes (rid v : Nat)
  | removeRes (rid : Nat)
  | getSingle (t : ResType)
deriving DecidableEq

/-- Interpretation of one call. -/
def applyOp (w : World) : Op → World
  | Op.createE => (createEntity w).1
  | Op.addComp e ty v => if e < w.nextEntityID then (addComponent w e ty v).1 else w
  | Op.removeComp e ty => if e < w.nextEntityID then (removeComponent w e ty).1 else w
  | Op.removeEnt e => if e < w.nextEntityID then removeEntity w e else w
  | Op.updateW => update w
  | Op.pushEv t => pushEvent w t
  | Op.triggerEv _ _ => w
  | Op.setPar c p => if c < w.nextEntityID ∧ p < w.nextEntityID then setParent w c p else w
  | Op.removePar e => if e < w.nextEntityID then removeParent w e else w
  | Op.despawn fuel e => if e < w.nextEntityID then despawnRec fuel w e else w
  | Op.addObs t l => addObserver w t l
  | Op.addEntObs e t l => if e < w.nextEntityID then addEntityObserver w e t l else w
  | Op.addInitCb ty l => addInitSystem w ty l
  | Op.addDestroyCb ty l => addDestroySystem w ty l
  | Op.regSystem sid req g => registerSystem w sid req g
  | Op.insertRes rid v => insertResource w rid v
  | Op.removeRes rid => removeResource w rid
  | Op.getSingle t => (getSingleComp w t).2

/-- Interpretation of a call sequence. -/
def applyOps (w : World) (ops : List Op) : World :=
  ops.foldl applyOp w

/-! ## Frame lemmas: which fields each operation can touch -/

/-- The component add/remove pipeline only changes `heap`, `compHeap`,
`index`, `systems` and `nextIid`; every other field is untouched. -/
def CoreOnly (w w' : World) : Prop :=
  w'.table = w.table ∧ w'.toDestroy = w.toDestroy ∧ w'.eventQueues = w.eventQueues
  ∧ w'.nextFrameEvents = w.nextFrameEvents ∧ w'.resources = w.resources
  ∧ w'.initSys = w.initSys ∧ w'.destroySys = w.destroySys ∧ w'.globalObs = w.globalObs
  ∧ w'.entityObs = w.entityObs ∧ w'.nextEntityID = w.nextEntityID ∧ w'.nextEvId = w.nextEvId

/-- Phase of an event object pushed during the current frame: exactly once
in the pending buffer, not readable, allocator past it. -/
def EvMid (x : Nat) (t : EvTy) (w : World) : Prop :=
  countOcc (pendingEvents w t) x = 1 ∧ x ∉ readEvents w t ∧ x < w.nextEvId

/-- Phase after one buffer swap: exactly once in the readable queue, no
longer pending. -/
def EvRead (x : Nat) (t : EvTy) (w : World) : Prop :=
  countOcc (readEvents w t) x = 1 ∧ x ∉ pendingEvents w t ∧ x < w.nextEvId

/-- Phase after two buffer swaps: gone from both queues, forever. -/
def EvGone (x : Nat) (t : EvTy) (w : World) : Prop :=
  x ∉ readEvents w t ∧ x ∉ pendingEvents w t ∧ x < w.nextEvId

/-! ## Hierarchy invariant toolkit (claim C4) -/

/-- The parent reference stored in a component instance, when it is a
`Parent` component. -/
def parentValOf (w : World) (i : Nat) : Option Nat :=
  match getCompVal w i with
  | some (CompVal.parentVal p) => some p
  | _ => none

/-- The child list stored in a component instance, when it is a `Children`
component. -/
def childrenValOf (w : World) (i : Nat) : List Nat :=
  match getCompVal w i with
  | some (CompVal.childrenVal l) => l
  | _ => []

/-- The hierarchy invariant: created ids fill the heap, instance references
and instance ids stay below the allocator, `Children` references hold
`Children` values, and every `Parent` reference is mirrored in the
parent's `Children` list. -/
structure HInv (w : World) : Prop where
  heapKeys : akeys w.heap = List.range w.nextEntityID
  compBound : ∀ e r, alookup w.heap e = some r → ∀ ty i, alookup r.comps ty = some i →
      i < w.nextIid
  chBound : ∀ k ∈ akeys w.compHeap, k < w.nextIid
  childShape : ∀ e cid, compOf w e CompType.children = some cid →
      ∃ l, getCompVal w cid = some (CompVal.childrenVal l)
  sym : ∀ c p, getParentE w c = some p → c ∈ getChildrenE w p

/-- The hierarchy invariant with the mirror obligation deferred for one
child `c` whose freshly attached `Parent` reference has not yet been pushed
into the parent's `Children` list (the state between the attach phase of
`setParent` and the `Parent.onAdd` push). -/
structure HPend (w : World) (c : Nat) : Prop where
  heapKeys : akeys w.heap = List.range w.nextEntityID
  compBound : ∀ e r, alookup w.heap e = some r → ∀ ty i, alookup r.comps ty = some i →
      i < w.nextIid
  chBound : ∀ k ∈ akeys w.compHeap, k < w.nextIid
  childShape : ∀ e cid, compOf w e CompType.children = some cid →
      ∃ l, getCompVal w cid = some (CompVal.childrenVal l)
  sym' : ∀ c' p', c' ≠ c → getParentE w c' = some p' → c' ∈ getChildrenE w p'

/-- The calls quantified over by the hierarchy-symmetry claim: everything
except raw `addComponent` / `removeComponent`, which can attach a `Parent`
with a non-entity payload or strip a `Children` component wholesale and are
not part of the claimed API surface. -/
def hierOpB : Op → Bool
  | Op.addComp _ _ _ => false
  | Op.removeComp _ _ => false
  | _ => true

/-! ## Destruction-flush lemmas (claim C3) -/

/-- What holds of an entity once the flush has destroyed it: out of the
entity table, out of every cached set, observers discarded, flag set. -/
def destroyedProps (w : World) (e : Nat) : Prop :=
  e ∉ w.table ∧ (∀ s ∈ w.systems, e ∉ s.cache)
  ∧ destroyedFlag w e = true ∧ alookup w.entityObs e = none

/-- The invariant maintained by the world under the claimed call sequence:
empty destruction queue, the heap and the table hold exactly the created
ids, every attached instance is in its type's index with a bounded fresh
id, no instance id is attached twice, and for every registered non-global
system that declares at least one required component class, its cached set
holds only table entities and agrees with `_hasAll`.  The cache legs are
scoped to systems with a nonempty `componentsRequired`: a non-global
system registered with an empty requirement list is genuinely out of sync
in the source — `registerSystem` scans only the entities existing at
registration and `createEntity` performs no re-check, so a later-created
entity vacuously satisfies `_hasAll([])` without being cached. -/
structure Inv2 (w : World) : Prop where
  queueEmpty : w.toDestroy = []
  heapKeys : akeys w.heap = List.range w.nextEntityID
  tableKeys : w.table = List.range w.nextEntityID
  cacheSub : ∀ s ∈ w.systems, s.isGlobal = false → s.req ≠ [] →
      ∀ e ∈ s.cache, e ∈ w.table
  idx : ∀ e r, alookup w.heap e = some r → ∀ ty iid, alookup r.comps ty = some iid →
      iid ∈ getIndex w ty ∧ iid < w.nextIid
  compat : ∀ e ∈ w.table, ∀ s ∈ w.systems, s.isGlobal = false → s.req ≠ [] →
      (e ∈ s.cache ↔ hasAll w e s.req = true)
  inj : ∀ e1 r1 e2 r2 ty1 ty2 iid, alookup w.heap e1 = some r1 →
      alookup w.heap e2 = some r2 → alookup r1.comps ty1 = some iid →
      alookup r2.comps ty2 = some iid → e1 = e2 ∧ ty1 = ty2

/-- Calls allowed by the amended index-consistency claim: everything except
deferred destruction requests. -/
def okOpB : Op → Bool
  | Op.removeEnt _ => false
  | Op.despawn _ _ => false
  | _ => true

/-! ## Claim statements taken verbatim from the spec, for refutation -/

/-- Whether the `componentsByType` set for a class contains the entity's
own instance of that class. -/
def instanceInIndex (w : World) (e : Nat) (ty : CompType) : Bool :=
  match compOf w e ty with
  | some iid => iid ∈ getIndex w ty
  | none => false

/-- The spec's component-index-consistency statement at one entity and one
component class: `E has C` iff the type-index set contains E's instance,
iff E is in the cached set of every registered non-global system whose
`componentsRequired` includes C. -/
def claimIndexConsistency (w : World) (e : Nat) (ty : CompType) : Prop :=
  (hasComp w e ty = instanceInIndex w e ty)
  ∧ (hasComp w e ty = true ↔
      ∀ s ∈ w.systems, s.isGlobal = false → ty ∈ s.req → e ∈ s.cache)

/-- The spec's post-flush statement for a destroyed entity: gone from the
entity table, from every system's cached set, and from every component
index; observers discarded; `destroyed` true. -/
def claimAbsentAfterFlush (w : World) (e : Nat) : Prop :=
  e ∉ w.table
  ∧ (∀ s ∈ w.systems, e ∉ s.cache)
  ∧ (∀ kv ∈ ((entRec w e).getD { comps := [], destroyed := false }).comps,
      kv.2 ∉ getIndex w kv.1)
  ∧ alookup w.entityObs e = none
  ∧ destroyedFlag w e = true

/-- The spec's hierarchy symmetry statement: `A.getParent() === B` iff
`B.getChildren().includes(A)`. -/
def claimHierarchySymmetry (w : World) : Prop :=
  ∀ a b : Nat, getParentE w a = some b ↔ a ∈ getChildrenE w b

/-! ## The intent recorder (`Replay.ts`, claims C1 and C9)

`IntentRecorder.replay` drives the target ECS through `spawn().insert(...)`
and `update()` only (the forward-declared `ECS` interface), so the embedding
is parameterised by the world type `W` and those two operations.  `D` is the
type of the consumer-defined data fields of an intent; the base-class fields
of `Intent` (`processed`, `timestamp`, `id`, `priority`) and the class name
are explicit. -/

structure RIntent (D : Type) where
  tyName : String
  processed : Bool
  timestamp : Nat
  id : Option String
  priority : Int
  payload : D
deriving DecidableEq

/-- The `data` field of an `IntentRecord`: every own enumerable field of the
intent except the `entity` back-reference and the `processed` flag. -/
structure IntentData (D : Type) where
  timestamp : Nat
  id : Option String
  priority : Int
  payload : D
deriving DecidableEq

/-- `IntentRecord` from `Replay.ts`. -/
structure IntentRecord (D : Type) where
  ty : String
  data : IntentData D
  timestamp : Nat
  id : Option String
  priority : Int
deriving DecidableEq

/-- `IntentRecorder.serializeIntent`. -/
def serializeIntent (i : RIntent D) : IntentData D :=
  { timestamp := i.timestamp, id := i.id, priority := i.priority, payload := i.payload }

/-- `IntentRecorder.record`: type name, serialized data, timestamp, id and
priority of the recorded intent. -/
def recordOf (i : RIntent D) : IntentRecord D :=
  { ty := i.tyName, data := serializeIntent i, timestamp := i.timestamp
    id := i.id, priority := i.priority }

/-- `IntentRecorder.deserializeIntent`: look the type name up in
`intentTypes` (`reg` is its key set); when absent, warn and return `null`;
otherwise construct a fresh instance — `processed` takes its field default
`false` — and `Object.assign` the recorded data onto it. -/
def deserializeIntent (reg : List String) (r : IntentRecord D) : Option (RIntent D) :=
  if r.ty ∈ reg then
    some { tyName := r.ty, processed := false, timestamp := r.data.timestamp
           id := r.data.id, priority := r.data.priority, payload := r.data.payload }
  else none

/-- One step of the stable insertion sort by `timestamp`: a record is
inserted before the first element that does not strictly precede it, so
ties keep their original order, as ECMAScript `Array.prototype.sort`
guarantees for the comparator `(a, b) => a.timestamp - b.timestamp`. -/
def insertTs (x : IntentRecord D) : List (IntentRecord D) → List (IntentRecord D)
  | [] => [x]
  | y :: ys => if y.timestamp < x.timestamp then y :: insertTs x ys else x :: y :: ys

/-- `[...session.records].sort((a, b) => a.timestamp - b.timestamp)`. -/
def sortByTs (l : List (IntentRecord D)) : List (IntentRecord D) :=
  l.foldr insertTs []

/-- What replay does with one sorted record: played (deserialized, spawned,
updated) or skipped with a warning (unregistered type name). -/
inductive RTag (D : Type) where
  | played (i : RIntent D)
  | skipped (ty : String)
deriving DecidableEq

def tagOf (reg : List String) (r : IntentRecord D) : RTag D :=
  match deserializeIntent reg r with
  | some i => RTag.played i
  | none => RTag.skipped r.ty

/-- The per-record outcomes of a replay, in processing order. -/
def replayTrace (reg : List String) (rs : List (IntentRecord D)) : List (RTag D) :=
  (sortByTs rs).map (tagOf reg)

/-- `IntentRecorder.replay`: sort the records by timestamp, then for each
record in order either skip it (type name not registered) or spawn a fresh
entity, insert the rebuilt intent, and run one full `update()` before the
next record. -/
def replay (spawnInsert : W → RIntent D → W) (upd : W → W) (reg : List String)
    (w : W) (rs : List (IntentRecord D)) : W :=
  (sortByTs rs).foldl (fun acc r =>
    match deserializeIntent reg r with
    | some i => upd (spawnInsert acc i)
    | none => acc) w

/-- One event of a live run: an intent handed to `spawn().insert` (and seen
by the recorder), or one `update()` call. -/
inductive LiveEv (D : Type) where
  | intent (i : RIntent D)
  | tick
deriving DecidableEq

/-- The live execution of a run against the same abstract ECS interface. -/
def liveRun (spawnInsert : W → RIntent D → W) (upd : W → W) (w : W)
    (evs : List (LiveEv D)) : W :=
  evs.foldl (fun acc e =>
    match e with
    | LiveEv.intent i => spawnInsert acc i
    | LiveEv.tick => upd acc) w

/-- The session records captured by the recorder during a live run. -/
def recordsOfLive (evs : List (LiveEv D)) : List (IntentRecord D) :=
  evs.filterMap (fun e =>
    match e with
    | LiveEv.intent i => some (recordOf i)
    | LiveEv.tick => none)

/-- A live run in which every intent gets its own tick. -/
def oneIntentPerTick (l : List (RIntent D)) : List (LiveEv D) :=
  l.foldr (fun i acc => LiveEv.intent i :: LiveEv.tick :: acc) []

/-- The spec's central replay guarantee, for one abstract world: replaying
the session recorded from a live run, against a fresh world initialized
identically and with the same registrations, reproduces the live final
state. -/
def claimReplayDeterminism {D : Type} (W : Type)
    (spawnInsert : W → RIntent D → W) (upd : W → W) (reg : List String)
    (w : W) (evs : List (LiveEv D)) : Prop :=
  replay spawnInsert upd reg w (recordsOfLive evs) = liveRun spawnInsert upd w evs

@[simp] theorem alookup_nil [DecidableEq α] (k : α) :
    alookup ([] : List (α × β)) k = none := rfl

@[simp] theorem alookup_aset_self [DecidableEq α] (l : List (α × β)) (k : α) (v : β) :
    alookup (aset l k v) k = some v := by
  induction l with
  | nil => simp [aset, alookup]
  | cons kv rest ih =>
      by_cases h : kv.1 = k
      · simp [aset, h, alookup]
      · simp [aset, h, alookup, ih]

theorem alookup_aset_ne [DecidableEq α] (l : List (α × β)) {k k' : α} (v : β)
    (h : k' ≠ k) : alookup (aset l k v) k' = alookup l k' := by
  induction l with
  | nil =>
      have : ¬ (k = k') := fun hh => h hh.symm
      simp [aset, alookup, this]
  | cons kv rest ih =>
      by_cases hk : kv.1 = k
      · subst hk
        have : ¬ (kv.1 = k') := fun hh => h hh.symm
        simp [aset, alookup, this]
      · simp only [aset, if_neg hk]
        by_cases hk' : kv.1 = k'
        · simp [alookup, hk']
        · simp [alookup, hk', ih]

@[simp] theorem alookup_adel_self [DecidableEq α] (l : List (α × β)) (k : α) :
    alookup (adel l k) k = none := by
  induction l with
  | nil => simp [adel, alookup]
  | cons kv rest ih =>
      by_cases h : kv.1 = k
      · simpa [adel, h, List.filter_cons] using ih
      · simpa [adel, h, List.filter_cons, alookup] using ih

theorem alookup_adel_ne [DecidableEq α] (l : List (α × β)) {k k' : α}
    (h : k' ≠ k) : alookup (adel l k) k' = alookup l k' := by
  induction l with
  | nil => simp [adel]
  | cons kv rest ih =>
      by_cases hk : kv.1 = k
      · subst hk
        have hne : ¬ (kv.1 = k') := fun hh => h hh.symm
        simpa [adel, List.filter_cons, alookup, hne] using ih
      · by_cases hk' : kv.1 = k'
        · simp [adel, hk, List.filter_cons, alookup, hk', h]
        · simpa [adel, hk, List.filter_cons, alookup, hk'] using ih

theorem alookup_amod_self [DecidableEq α] (l : List (α × β)) (k : α) (f : β → β) :
    alookup (amod l k f) k = (alookup l k).map f := by
  induction l with
  | nil => simp [amod, alookup]
  | cons kv rest ih =>
      by_cases h : kv.1 = k
      · simp [amod, h, alookup]
      · simpa [amod, h, alookup] using ih

theorem alookup_amod_ne [DecidableEq α] (l : List (α × β)) {k k' : α} (f : β → β)
    (h : k' ≠ k) : alookup (amod l k f) k' = alookup l k' := by
  induction l with
  | nil => simp [amod]
  | cons kv rest ih =>
      by_cases hk : kv.1 = k
      · subst hk
        have hne : ¬ (kv.1 = k') := fun hh => h hh.symm
        simpa [amod, alookup, hne] using ih
      · by_cases hk' : kv.1 = k'
        · simp [amod, hk, alookup, hk', h]
        · simpa [amod, hk, alookup, hk'] using ih

@[simp] theorem mem_sadd [DecidableEq α] (l : List α) (x y : α) :
    y ∈ sadd l x ↔ y ∈ l ∨ y = x := by
  by_cases h : x ∈ l
  · simp only [sadd, if_pos h]
    constructor
    · exact Or.inl
    · rintro (hy | rfl) <;> [exact hy; exact h]
  · simp [sadd, if_neg h]

@[simp] theorem mem_sdel [DecidableEq α] (l : List α) (x y : α) :
    y ∈ sdel l x ↔ y ∈ l ∧ y ≠ x := by
  simp [sdel, List.mem_filter]

theorem sadd_of_mem [DecidableEq α] {l : List α} {x : α} (h : x ∈ l) :
    sadd l x = l := by simp [sadd, h]

theorem sdel_of_not_mem [DecidableEq α] {l : List α} {x : α} (h : x ∉ l) :
    sdel l x = l := by
  induction l with
  | nil => rfl
  | cons a rest ih =>
      have hax : a ≠ x := by rintro rfl; exact h (List.mem_cons_self _ _)
      have : x ∉ rest := fun hx => h (List.mem_cons_of_mem _ hx)
      simp [sdel, hax, List.filter_cons] at *
      exact ih this

@[simp] theorem akeys_nil : akeys ([] : List (α × β)) = [] := rfl

@[simp] theorem akeys_cons (kv : α × β) (l : List (α × β)) :
    akeys (kv :: l) = kv.1 :: akeys l := rfl

theorem akeys_aset_mem [DecidableEq α] (l : List (α × β)) (k : α) (v : β)
    (h : k ∈ akeys l) : akeys (aset l k v) = akeys l := by
  induction l with
  | nil => simp at h
  | cons kv rest ih =>
      by_cases hk : kv.1 = k
      · simp [aset, hk]
      · have hmem : k ∈ akeys rest := by
          rcases List.mem_cons.mp h with h1 | h1
          · exact absurd h1.symm hk
          · exact h1
        simp [aset, hk, ih hmem]

theorem akeys_aset_not_mem [DecidableEq α] (l : List (α × β)) (k : α) (v : β)
    (h : k ∉ akeys l) : akeys (aset l k v) = akeys l ++ [k] := by
  induction l with
  | nil => simp [aset]
  | cons kv rest ih =>
      have hk : kv.1 ≠ k := by
        intro hh; exact h (by simp [hh])
      have hmem : k ∉ akeys rest := fun hx => h (List.mem_cons_of_mem _ hx)
      simp [aset, hk, ih hmem]

theorem mem_alookup_isSome [DecidableEq α] (l : List (α × β)) (k : α) :
    (alookup l k).isSome ↔ k ∈ akeys l := by
  induction l with
  | nil => simp [alookup]
  | cons kv rest ih =>
      by_cases h : kv.1 = k
      · simp [alookup, h]
      · have hne : ¬ (k = kv.1) := fun hh => h hh.symm
        simp [alookup, h, hne, ih]

@[simp] theorem akeys_amod [DecidableEq α] (l : List (α × β)) (k : α) (f : β → β) :
    akeys (amod l k f) = akeys l := by
  induction l with
  | nil => rfl
  | cons kv rest ih =>
      by_cases h : kv.1 = k <;> simp [amod, akeys, h] at ih ⊢ <;> exact ih

@[simp] theorem countOcc_nil [DecidableEq α] (x : α) :
    countOcc ([] : List α) x = 0 := rfl

theorem countOcc_append [DecidableEq α] (l₁ l₂ : List α) (x : α) :
    countOcc (l₁ ++ l₂) x = countOcc l₁ x + countOcc l₂ x := by
  simp [countOcc, List.filter_append]

theorem countOcc_cons [DecidableEq α] (a x : α) (l : List α) :
    countOcc (a :: l) x = (if a = x then 1 else 0) + countOcc l x := by
  by_cases h : a = x <;> simp [countOcc, List.filter_cons, h, Nat.add_comm]

theorem countOcc_eq_zero [DecidableEq α] {l : List α} {x : α} (h : x ∉ l) :
    countOcc l x = 0 := by
  induction l with
  | nil => rfl
  | cons a rest ih =>
      have ha : a ≠ x := by rintro rfl; exact h (List.mem_cons_self _ _)
      have : x ∉ rest := fun hx => h (List.mem_cons_of_mem _ hx)
      simp [countOcc_cons, ha, ih this]

/-! ## Further list lemmas used by the claim proofs -/

theorem aset_aset [DecidableEq α] (l : List (α × β)) (k : α) (v v' : β) :
    aset (aset l k v) k v' = aset l k v' := by
  induction l with
  | nil => simp [aset]
  | cons kv rest ih =>
      by_cases h : kv.1 = k
      · simp [aset, h]
      · simp [aset, h, ih]

theorem countOcc_map_inj [DecidableEq α] [DecidableEq β] (l : List α) (f : α → β)
    (hf : Function.Injective f) (x : α) : countOcc (l.map f) (f x) = countOcc l x := by
  induction l with
  | nil => rfl
  | cons a rest ih =>
      by_cases h : a = x
      · simp [countOcc_cons, h, ih]
      · have : f a ≠ f x := fun hh => h (hf hh)
        simp [countOcc_cons, h, this, ih]

theorem countOcc_nodup [DecidableEq α] {l : List α} {x : α}
    (hnd : l.Nodup) (hx : x ∈ l) : countOcc l x = 1 := by
  induction l with
  | nil => simp at hx
  | cons a rest ih =>
      rcases List.mem_cons.mp hx with h | h
      · subst h
        have hnr : x ∉ rest := (List.nodup_cons.mp hnd).1
        simp [countOcc_cons, countOcc_eq_zero hnr]
      · have ha : a ≠ x := by
          rintro rfl; exact (List.nodup_cons.mp hnd).1 h
        simp [countOcc_cons, ha, ih (List.nodup_cons.mp hnd).2 h]

theorem countOcc_map_not_mem [DecidableEq α] [DecidableEq β] (l : List α) (f : α → β)
    (y : β) (h : ∀ a ∈ l, f a ≠ y) : countOcc (l.map f) y = 0 := by
  apply countOcc_eq_zero
  intro hy
  rcases List.mem_map.mp hy with ⟨a, ha, rfl⟩
  exact h a ha rfl

/-! ## Claim C5: ordering of hooks and lifecycle events -/

/-- C5: for `addComponent` the observable order is attach + index update,
per-system membership re-check, registered initialize callbacks, static
`onAdd` hook, `OnAdd` lifecycle event; for `removeComponent` on a present
component it is destroy callbacks, static `onRemove` hook, `OnRemove`
lifecycle event, and only afterwards detach, index update and membership
re-check — with the component still attached (`attached = true`) at every
hook and at the lifecycle event of the removal. -/
theorem c5_hook_and_event_order (w w' : World) (e e' n n' : Nat) (v : CompVal) (iid : Nat)
    (he : (entRec w e).isSome = true)
    (hc : compOf w' e' (CompType.hooked n') = some iid) :
    (addComponent w e (CompType.hooked n) v).2 =
      [Step.attach e (CompType.hooked n) w.nextIid,
       Step.indexAdd (CompType.hooked n) w.nextIid,
       Step.recheck e]
      ++ (initCbs w (CompType.hooked n)).map (fun l => Step.initCb l e (CompType.hooked n))
      ++ [Step.staticAddHook e (CompType.hooked n),
          Step.lifecycleAdd w.nextIid true]
      ++ (getEntityObs w e EvTy.onAdd).map (fun l => Step.entityObsCall e l EvTy.onAdd)
      ++ (getGlobalObs w EvTy.onAdd).map (fun l => Step.globalObsCall l EvTy.onAdd)
    ∧ (removeComponent w' e' (CompType.hooked n')).2 =
      (destroyCbs w' (CompType.hooked n')).map
          (fun l => Step.destroyCb l e' (CompType.hooked n') true)
      ++ [Step.staticRemoveHook e' (CompType.hooked n') true,
          Step.lifecycleRemove iid true]
      ++ (getEntityObs w' e' EvTy.onRemove).map (fun l => Step.entityObsCall e' l EvTy.onRemove)
      ++ (getGlobalObs w' EvTy.onRemove).map (fun l => Step.globalObsCall l EvTy.onRemove)
      ++ [Step.detach e' (CompType.hooked n') iid,
          Step.indexDel (CompType.hooked n') iid,
          Step.recheck e'] := by
  constructor
  · obtain ⟨r, hr⟩ := Option.isSome_iff_exists.mp he
    simp only [entRec] at hr
    simp only [addComponent, addComponentWith, staticAddHookFn]
    simp [attachComp, checkE, triggerSteps, initCbs, getEntityObs, getGlobalObs,
      hasComp, compOf, entRec, alookup_amod_self, hr]
  · have hhas : hasComp w' e' (CompType.hooked n') = true := by
      simp [hasComp, hc]
    simp only [removeComponent, hc, staticRemoveHookFn]
    simp [hhas, triggerSteps, getEntityObs, getGlobalObs, destroyCbs]

/-- Witness for `c5_hook_and_event_order` at a concrete world. -/
theorem c5_hook_and_event_order_witness :
    (entRec (applyOps initWorld [Op.createE]) 0).isSome = true
    ∧ compOf (applyOps initWorld [Op.createE,
        Op.addComp 0 (CompType.hooked 1) (CompVal.userVal 9)]) 0 (CompType.hooked 1) = some 0
    ∧ ((addComponent (applyOps initWorld [Op.createE]) 0 (CompType.hooked 1)
          (CompVal.userVal 9)).2 =
        [Step.attach 0 (CompType.hooked 1) 0, Step.indexAdd (CompType.hooked 1) 0,
         Step.recheck 0, Step.staticAddHook 0 (CompType.hooked 1),
         Step.lifecycleAdd 0 true]
      ∧ (removeComponent (applyOps initWorld [Op.createE,
            Op.addComp 0 (CompType.hooked 1) (CompVal.userVal 9)]) 0 (CompType.hooked 1)).2 =
        [Step.staticRemoveHook 0 (CompType.hooked 1) true,
         Step.lifecycleRemove 0 true, Step.detach 0 (CompType.hooked 1) 0,
         Step.indexDel (CompType.hooked 1) 0, Step.recheck 0]) := by
  refine ⟨by decide, by decide, ?_⟩
  have h := c5_hook_and_event_order (applyOps initWorld [Op.createE])
    (applyOps initWorld [Op.createE, Op.addComp 0 (CompType.hooked 1) (CompVal.userVal 9)])
    0 0 1 1 (CompVal.userVal 9) 0 (by decide) (by decide)
  refine ⟨?_, ?_⟩
  · rw [h.1]; decide
  · rw [h.2]; decide

/-! ## Claim C7: immediate event fan-out -/

/-- C7: `trigger(event, target)` invokes exactly the entity-scoped
observers registered for the target and event class followed by the global
observers for the event class, each exactly once, in registration order;
observers registered for other event classes or other entities are not
invoked. -/
theorem c7_trigger_fanout (w : World) (t : EvTy) (e : Nat)
    (hndE : (getEntityObs w e t).Nodup) (hndG : (getGlobalObs w t).Nodup) :
    triggerSteps w t (some e) =
      (getEntityObs w e t).map (fun l => Step.entityObsCall e l t)
        ++ (getGlobalObs w t).map (fun l => Step.globalObsCall l t)
    ∧ (∀ l ∈ getEntityObs w e t,
        countOcc (triggerSteps w t (some e)) (Step.entityObsCall e l t) = 1)
    ∧ (∀ l ∈ getGlobalObs w t,
        countOcc (triggerSteps w t (some e)) (Step.globalObsCall l t) = 1)
    ∧ (∀ l, l ∉ getEntityObs w e t → Step.entityObsCall e l t ∉ triggerSteps w t (some e))
    ∧ (∀ l, l ∉ getGlobalObs w t → Step.globalObsCall l t ∉ triggerSteps w t (some e))
    ∧ (∀ e' l t', e' ≠ e → Step.entityObsCall e' l t' ∉ triggerSteps w t (some e))
    ∧ (∀ t' l, t' ≠ t → Step.entityObsCall e l t' ∉ triggerSteps w t (some e)
        ∧ Step.globalObsCall l t' ∉ triggerSteps w t (some e)) := by
  refine ⟨rfl, ?_, ?_, ?_, ?_, ?_, ?_⟩
  · intro l hl
    have hinj : Function.Injective (fun l => Step.entityObsCall e l t) := by
      intro a b hab; simpa using hab
    rw [show triggerSteps w t (some e) =
      (getEntityObs w e t).map (fun l => Step.entityObsCall e l t)
        ++ (getGlobalObs w t).map (fun l => Step.globalObsCall l t) from rfl]
    rw [countOcc_append, countOcc_map_inj _ _ hinj, countOcc_nodup hndE hl,
      countOcc_map_not_mem _ _ _ (by intro a _ hcontra; simp at hcontra)]
  · intro l hl
    have hinj : Function.Injective (fun l => Step.globalObsCall l t) := by
      intro a b hab; simpa using hab
    rw [show triggerSteps w t (some e) =
      (getEntityObs w e t).map (fun l => Step.entityObsCall e l t)
        ++ (getGlobalObs w t).map (fun l => Step.globalObsCall l t) from rfl]
    rw [countOcc_append, countOcc_map_inj _ _ hinj, countOcc_nodup hndG hl,
      countOcc_map_not_mem _ _ _ (by intro a _ hcontra; simp at hcontra)]
  · intro l hl hmem
    simp only [triggerSteps, List.mem_append, List.mem_map] at hmem
    rcases hmem with ⟨a, ha, hab⟩ | ⟨a, _, hab⟩
    · cases hab; exact hl ha
    · cases hab
  · intro l hl hmem
    simp only [triggerSteps, List.mem_append, List.mem_map] at hmem
    rcases hmem with ⟨a, _, hab⟩ | ⟨a, ha, hab⟩
    · cases hab
    · cases hab; exact hl ha
  · intro e' l t' hne hmem
    simp only [triggerSteps, List.mem_append, List.mem_map] at hmem
    rcases hmem with ⟨a, _, hab⟩ | ⟨a, _, hab⟩
    · cases hab; exact hne rfl
    · cases hab
  · intro t' l hne
    constructor
    · intro hmem
      simp only [triggerSteps, List.mem_append, List.mem_map] at hmem
      rcases hmem with ⟨a, _, hab⟩ | ⟨a, _, hab⟩
      · cases hab; exact hne rfl
      · cases hab
    · intro hmem
      simp only [triggerSteps, List.mem_append, List.mem_map] at hmem
      rcases hmem with ⟨a, _, hab⟩ | ⟨a, _, hab⟩
      · cases hab
      · cases hab; exact hne rfl

/-- Witness for `c7_trigger_fanout` on a world with one entity-scoped, one
global and one non-matching observer. -/
theorem c7_trigger_fanout_witness :
    (getEntityObs (applyOps initWorld [Op.createE, Op.createE,
        Op.addEntObs 0 (EvTy.user 5) 10, Op.addEntObs 1 (EvTy.user 5) 30,
        Op.addObs (EvTy.user 5) 20, Op.addObs (EvTy.user 6) 40]) 0 (EvTy.user 5)).Nodup
    ∧ (getGlobalObs (applyOps initWorld [Op.createE, Op.createE,
        Op.addEntObs 0 (EvTy.user 5) 10, Op.addEntObs 1 (EvTy.user 5) 30,
        Op.addObs (EvTy.user 5) 20, Op.addObs (EvTy.user 6) 40]) (EvTy.user 5)).Nodup
    ∧ triggerSteps (applyOps initWorld [Op.createE, Op.createE,
        Op.addEntObs 0 (EvTy.user 5) 10, Op.addEntObs 1 (EvTy.user 5) 30,
        Op.addObs (EvTy.user 5) 20, Op.addObs (EvTy.user 6) 40]) (EvTy.user 5) (some 0) =
      [Step.entityObsCall 0 10 (EvTy.user 5), Step.globalObsCall 20 (EvTy.user 5)] := by
  refine ⟨by decide, by decide, ?_⟩
  have h := c7_trigger_fanout (applyOps initWorld [Op.createE, Op.createE,
    Op.addEntObs 0 (EvTy.user 5) 10, Op.addEntObs 1 (EvTy.user 5) 30,
    Op.addObs (EvTy.user 5) 20, Op.addObs (EvTy.user 6) 40]) (EvTy.user 5) 0
    (by decide) (by decide)
  rw [h.1]; decide

/-! ## Claim C10: identity-based observer registration is idempotent -/

/-- C10: registering the same callback twice for the same event class via
`addObserver` (or via `addEntityObserver` with the same entity and event
class) leaves the identity-based observer set — and hence the whole world —
as after a single registration, and a subsequent trigger of that event
invokes the callback exactly once. -/
theorem c10_observer_idempotent (w : World) (t : EvTy) (e l : Nat) (target : Option Nat)
    (hg : l ∉ getGlobalObs w t) (he : l ∉ getEntityObs w e t) :
    addObserver (addObserver w t l) t l = addObserver w t l
    ∧ addEntityObserver (addEntityObserver w e t l) e t l = addEntityObserver w e t l
    ∧ countOcc (triggerSteps (addObserver (addObserver w t l) t l) t target)
        (Step.globalObsCall l t) = 1
    ∧ countOcc (triggerSteps (addEntityObserver (addEntityObserver w e t l) e t l) t (some e))
        (Step.entityObsCall e l t) = 1 := by
  have hobs : getGlobalObs (addObserver w t l) t = sadd (getGlobalObs w t) l := by
    simp [addObserver, getGlobalObs]
  have hmem : l ∈ getGlobalObs (addObserver w t l) t := by
    rw [hobs]; simp
  have hgidem : addObserver (addObserver w t l) t l = addObserver w t l := by
    simp only [addObserver]
    rw [show getGlobalObs { w with globalObs := aset w.globalObs t (sadd (getGlobalObs w t) l) } t
        = sadd (getGlobalObs w t) l by simp [getGlobalObs]]
    rw [sadd_of_mem (by simp : l ∈ sadd (getGlobalObs w t) l)]
    simp [aset_aset]
  have heobs : getEntityObs (addEntityObserver w e t l) e t = sadd (getEntityObs w e t) l := by
    simp [addEntityObserver, getEntityObs]
  have heidem : addEntityObserver (addEntityObserver w e t l) e t l
      = addEntityObserver w e t l := by
    simp only [addEntityObserver, getEntityObs, alookup_aset_self, Option.getD_some,
      alookup_aset_self]
    rw [sadd_of_mem (show l ∈
        sadd ((alookup ((alookup w.entityObs e).getD []) t).getD []) l by simp)]
    rw [aset_aset, aset_aset]
  refine ⟨hgidem, heidem, ?_, ?_⟩
  · rw [hgidem]
    have hglobal : getGlobalObs (addObserver w t l) t = getGlobalObs w t ++ [l] := by
      rw [hobs, sadd, if_neg hg]
    have hzero : countOcc ((match target with
        | some e' => (getEntityObs (addObserver w t l) e' t).map
            (fun la => Step.entityObsCall e' la t)
        | none => []) : List Step) (Step.globalObsCall l t) = 0 := by
      cases target with
      | none => rfl
      | some e' =>
          exact countOcc_map_not_mem _ _ _ (by intro a _ hcontra; simp at hcontra)
    have hone : countOcc ((getGlobalObs (addObserver w t l) t).map
        (fun la => Step.globalObsCall la t)) (Step.globalObsCall l t) = 1 := by
      rw [hglobal, List.map_append, countOcc_append]
      rw [countOcc_map_not_mem _ _ _ (by
        intro a ha hcontra
        have haa : a = l := by simpa using hcontra
        exact hg (haa ▸ ha))]
      simp [countOcc_cons]
    simp only [triggerSteps]
    rw [countOcc_append, hzero, hone]
  · rw [heidem]
    have hent : getEntityObs (addEntityObserver w e t l) e t = getEntityObs w e t ++ [l] := by
      rw [heobs, sadd, if_neg he]
    have hzero : countOcc ((getGlobalObs (addEntityObserver w e t l) t).map
        (fun la => Step.globalObsCall la t)) (Step.entityObsCall e l t) = 0 :=
      countOcc_map_not_mem _ _ _ (by intro a _ hcontra; simp at hcontra)
    have hone : countOcc ((getEntityObs (addEntityObserver w e t l) e t).map
        (fun la => Step.entityObsCall e la t)) (Step.entityObsCall e l t) = 1 := by
      rw [hent, List.map_append, countOcc_append]
      rw [countOcc_map_not_mem _ _ _ (by
        intro a ha hcontra
        have haa : a = l := by simpa using hcontra
        exact he (haa ▸ ha))]
      simp [countOcc_cons]
    simp only [triggerSteps]
    rw [countOcc_append, hzero, hone]

/-! ## Claim C8: resource accessor failure semantics -/

/-- C8: when the requested resource class has no instance, `System.res`
fails with an error whose message names the missing class and the registry
is untouched, `System.tryRes` returns `undefined` with only a warning, and
`getSingleComp` constructs the default instance, inserts it and returns it;
when the resource is present all three return the stored instance and leave
the registry unchanged. -/
theorem c8_resource_accessors (w w' : World) (t t' : ResType) (v : Nat)
    (habs : getResource w t.rid = none) (hpres : getResource w' t'.rid = some v) :
    (sysRes w t = Except.error ("Resource " ++ t.rname ++ " not found!")
      ∧ tryRes w t = (none, ["[ECS] Resource " ++ t.rname ++ " not found"])
      ∧ getSingleComp w t = (t.defaultVal, insertResource w t.rid t.defaultVal)
      ∧ getResource (getSingleComp w t).2 t.rid = some t.defaultVal)
    ∧ (sysRes w' t' = Except.ok v
      ∧ tryRes w' t' = (some v, [])
      ∧ getSingleComp w' t' = (v, w')) := by
  refine ⟨⟨?_, ?_, ?_, ?_⟩, ?_, ?_, ?_⟩
  · simp [sysRes, habs]
  · simp [tryRes, habs]
  · simp [getSingleComp, habs]
  · have habs' : alookup w.resources t.rid = none := habs
    simp [getSingleComp, getResource, habs', insertResource]
  · simp [sysRes, hpres]
  · simp [tryRes, hpres]
  · simp [getSingleComp, hpres]

/-- Witness for `c8_resource_accessors`: an empty registry next to one
holding the resource. -/
theorem c8_resource_accessors_witness :
    getResource initWorld 3 = none
    ∧ getResource (applyOps initWorld [Op.insertRes 3 44]) 3 = some 44
    ∧ sysRes initWorld { rid := 3, rname := "GameState", defaultVal := 7 }
        = Except.error "Resource GameState not found!"
    ∧ getSingleComp (applyOps initWorld [Op.insertRes 3 44])
        { rid := 3, rname := "GameState", defaultVal := 7 }
        = (44, applyOps initWorld [Op.insertRes 3 44]) := by
  refine ⟨by decide, by decide, ?_, ?_⟩
  · have h := c8_resource_accessors initWorld (applyOps initWorld [Op.insertRes 3 44])
      { rid := 3, rname := "GameState", defaultVal := 7 }
      { rid := 3, rname := "GameState", defaultVal := 7 } 44 (by decide) (by decide)
    exact h.1.1
  · have h := c8_resource_accessors initWorld (applyOps initWorld [Op.insertRes 3 44])
      { rid := 3, rname := "GameState", defaultVal := 7 }
      { rid := 3, rname := "GameState", defaultVal := 7 } 44 (by decide) (by decide)
    exact h.2.2.2

theorem coreOnly_refl (w : World) : CoreOnly w w :=
  ⟨rfl, rfl, rfl, rfl, rfl, rfl, rfl, rfl, rfl, rfl, rfl⟩

theorem coreOnly_trans {w w' w'' : World} (h1 : CoreOnly w w') (h2 : CoreOnly w' w'') :
    CoreOnly w w'' := by
  obtain ⟨a1, a2, a3, a4, a5, a6, a7, a8, a9, a10, a11⟩ := h1
  obtain ⟨b1, b2, b3, b4, b5, b6, b7, b8, b9, b10, b11⟩ := h2
  exact ⟨b1.trans a1, b2.trans a2, b3.trans a3, b4.trans a4, b5.trans a5, b6.trans a6,
    b7.trans a7, b8.trans a8, b9.trans a9, b10.trans a10, b11.trans a11⟩

theorem coreOnly_attachComp (w : World) (e : Nat) (ty : CompType) (v : CompVal) :
    CoreOnly w (attachComp w e ty v).1 :=
  ⟨rfl, rfl, rfl, rfl, rfl, rfl, rfl, rfl, rfl, rfl, rfl⟩

theorem coreOnly_checkE (w : World) (e : Nat) : CoreOnly w (checkE w e) :=
  ⟨rfl, rfl, rfl, rfl, rfl, rfl, rfl, rfl, rfl, rfl, rfl⟩

theorem coreOnly_pushChild (w : World) (cid c : Nat) : CoreOnly w (pushChild w cid c) := by
  unfold pushChild
  split
  · split
    · exact coreOnly_refl w
    · exact ⟨rfl, rfl, rfl, rfl, rfl, rfl, rfl, rfl, rfl, rfl, rfl⟩
  · exact coreOnly_refl w

theorem coreOnly_spliceChild (w : World) (cid c : Nat) : CoreOnly w (spliceChild w cid c) := by
  unfold spliceChild
  split
  · exact ⟨rfl, rfl, rfl, rfl, rfl, rfl, rfl, rfl, rfl, rfl, rfl⟩
  · exact coreOnly_refl w

theorem addComponentWith_fst (hook : World → Nat → World × List Step)
    (w : World) (e : Nat) (ty : CompType) (v : CompVal) :
    (addComponentWith hook w e ty v).1 = (hook (checkE (attachComp w e ty v).1 e) e).1 := rfl

theorem coreOnly_addComponentWith (hook : World → Nat → World × List Step)
    (hhook : ∀ w' e', CoreOnly w' (hook w' e').1)
    (w : World) (e : Nat) (ty : CompType) (v : CompVal) :
    CoreOnly w (addComponentWith hook w e ty v).1 := by
  rw [addComponentWith_fst]
  exact coreOnly_trans
    (coreOnly_trans (coreOnly_attachComp w e ty v) (coreOnly_checkE _ e)) (hhook _ e)

theorem coreOnly_parentOnAdd (w : World) (c : Nat) : CoreOnly w (parentOnAdd w c).1 := by
  unfold parentOnAdd
  split
  · exact coreOnly_refl w
  · split
    · split
      · exact coreOnly_pushChild _ _ _
      · exact coreOnly_trans
          (coreOnly_addComponentWith noHook (fun w' _ => coreOnly_refl w') w _ _ _)
          (coreOnly_pushChild _ _ _)
    · exact coreOnly_refl w

theorem coreOnly_parentOnRemove (w : World) (c : Nat) : CoreOnly w (parentOnRemove w c).1 := by
  unfold parentOnRemove
  split
  · exact coreOnly_refl w
  · split
    · split
      · exact coreOnly_refl w
      · split
        · exact coreOnly_spliceChild _ _ _
        · exact coreOnly_refl w
    · exact coreOnly_refl w

theorem coreOnly_staticAddHook (ty : CompType) (w : World) (e : Nat) :
    CoreOnly w (staticAddHookFn ty w e).1 := by
  cases ty with
  | parent => exact coreOnly_parentOnAdd w e
  | children => exact coreOnly_refl w
  | plain n => exact coreOnly_refl w
  | hooked n => exact coreOnly_refl w

theorem coreOnly_staticRemoveHook (ty : CompType) (w : World) (e : Nat) :
    CoreOnly w (staticRemoveHookFn ty w e).1 := by
  cases ty with
  | parent => exact coreOnly_parentOnRemove w e
  | children => exact coreOnly_refl w
  | plain n => exact coreOnly_refl w
  | hooked n => exact coreOnly_refl w

theorem coreOnly_addComponent (w : World) (e : Nat) (ty : CompType) (v : CompVal) :
    CoreOnly w (addComponent w e ty v).1 :=
  coreOnly_addComponentWith _ (coreOnly_staticAddHook ty) w e ty v

theorem coreOnly_removeComponent (w : World) (e : Nat) (ty : CompType) :
    CoreOnly w (removeComponent w e ty).1 := by
  unfold removeComponent
  cases h : compOf w e ty with
  | none => exact coreOnly_refl w
  | some iid =>
      have h1 := coreOnly_staticRemoveHook ty w e
      refine coreOnly_trans h1 ?_
      exact ⟨rfl, rfl, rfl, rfl, rfl, rfl, rfl, rfl, rfl, rfl, rfl⟩

/-- `despawnRecursive` only appends a batch of ids to the destruction
queue; no other field changes before the flush. -/
theorem despawnRec_shape : ∀ (fuel : Nat) (w : World) (e : Nat),
    ∃ l, despawnRec fuel w e = { w with toDestroy := w.toDestroy ++ l } := by
  intro fuel
  induction fuel with
  | zero =>
      intro w e
      exact ⟨[], by simp [despawnRec]⟩
  | succ f ih =>
      intro w e
      have hfold : ∀ (cs : List Nat) (w : World),
          ∃ l, cs.foldl (fun acc c => despawnRec f acc c) w
            = { w with toDestroy := w.toDestroy ++ l } := by
        intro cs
        induction cs with
        | nil =>
            intro w
            exact ⟨[], by rw [List.foldl_nil, List.append_nil]⟩
        | cons c rest ihc =>
            intro w
            obtain ⟨l1, h1⟩ := ih w c
            obtain ⟨l2, h2⟩ := ihc (despawnRec f w c)
            refine ⟨l1 ++ l2, ?_⟩
            rw [List.foldl_cons]
            rw [h1] at h2
            rw [h1, h2]
            simp [List.append_assoc]
      obtain ⟨l1, h1⟩ := hfold (getChildrenE w e) w
      refine ⟨l1 ++ [e], ?_⟩
      simp only [despawnRec, h1, removeEntity]
      simp

/-- `destroyEntity` leaves the two event queues, the event counter, the
component heap, the component index and the resources untouched. -/
theorem destroyEntity_events (w : World) (d : Nat) :
    (destroyEntity w d).eventQueues = w.eventQueues
    ∧ (destroyEntity w d).nextFrameEvents = w.nextFrameEvents
    ∧ (destroyEntity w d).nextEvId = w.nextEvId
    ∧ (destroyEntity w d).index = w.index
    ∧ (destroyEntity w d).compHeap = w.compHeap
    ∧ (destroyEntity w d).resources = w.resources :=
  ⟨rfl, rfl, rfl, rfl, rfl, rfl⟩

theorem foldl_destroy_events (l : List Nat) (w : World) :
    (l.foldl destroyEntity w).eventQueues = w.eventQueues
    ∧ (l.foldl destroyEntity w).nextFrameEvents = w.nextFrameEvents
    ∧ (l.foldl destroyEntity w).nextEvId = w.nextEvId
    ∧ (l.foldl destroyEntity w).index = w.index
    ∧ (l.foldl destroyEntity w).compHeap = w.compHeap
    ∧ (l.foldl destroyEntity w).resources = w.resources := by
  induction l generalizing w with
  | nil => exact ⟨rfl, rfl, rfl, rfl, rfl, rfl⟩
  | cons d rest ih =>
      simpa [List.foldl_cons] using ih (destroyEntity w d)

/-- `update` exposes exactly the previous frame's pending batch and starts
an empty pending buffer; the flush does not touch events, the component
index or the resources. -/
theorem update_events (w : World) :
    (update w).eventQueues = w.nextFrameEvents
    ∧ (update w).nextFrameEvents = []
    ∧ (update w).nextEvId = w.nextEvId
    ∧ (update w).index = w.index
    ∧ (update w).compHeap = w.compHeap
    ∧ (update w).resources = w.resources := by
  unfold update flushDestroy
  exact foldl_destroy_events _ _

/-! ## Buffered-event phase tracking (claim C6) -/

theorem event_fields_of_coreOnly {w w' : World} (h : CoreOnly w w') :
    w'.eventQueues = w.eventQueues ∧ w.nextEvId ≤ w'.nextEvId
    ∧ ∀ t, pendingEvents w' t = pendingEvents w t := by
  obtain ⟨-, -, h3, h4, -, -, -, -, -, -, h11⟩ := h
  refine ⟨h3, le_of_eq h11.symm, ?_⟩
  intro t
  unfold pendingEvents
  rw [h4]

/-- Every call except `update` leaves the readable queue untouched, never
shrinks the event-id allocator, and changes the pending queue of a type at
most by appending freshly allocated event objects. -/
theorem applyOp_event_fields (w : World) (op : Op) (hop : op ≠ Op.updateW) :
    (applyOp w op).eventQueues = w.eventQueues
    ∧ w.nextEvId ≤ (applyOp w op).nextEvId
    ∧ ∀ t x, x < w.nextEvId →
        ((x ∈ pendingEvents (applyOp w op) t) ↔ x ∈ pendingEvents w t)
        ∧ countOcc (pendingEvents (applyOp w op) t) x = countOcc (pendingEvents w t) x := by
  have triv : ∀ w' : World, w'.eventQueues = w.eventQueues → w.nextEvId ≤ w'.nextEvId →
      (∀ t, pendingEvents w' t = pendingEvents w t) →
      w'.eventQueues = w.eventQueues ∧ w.nextEvId ≤ w'.nextEvId
      ∧ ∀ t x, x < w.nextEvId →
          ((x ∈ pendingEvents w' t) ↔ x ∈ pendingEvents w t)
          ∧ countOcc (pendingEvents w' t) x = countOcc (pendingEvents w t) x := by
    intro w' h1 h2 h3
    exact ⟨h1, h2, fun t x _ => by rw [h3 t]; exact ⟨Iff.rfl, rfl⟩⟩
  have fromCore : ∀ w' : World, CoreOnly w w' →
      w'.eventQueues = w.eventQueues ∧ w.nextEvId ≤ w'.nextEvId
      ∧ ∀ t x, x < w.nextEvId →
          ((x ∈ pendingEvents w' t) ↔ x ∈ pendingEvents w t)
          ∧ countOcc (pendingEvents w' t) x = countOcc (pendingEvents w t) x := by
    intro w' hc
    obtain ⟨h1, h2, h3⟩ := event_fields_of_coreOnly hc
    exact triv w' h1 h2 h3
  cases op with
  | createE => exact triv _ rfl le_rfl (fun _ => rfl)
  | addComp e ty v =>
      simp only [applyOp]
      split
      · exact fromCore _ (coreOnly_addComponent w e ty v)
      · exact triv _ rfl le_rfl (fun _ => rfl)
  | removeComp e ty =>
      simp only [applyOp]
      split
      · exact fromCore _ (coreOnly_removeComponent w e ty)
      · exact triv _ rfl le_rfl (fun _ => rfl)
  | removeEnt e =>
      simp only [applyOp]
      split
      · exact triv _ rfl le_rfl (fun _ => rfl)
      · exact triv _ rfl le_rfl (fun _ => rfl)
  | updateW => exact absurd rfl hop
  | pushEv t' =>
      simp only [applyOp]
      refine ⟨rfl, Nat.le_succ _, ?_⟩
      intro t x hx
      by_cases ht : t = t'
      · subst ht
        have hpending : pendingEvents (pushEvent w t) t = pendingEvents w t ++ [w.nextEvId] := by
          simp [pushEvent, pendingEvents]
        have hxne : x ≠ w.nextEvId := Nat.ne_of_lt hx
        constructor
        · rw [hpending]
          simp [hxne]
        · have hne2 : ¬ (w.nextEvId = x) := fun hh => hxne hh.symm
          rw [hpending, countOcc_append, countOcc_cons]
          simp [hne2]
      · have hpending : pendingEvents (pushEvent w t') t = pendingEvents w t := by
          simp only [pushEvent, pendingEvents]
          rw [alookup_aset_ne _ _ ht]
        rw [hpending]
        exact ⟨Iff.rfl, rfl⟩
  | triggerEv t' tgt => exact triv _ rfl le_rfl (fun _ => rfl)
  | setPar c p =>
      simp only [applyOp]
      split
      · exact fromCore _ (coreOnly_addComponent w c _ _)
      · exact triv _ rfl le_rfl (fun _ => rfl)
  | removePar e =>
      simp only [applyOp]
      split
      · exact fromCore _ (coreOnly_removeComponent w e _)
      · exact triv _ rfl le_rfl (fun _ => rfl)
  | despawn fuel e =>
      simp only [applyOp]
      split
      · obtain ⟨l, hl⟩ := despawnRec_shape fuel w e
        rw [hl]
        exact triv _ rfl le_rfl (fun _ => rfl)
      · exact triv _ rfl le_rfl (fun _ => rfl)
  | addObs t' l => exact triv _ rfl le_rfl (fun _ => rfl)
  | addEntObs e t' l =>
      simp only [applyOp]
      split
      · exact triv _ rfl le_rfl (fun _ => rfl)
      · exact triv _ rfl le_rfl (fun _ => rfl)
  | addInitCb ty l => exact triv _ rfl le_rfl (fun _ => rfl)
  | addDestroyCb ty l => exact triv _ rfl le_rfl (fun _ => rfl)
  | regSystem sid req g =>
      simp only [applyOp]
      unfold registerSystem
      split
      · exact triv _ rfl le_rfl (fun _ => rfl)
      · exact triv _ rfl le_rfl (fun _ => rfl)
  | insertRes rid v => exact triv _ rfl le_rfl (fun _ => rfl)
  | removeRes rid => exact triv _ rfl le_rfl (fun _ => rfl)
  | getSingle t' =>
      simp only [applyOp]
      unfold getSingleComp
      split
      · exact triv _ rfl le_rfl (fun _ => rfl)
      · exact triv _ rfl le_rfl (fun _ => rfl)

theorem evMid_push (w : World) (t : EvTy)
    (ha : w.nextEvId ∉ readEvents w t)
    (hb : countOcc (pendingEvents w t) w.nextEvId = 0) :
    EvMid w.nextEvId t (pushEvent w t) := by
  refine ⟨?_, ?_, Nat.lt_succ_self _⟩
  · have hpending : pendingEvents (pushEvent w t) t
        = pendingEvents w t ++ [w.nextEvId] := by
      simp [pushEvent, pendingEvents]
    rw [hpending, countOcc_append, hb, countOcc_cons]
    simp
  · exact ha

theorem evMid_step {x : Nat} {t : EvTy} {w : World} (h : EvMid x t w)
    (op : Op) (hop : op ≠ Op.updateW) : EvMid x t (applyOp w op) := by
  obtain ⟨h1, h2, h3⟩ := h
  obtain ⟨hq, hle, hpend⟩ := applyOp_event_fields w op hop
  refine ⟨?_, ?_, lt_of_lt_of_le h3 hle⟩
  · rw [(hpend t x h3).2, h1]
  · unfold readEvents at h2 ⊢
    rw [hq]
    exact h2

theorem evMid_steps {x : Nat} {t : EvTy} {w : World} (h : EvMid x t w)
    (ops : List Op) (hops : ∀ op ∈ ops, op ≠ Op.updateW) : EvMid x t (applyOps w ops) := by
  induction ops generalizing w with
  | nil => exact h
  | cons op rest ih =>
      exact ih (evMid_step h op (hops op (List.mem_cons_self _ _)))
        (fun o ho => hops o (List.mem_cons_of_mem _ ho))

theorem evMid_update {x : Nat} {t : EvTy} {w : World} (h : EvMid x t w) :
    EvRead x t (update w) := by
  obtain ⟨h1, h2, h3⟩ := h
  obtain ⟨hq, hp, hid, -, -, -⟩ := update_events w
  refine ⟨?_, ?_, hid ▸ h3⟩
  · unfold readEvents
    rw [hq]
    exact h1
  · unfold pendingEvents
    rw [hp]
    simp [alookup]

theorem evRead_step {x : Nat} {t : EvTy} {w : World} (h : EvRead x t w)
    (op : Op) (hop : op ≠ Op.updateW) : EvRead x t (applyOp w op) := by
  obtain ⟨h1, h2, h3⟩ := h
  obtain ⟨hq, hle, hpend⟩ := applyOp_event_fields w op hop
  refine ⟨?_, ?_, lt_of_lt_of_le h3 hle⟩
  · unfold readEvents at h1 ⊢
    rw [hq]
    exact h1
  · intro hmem
    exact h2 ((hpend t x h3).1.mp hmem)

theorem evRead_steps {x : Nat} {t : EvTy} {w : World} (h : EvRead x t w)
    (ops : List Op) (hops : ∀ op ∈ ops, op ≠ Op.updateW) : EvRead x t (applyOps w ops) := by
  induction ops generalizing w with
  | nil => exact h
  | cons op rest ih =>
      exact ih (evRead_step h op (hops op (List.mem_cons_self _ _)))
        (fun o ho => hops o (List.mem_cons_of_mem _ ho))

theorem evRead_update {x : Nat} {t : EvTy} {w : World} (h : EvRead x t w) :
    EvGone x t (update w) := by
  obtain ⟨h1, h2, h3⟩ := h
  obtain ⟨hq, hp, hid, -, -, -⟩ := update_events w
  refine ⟨?_, ?_, hid ▸ h3⟩
  · unfold readEvents
    rw [hq]
    exact h2
  · unfold pendingEvents
    rw [hp]
    simp [alookup]

theorem evGone_step {x : Nat} {t : EvTy} {w : World} (h : EvGone x t w)
    (op : Op) : EvGone x t (applyOp w op) := by
  obtain ⟨h1, h2, h3⟩ := h
  by_cases hop : op = Op.updateW
  · subst hop
    obtain ⟨hq, hp, hid, -, -, -⟩ := update_events w
    refine ⟨?_, ?_, hid ▸ h3⟩
    · show x ∉ readEvents (update w) t
      unfold readEvents
      rw [hq]
      exact h2
    · show x ∉ pendingEvents (update w) t
      unfold pendingEvents
      rw [hp]
      simp [alookup]
  · obtain ⟨hq, hle, hpend⟩ := applyOp_event_fields w op hop
    refine ⟨?_, ?_, lt_of_lt_of_le h3 hle⟩
    · unfold readEvents at h1 ⊢
      rw [hq]
      exact h1
    · intro hmem
      exact h2 ((hpend t x h3).1.mp hmem)

theorem evGone_steps {x : Nat} {t : EvTy} {w : World} (h : EvGone x t w)
    (ops : List Op) : EvGone x t (applyOps w ops) := by
  induction ops generalizing w with
  | nil => exact h
  | cons op rest ih => exact ih (evGone_step h op)

/-! ## Claim C6: buffered event latency -/

/-- C6: an event object pushed during frame N (followed by arbitrary
further non-`update` calls that frame) is not readable during frame N,
is readable exactly once throughout frame N+1 (opened by the next
`update()`'s buffer swap), and from the following `update()` on is never
readable again, whatever calls follow. -/
theorem c6_buffered_event_latency (w : World) (t : EvTy) (frameN frameN1 : List Op)
    (hN : ∀ op ∈ frameN, op ≠ Op.updateW)
    (hN1 : ∀ op ∈ frameN1, op ≠ Op.updateW)
    (ha : w.nextEvId ∉ readEvents w t)
    (hb : countOcc (pendingEvents w t) w.nextEvId = 0) :
    w.nextEvId ∉ readEvents (applyOps (pushEvent w t) frameN) t
    ∧ countOcc (readEvents (update (applyOps (pushEvent w t) frameN)) t) w.nextEvId = 1
    ∧ countOcc (readEvents (applyOps (update (applyOps (pushEvent w t) frameN)) frameN1) t)
        w.nextEvId = 1
    ∧ ∀ later : List Op,
        w.nextEvId ∉ readEvents (applyOps
          (update (applyOps (update (applyOps (pushEvent w t) frameN)) frameN1)) later) t := by
  have hmid : EvMid w.nextEvId t (applyOps (pushEvent w t) frameN) :=
    evMid_steps (evMid_push w t ha hb) frameN hN
  have hread : EvRead w.nextEvId t (update (applyOps (pushEvent w t) frameN)) :=
    evMid_update hmid
  have hread1 : EvRead w.nextEvId t
      (applyOps (update (applyOps (pushEvent w t) frameN)) frameN1) :=
    evRead_steps hread frameN1 hN1
  have hgone : EvGone w.nextEvId t
      (update (applyOps (update (applyOps (pushEvent w t) frameN)) frameN1)) :=
    evRead_update hread1
  exact ⟨hmid.2.1, hread.1, hread1.1, fun later => (evGone_steps hgone later).1⟩

/-- Witness for `c6_buffered_event_latency` on a concrete run with another
event pushed in the same frame. -/
theorem c6_buffered_event_latency_witness :
    (∀ op ∈ [Op.pushEv (EvTy.user 1)], op ≠ Op.updateW)
    ∧ initWorld.nextEvId ∉ readEvents initWorld (EvTy.user 0)
    ∧ countOcc (pendingEvents initWorld (EvTy.user 0)) initWorld.nextEvId = 0
    ∧ countOcc (readEvents (update (applyOps (pushEvent initWorld (EvTy.user 0))
        [Op.pushEv (EvTy.user 1)])) (EvTy.user 0)) initWorld.nextEvId = 1
    ∧ initWorld.nextEvId ∉ readEvents (applyOps
        (update (applyOps (update (applyOps (pushEvent initWorld (EvTy.user 0))
          [Op.pushEv (EvTy.user 1)])) []))
        [Op.updateW, Op.pushEv (EvTy.user 0)]) (EvTy.user 0) := by
  have h := c6_buffered_event_latency initWorld (EvTy.user 0) [Op.pushEv (EvTy.user 1)] []
    (by decide) (by decide) (by decide) (by decide)
  exact ⟨by decide, by decide, by decide, h.2.1, h.2.2.2 [Op.updateW, Op.pushEv (EvTy.user 0)]⟩

theorem getParentE_eq (w : World) (c : Nat) :
    getParentE w c = (compOf w c CompType.parent).bind (parentValOf w) := by
  unfold getParentE parentValOf
  cases compOf w c CompType.parent with
  | none => rfl
  | some iid =>
      cases getCompVal w iid with
      | none => rfl
      | some v => cases v <;> rfl

theorem getChildrenE_eq (w : World) (e : Nat) :
    getChildrenE w e = match compOf w e CompType.children with
      | some i => childrenValOf w i
      | none => [] := by
  unfold getChildrenE childrenValOf
  cases compOf w e CompType.children with
  | none => rfl
  | some iid =>
      cases getCompVal w iid with
      | none => rfl
      | some v => cases v <;> rfl

theorem pushChild_heap (w : World) (cid c : Nat) : (pushChild w cid c).heap = w.heap := by
  unfold pushChild
  split
  · split <;> rfl
  · rfl

theorem spliceChild_heap (w : World) (cid c : Nat) : (spliceChild w cid c).heap = w.heap := by
  unfold spliceChild
  split <;> rfl

theorem getCompVal_amod_val (w : World) (cid : Nat) (v : CompVal) (i : Nat) :
    getCompVal { w with compHeap := amod w.compHeap cid (fun r => { r with val := v }) } i
      = if i = cid then (getCompVal w cid).map (fun _ => v) else getCompVal w i := by
  unfold getCompVal
  by_cases h : i = cid
  · subst h
    simp only [if_pos rfl]
    rw [alookup_amod_self]
    cases alookup w.compHeap i <;> rfl
  · simp only [if_neg h]
    rw [alookup_amod_ne _ _ h]

theorem pushChild_of_val (w : World) (cid c : Nat) (l : List Nat)
    (hcv : getCompVal w cid = some (CompVal.childrenVal l)) :
    pushChild w cid c = if c ∈ l then w
      else { w with compHeap := amod w.compHeap cid (fun r => { r with val := CompVal.childrenVal (l ++ [c]) }) } := by
  unfold pushChild
  rw [hcv]

theorem spliceChild_of_val (w : World) (cid c : Nat) (l : List Nat)
    (hcv : getCompVal w cid = some (CompVal.childrenVal l)) :
    spliceChild w cid c = { w with compHeap := amod w.compHeap cid (fun r => { r with val := CompVal.childrenVal (l.erase c) }) } := by
  unfold spliceChild
  rw [hcv]

theorem pushChild_eq_self (w : World) (cid c : Nat)
    (h : ∀ l, getCompVal w cid ≠ some (CompVal.childrenVal l)) : pushChild w cid c = w := by
  unfold pushChild
  cases hcv : getCompVal w cid with
  | none => rfl
  | some v =>
      cases v with
      | childrenVal l => exact absurd hcv (h l)
      | parentVal p => rfl
      | userVal d => rfl

theorem spliceChild_eq_self (w : World) (cid c : Nat)
    (h : ∀ l, getCompVal w cid ≠ some (CompVal.childrenVal l)) : spliceChild w cid c = w := by
  unfold spliceChild
  cases hcv : getCompVal w cid with
  | none => rfl
  | some v =>
      cases v with
      | childrenVal l => exact absurd hcv (h l)
      | parentVal p => rfl
      | userVal d => rfl

theorem parentValOf_pushChild (w : World) (cid c i : Nat) :
    parentValOf (pushChild w cid c) i = parentValOf w i := by
  by_cases hex : ∃ l, getCompVal w cid = some (CompVal.childrenVal l)
  · obtain ⟨l, hcv⟩ := hex
    rw [pushChild_of_val w cid c l hcv]
    by_cases hc : c ∈ l
    · rw [if_pos hc]
    · rw [if_neg hc]
      unfold parentValOf
      rw [getCompVal_amod_val]
      by_cases hic : i = cid
      · rw [if_pos hic, hic, hcv]
        rfl
      · rw [if_neg hic]
  · rw [pushChild_eq_self w cid c (fun l hl => hex ⟨l, hl⟩)]

theorem parentValOf_spliceChild (w : World) (cid c i : Nat) :
    parentValOf (spliceChild w cid c) i = parentValOf w i := by
  by_cases hex : ∃ l, getCompVal w cid = some (CompVal.childrenVal l)
  · obtain ⟨l, hcv⟩ := hex
    rw [spliceChild_of_val w cid c l hcv]
    unfold parentValOf
    rw [getCompVal_amod_val]
    by_cases hic : i = cid
    · rw [if_pos hic, hic, hcv]
      rfl
    · rw [if_neg hic]
  · rw [spliceChild_eq_self w cid c (fun l hl => hex ⟨l, hl⟩)]

theorem childrenValOf_pushChild_mono (w : World) (cid c i x : Nat)
    (hx : x ∈ childrenValOf w i) : x ∈ childrenValOf (pushChild w cid c) i := by
  by_cases hex : ∃ l, getCompVal w cid = some (CompVal.childrenVal l)
  · obtain ⟨l, hcv⟩ := hex
    rw [pushChild_of_val w cid c l hcv]
    by_cases hc : c ∈ l
    · rw [if_pos hc]
      exact hx
    · rw [if_neg hc]
      unfold childrenValOf at hx ⊢
      rw [getCompVal_amod_val]
      by_cases hic : i = cid
      · rw [if_pos hic]
        rw [hic, hcv] at hx
        rw [hcv]
        simp only [Option.map_some']
        show x ∈ l ++ [c]
        have hx2 : x ∈ l := hx
        exact List.mem_append_left _ hx2
      · rw [if_neg hic]
        exact hx
  · rw [pushChild_eq_self w cid c (fun l hl => hex ⟨l, hl⟩)]
    exact hx

theorem childrenValOf_pushChild_self (w : World) (cid c : Nat) (l : List Nat)
    (hcv : getCompVal w cid = some (CompVal.childrenVal l)) :
    c ∈ childrenValOf (pushChild w cid c) cid := by
  rw [pushChild_of_val w cid c l hcv]
  by_cases hc : c ∈ l
  · rw [if_pos hc]
    unfold childrenValOf
    rw [hcv]
    exact hc
  · rw [if_neg hc]
    unfold childrenValOf
    rw [getCompVal_amod_val, if_pos rfl, hcv]
    simp only [Option.map_some']
    show c ∈ l ++ [c]
    simp

theorem childrenValOf_spliceChild_mono (w : World) (cid c i x : Nat) (hxc : x ≠ c)
    (hx : x ∈ childrenValOf w i) : x ∈ childrenValOf (spliceChild w cid c) i := by
  by_cases hex : ∃ l, getCompVal w cid = some (CompVal.childrenVal l)
  · obtain ⟨l, hcv⟩ := hex
    rw [spliceChild_of_val w cid c l hcv]
    unfold childrenValOf at hx ⊢
    rw [getCompVal_amod_val]
    by_cases hic : i = cid
    · rw [if_pos hic]
      rw [hic, hcv] at hx
      rw [hcv]
      simp only [Option.map_some']
      show x ∈ l.erase c
      have hx2 : x ∈ l := hx
      exact (List.mem_erase_of_ne hxc).mpr hx2
    · rw [if_neg hic]
      exact hx
  · rw [spliceChild_eq_self w cid c (fun l hl => hex ⟨l, hl⟩)]
    exact hx

theorem childShape_pushChild (w : World) (cid c i : Nat) (l : List Nat)
    (h : getCompVal w i = some (CompVal.childrenVal l)) :
    ∃ l', getCompVal (pushChild w cid c) i = some (CompVal.childrenVal l') := by
  by_cases hex : ∃ l0, getCompVal w cid = some (CompVal.childrenVal l0)
  · obtain ⟨l0, hcv⟩ := hex
    rw [pushChild_of_val w cid c l0 hcv]
    by_cases hc : c ∈ l0
    · rw [if_pos hc]
      exact ⟨l, h⟩
    · rw [if_neg hc]
      rw [getCompVal_amod_val]
      by_cases hic : i = cid
      · rw [if_pos hic, hcv]
        exact ⟨l0 ++ [c], rfl⟩
      · rw [if_neg hic]
        exact ⟨l, h⟩
  · rw [pushChild_eq_self w cid c (fun l0 hl => hex ⟨l0, hl⟩)]
    exact ⟨l, h⟩

theorem childShape_spliceChild (w : World) (cid c i : Nat) (l : List Nat)
    (h : getCompVal w i = some (CompVal.childrenVal l)) :
    ∃ l', getCompVal (spliceChild w cid c) i = some (CompVal.childrenVal l') := by
  by_cases hex : ∃ l0, getCompVal w cid = some (CompVal.childrenVal l0)
  · obtain ⟨l0, hcv⟩ := hex
    rw [spliceChild_of_val w cid c l0 hcv]
    rw [getCompVal_amod_val]
    by_cases hic : i = cid
    · rw [if_pos hic, hcv]
      exact ⟨l0.erase c, rfl⟩
    · rw [if_neg hic]
      exact ⟨l, h⟩
  · rw [spliceChild_eq_self w cid c (fun l0 hl => hex ⟨l0, hl⟩)]
    exact ⟨l, h⟩

theorem compOf_some_bound {w : World}
    (hb : ∀ e r, alookup w.heap e = some r → ∀ ty i, alookup r.comps ty = some i →
      i < w.nextIid)
    {e : Nat} {ty : CompType} {i : Nat} (hc : compOf w e ty = some i) : i < w.nextIid := by
  unfold compOf entRec at hc
  cases hh : alookup w.heap e with
  | none => rw [hh] at hc; simp at hc
  | some r =>
      rw [hh] at hc
      exact hb e r hh ty i hc

theorem getCompVal_some_mem {w : World} {i : Nat} {v : CompVal}
    (h : getCompVal w i = some v) : i ∈ akeys w.compHeap := by
  apply (mem_alookup_isSome w.compHeap i).mp
  unfold getCompVal at h
  cases hh : alookup w.compHeap i with
  | none => rw [hh] at h; simp at h
  | some r => simp

theorem pushChild_ids (w : World) (cid c : Nat) :
    (pushChild w cid c).nextEntityID = w.nextEntityID
    ∧ (pushChild w cid c).nextIid = w.nextIid
    ∧ akeys (pushChild w cid c).compHeap = akeys w.compHeap := by
  by_cases hex : ∃ l, getCompVal w cid = some (CompVal.childrenVal l)
  · obtain ⟨l, hcv⟩ := hex
    rw [pushChild_of_val w cid c l hcv]
    by_cases hc : c ∈ l
    · rw [if_pos hc]
      exact ⟨rfl, rfl, rfl⟩
    · rw [if_neg hc]
      refine ⟨rfl, rfl, ?_⟩
      have hk2 : akeys (amod w.compHeap cid
          (fun r => { r with val := CompVal.childrenVal (l ++ [c]) })) = akeys w.compHeap :=
        akeys_amod _ _ _
      exact hk2
  · rw [pushChild_eq_self w cid c (fun l hl => hex ⟨l, hl⟩)]
    exact ⟨rfl, rfl, rfl⟩

theorem compOf_pushChild (w : World) (cid c e : Nat) (ty : CompType) :
    compOf (pushChild w cid c) e ty = compOf w e ty := by
  unfold compOf entRec
  rw [pushChild_heap]

theorem getParentE_pushChild (w : World) (cid c e : Nat) :
    getParentE (pushChild w cid c) e = getParentE w e := by
  rw [getParentE_eq, getParentE_eq, compOf_pushChild]
  cases compOf w e CompType.parent with
  | none => rfl
  | some i =>
      show parentValOf (pushChild w cid c) i = parentValOf w i
      exact parentValOf_pushChild w cid c i

theorem getChildrenE_pushChild_mono (w : World) (cid c e x : Nat)
    (hx : x ∈ getChildrenE w e) : x ∈ getChildrenE (pushChild w cid c) e := by
  rw [getChildrenE_eq] at hx ⊢
  rw [compOf_pushChild]
  cases hc : compOf w e CompType.children with
  | none => rw [hc] at hx; simp at hx
  | some i =>
      rw [hc] at hx
      exact childrenValOf_pushChild_mono w cid c i x hx

theorem hinv_congr {w w' : World} (hw : HInv w)
    (h1 : w'.heap = w.heap) (h2 : w'.compHeap = w.compHeap)
    (h3 : w'.nextEntityID = w.nextEntityID) (h4 : w'.nextIid = w.nextIid) : HInv w' := by
  have hco : ∀ e ty, compOf w' e ty = compOf w e ty := by
    intro e ty
    unfold compOf entRec
    rw [h1]
  have hcv : ∀ i, getCompVal w' i = getCompVal w i := by
    intro i
    unfold getCompVal
    rw [h2]
  have hpar : ∀ c, getParentE w' c = getParentE w c := by
    intro c
    unfold getParentE
    rw [hco]
    cases compOf w c CompType.parent with
    | none => rfl
    | some i =>
        show parentValOf w' i = parentValOf w i
        unfold parentValOf
        rw [hcv i]
  have hch : ∀ e, getChildrenE w' e = getChildrenE w e := by
    intro e
    unfold getChildrenE
    rw [hco]
    cases compOf w e CompType.children with
    | none => rfl
    | some i =>
        show childrenValOf w' i = childrenValOf w i
        unfold childrenValOf
        rw [hcv i]
  refine ⟨?_, ?_, ?_, ?_, ?_⟩
  · rw [h1, h3]; exact hw.heapKeys
  · rw [h1, h4]; exact hw.compBound
  · rw [h2, h4]; exact hw.chBound
  · intro e cid hc
    rw [hco] at hc
    rw [hcv]
    exact hw.childShape e cid hc
  · intro c p hp
    rw [hpar] at hp
    rw [hch]
    exact hw.sym c p hp

theorem hinv_initWorld : HInv initWorld := by
  refine ⟨rfl, ?_, ?_, ?_, ?_⟩
  · intro e r hr; simp [initWorld, alookup] at hr
  · intro k hk; simp [initWorld, akeys] at hk
  · intro e cid hc; simp [initWorld, compOf, entRec, alookup] at hc
  · intro c p hp; simp [initWorld, getParentE, compOf, entRec, alookup] at hp

/-- Characterisation of the entity heap after attaching a component. -/
theorem heap_attach_cases (h : List (Nat × EntityRec)) (e : Nat) (ty : CompType) (iid : Nat)
    (e' : Nat) (r' : EntityRec)
    (hl : alookup (amod h e (fun r => { r with comps := aset r.comps ty iid })) e' = some r')
    (ty' : CompType) (iid' : Nat) (hm : alookup r'.comps ty' = some iid') :
    (e' = e ∧ ty' = ty ∧ iid' = iid)
    ∨ (∃ r0, alookup h e' = some r0 ∧ alookup r0.comps ty' = some iid') := by
  by_cases he : e' = e
  · subst he
    rw [alookup_amod_self] at hl
    cases hh : alookup h e' with
    | none => rw [hh] at hl; simp at hl
    | some r0 =>
        rw [hh] at hl
        simp only [Option.map_some', Option.some.injEq] at hl
        by_cases hty : ty' = ty
        · subst hty
          rw [← hl] at hm
          simp only [alookup_aset_self, Option.some.injEq] at hm
          exact Or.inl ⟨rfl, rfl, hm.symm⟩
        · rw [← hl] at hm
          simp only at hm
          rw [alookup_aset_ne _ _ hty] at hm
          exact Or.inr ⟨r0, rfl, hm⟩
  · rw [alookup_amod_ne _ _ he] at hl
    exact Or.inr ⟨r', hl, hm⟩

/-- Characterisation of the entity heap after detaching a component. -/
theorem heap_detach_cases (h : List (Nat × EntityRec)) (e : Nat) (ty : CompType)
    (e' : Nat) (r' : EntityRec)
    (hl : alookup (amod h e (fun r => { r with comps := adel r.comps ty })) e' = some r')
    (ty' : CompType) (iid' : Nat) (hm : alookup r'.comps ty' = some iid') :
    (∃ r0, alookup h e' = some r0 ∧ alookup r0.comps ty' = some iid')
    ∧ (e' = e → ty' ≠ ty) := by
  by_cases he : e' = e
  · subst he
    rw [alookup_amod_self] at hl
    cases hh : alookup h e' with
    | none => rw [hh] at hl; simp at hl
    | some r0 =>
        rw [hh] at hl
        simp only [Option.map_some', Option.some.injEq] at hl
        by_cases hty : ty' = ty
        · subst hty
          rw [← hl] at hm
          simp at hm
        · rw [← hl] at hm
          simp only at hm
          rw [alookup_adel_ne _ hty] at hm
          exact ⟨⟨r0, rfl, hm⟩, fun _ => hty⟩
  · rw [alookup_amod_ne _ _ he] at hl
    exact ⟨⟨r', hl, hm⟩, fun hcon => absurd hcon he⟩

/-! ## Facts about one component attachment, stated over abstract field
equations so they apply both to the `Parent` attach inside `setParent` and
to the nested `Children` attach inside `Parent.onAdd`. -/

theorem attach_compOf_self (w w2 : World) (e : Nat) (ty : CompType) {re : EntityRec}
    (hre : alookup w.heap e = some re)
    (hheap : w2.heap = amod w.heap e (fun r => { r with comps := aset r.comps ty w.nextIid })) :
    compOf w2 e ty = some w.nextIid := by
  unfold compOf entRec
  rw [hheap, alookup_amod_self, hre]
  simp only [Option.map_some']
  exact alookup_aset_self _ _ _

theorem attach_compOf_ne (w w2 : World) (e : Nat) (ty : CompType)
    (hheap : w2.heap = amod w.heap e (fun r => { r with comps := aset r.comps ty w.nextIid }))
    (e' : Nat) (ty' : CompType) (h : e' ≠ e ∨ ty' ≠ ty) :
    compOf w2 e' ty' = compOf w e' ty' := by
  unfold compOf entRec
  rw [hheap]
  by_cases he : e' = e
  · subst he
    have hty : ty' ≠ ty := h.resolve_left (fun hh => hh rfl)
    rw [alookup_amod_self]
    cases hre : alookup w.heap e' with
    | none => rfl
    | some re =>
        simp only [Option.map_some']
        exact alookup_aset_ne _ _ hty
  · rw [alookup_amod_ne _ _ he]

theorem attach_getCompVal_self (w w2 : World) (cr : CompRec)
    (hch : w2.compHeap = aset w.compHeap w.nextIid cr) :
    getCompVal w2 w.nextIid = some cr.val := by
  unfold getCompVal
  rw [hch, alookup_aset_self]
  rfl

theorem attach_getCompVal_ne (w w2 : World) (cr : CompRec)
    (hch : w2.compHeap = aset w.compHeap w.nextIid cr)
    (i : Nat) (hi : i ≠ w.nextIid) : getCompVal w2 i = getCompVal w i := by
  unfold getCompVal
  rw [hch, alookup_aset_ne _ _ hi]

theorem attach_compBound (w w2 : World) (e : Nat) (ty : CompType)
    (hb : ∀ e' r, alookup w.heap e' = some r → ∀ ty' i, alookup r.comps ty' = some i →
      i < w.nextIid)
    (hheap : w2.heap = amod w.heap e (fun r => { r with comps := aset r.comps ty w.nextIid }))
    (hni : w2.nextIid = w.nextIid + 1) :
    ∀ e' r, alookup w2.heap e' = some r → ∀ ty' i, alookup r.comps ty' = some i →
      i < w2.nextIid := by
  intro e' r hl ty' i hm
  rw [hheap] at hl
  rcases heap_attach_cases w.heap e ty w.nextIid e' r hl ty' i hm with
    ⟨_, _, h3⟩ | ⟨r0, h0, hm0⟩
  · rw [h3, hni]; exact Nat.lt_succ_self _
  · rw [hni]; exact Nat.lt_succ_of_lt (hb e' r0 h0 ty' i hm0)

theorem attach_chBound (w w2 : World) (cr : CompRec)
    (hb : ∀ k ∈ akeys w.compHeap, k < w.nextIid)
    (hch : w2.compHeap = aset w.compHeap w.nextIid cr)
    (hni : w2.nextIid = w.nextIid + 1) :
    ∀ k ∈ akeys w2.compHeap, k < w2.nextIid := by
  intro k hk
  have hfresh : w.nextIid ∉ akeys w.compHeap := fun hmem =>
    absurd (hb _ hmem) (lt_irrefl _)
  rw [hch, akeys_aset_not_mem _ _ _ hfresh] at hk
  rw [hni]
  rcases List.mem_append.mp hk with h1 | h1
  · exact Nat.lt_succ_of_lt (hb k h1)
  · rw [List.mem_singleton.mp h1]
    exact Nat.lt_succ_self _

/-- Transfer of the hierarchy invariant along agreement of the component
observations (used for operations that touch neither component maps nor
instance values: destruction flags, caches, queues). -/
theorem hinv_of_agree {w w' : World} (hw : HInv w)
    (hco : ∀ e ty, compOf w' e ty = compOf w e ty)
    (hcv : ∀ i, getCompVal w' i = getCompVal w i)
    (hk : akeys w'.heap = akeys w.heap)
    (hkch : akeys w'.compHeap = akeys w.compHeap)
    (hne : w'.nextEntityID = w.nextEntityID)
    (hni : w'.nextIid = w.nextIid) : HInv w' := by
  have hpar : ∀ c, getParentE w' c = getParentE w c := by
    intro c
    rw [getParentE_eq, getParentE_eq, hco]
    cases compOf w c CompType.parent with
    | none => rfl
    | some i =>
        show parentValOf w' i = parentValOf w i
        unfold parentValOf
        rw [hcv i]
  have hch : ∀ e, getChildrenE w' e = getChildrenE w e := by
    intro e
    rw [getChildrenE_eq, getChildrenE_eq, hco]
    cases compOf w e CompType.children with
    | none => rfl
    | some i =>
        show childrenValOf w' i = childrenValOf w i
        unfold childrenValOf
        rw [hcv i]
  refine ⟨?_, ?_, ?_, ?_, ?_⟩
  · rw [hk, hne]; exact hw.heapKeys
  · intro e r hl ty i hm
    have hc' : compOf w' e ty = some i := by
      unfold compOf entRec
      rw [hl]
      exact hm
    rw [hco] at hc'
    rw [hni]
    exact compOf_some_bound hw.compBound hc'
  · intro k hk2
    rw [hkch] at hk2
    rw [hni]
    exact hw.chBound k hk2
  · intro e cid hc
    rw [hco] at hc
    rw [hcv]
    exact hw.childShape e cid hc
  · intro c p hp
    rw [hpar] at hp
    rw [hch]
    exact hw.sym c p hp

theorem parentOnAdd_fst_of_parent (w : World) (c iid p : Nat)
    (h1 : compOf w c CompType.parent = some iid)
    (h2 : getCompVal w iid = some (CompVal.parentVal p)) :
    (parentOnAdd w c).1 = match compOf w p CompType.children with
      | some cid => pushChild w cid c
      | none => pushChild
          (addComponentWith noHook w p CompType.children (CompVal.childrenVal [])).1
          w.nextIid c := by
  unfold parentOnAdd
  rw [h1]
  simp only [h2]
  cases hpc : compOf w p CompType.children with
  | some cid => rfl
  | none => rfl

theorem hpend_parentAttach (w w2 : World) (c p : Nat) (hw : HInv w)
    {rc : EntityRec} (hrc : alookup w.heap c = some rc)
    (hheap : w2.heap = amod w.heap c
      (fun r => { r with comps := aset r.comps CompType.parent w.nextIid }))
    (hch : w2.compHeap = aset w.compHeap w.nextIid
      { cty := CompType.parent, val := CompVal.parentVal p, owner := c })
    (hni : w2.nextIid = w.nextIid + 1) (hne : w2.nextEntityID = w.nextEntityID) :
    HPend w2 c ∧ getParentE w2 c = some p := by
  have F1 : compOf w2 c CompType.parent = some w.nextIid :=
    attach_compOf_self w w2 c CompType.parent hrc hheap
  have F2 : getCompVal w2 w.nextIid = some (CompVal.parentVal p) :=
    attach_getCompVal_self w w2 _ hch
  have F4 : ∀ i, i ≠ w.nextIid → getCompVal w2 i = getCompVal w i :=
    attach_getCompVal_ne w w2 _ hch
  have F5 : ∀ e' ty', e' ≠ c ∨ ty' ≠ CompType.parent →
      compOf w2 e' ty' = compOf w e' ty' :=
    attach_compOf_ne w w2 c CompType.parent hheap
  have F9 : ∀ c', c' ≠ c → getParentE w2 c' = getParentE w c' := by
    intro c' hcc
    rw [getParentE_eq, getParentE_eq, F5 c' CompType.parent (Or.inl hcc)]
    cases hpc : compOf w c' CompType.parent with
    | none => rfl
    | some i =>
        show parentValOf w2 i = parentValOf w i
        unfold parentValOf
        rw [F4 i (Nat.ne_of_lt (compOf_some_bound hw.compBound hpc))]
  have F10 : ∀ e, getChildrenE w2 e = getChildrenE w e := by
    intro e
    rw [getChildrenE_eq, getChildrenE_eq, F5 e CompType.children (Or.inr (by decide))]
    cases hpc : compOf w e CompType.children with
    | none => rfl
    | some i =>
        show childrenValOf w2 i = childrenValOf w i
        unfold childrenValOf
        rw [F4 i (Nat.ne_of_lt (compOf_some_bound hw.compBound hpc))]
  refine ⟨⟨?_, ?_, ?_, ?_, ?_⟩, ?_⟩
  · rw [hheap, akeys_amod, hne]; exact hw.heapKeys
  · exact attach_compBound w w2 c CompType.parent hw.compBound hheap hni
  · exact attach_chBound w w2 _ hw.chBound hch hni
  · intro e cid hc2
    rw [F5 e CompType.children (Or.inr (by decide))] at hc2
    obtain ⟨l, hl⟩ := hw.childShape e cid hc2
    have hlt : cid < w.nextIid := hw.chBound cid (getCompVal_some_mem hl)
    exact ⟨l, by rw [F4 cid (Nat.ne_of_lt hlt)]; exact hl⟩
  · intro c' p' hcc hp'
    rw [F9 c' hcc] at hp'
    rw [F10]
    exact hw.sym c' p' hp'
  · rw [getParentE_eq, F1]
    show parentValOf w2 w.nextIid = some p
    unfold parentValOf
    rw [F2]

theorem hpend_childrenAttach (w2 w4 : World) (c p : Nat)
    (hp : HPend w2 c) (hpar : getParentE w2 c = some p)
    (hpcnone : compOf w2 p CompType.children = none)
    {rp : EntityRec} (hrp : alookup w2.heap p = some rp)
    (h4heap : w4.heap = amod w2.heap p
      (fun r => { r with comps := aset r.comps CompType.children w2.nextIid }))
    (h4ch : w4.compHeap = aset w2.compHeap w2.nextIid
      { cty := CompType.children, val := CompVal.childrenVal [], owner := p })
    (h4ni : w4.nextIid = w2.nextIid + 1) (h4ne : w4.nextEntityID = w2.nextEntityID) :
    HPend w4 c ∧ getParentE w4 c = some p
      ∧ compOf w4 p CompType.children = some w2.nextIid := by
  have G1 : compOf w4 p CompType.children = some w2.nextIid :=
    attach_compOf_self w2 w4 p CompType.children hrp h4heap
  have G2 : getCompVal w4 w2.nextIid = some (CompVal.childrenVal []) :=
    attach_getCompVal_self w2 w4 _ h4ch
  have G4 : ∀ i, i ≠ w2.nextIid → getCompVal w4 i = getCompVal w2 i :=
    attach_getCompVal_ne w2 w4 _ h4ch
  have G3 : ∀ e' ty', e' ≠ p ∨ ty' ≠ CompType.children →
      compOf w4 e' ty' = compOf w2 e' ty' :=
    attach_compOf_ne w2 w4 p CompType.children h4heap
  have G9 : ∀ c', getParentE w4 c' = getParentE w2 c' := by
    intro c'
    rw [getParentE_eq, getParentE_eq, G3 c' CompType.parent (Or.inr (by decide))]
    cases hpc : compOf w2 c' CompType.parent with
    | none => rfl
    | some i =>
        show parentValOf w4 i = parentValOf w2 i
        unfold parentValOf
        rw [G4 i (Nat.ne_of_lt (compOf_some_bound hp.compBound hpc))]
  refine ⟨⟨?_, ?_, ?_, ?_, ?_⟩, ?_, G1⟩
  · rw [h4heap, akeys_amod, h4ne]; exact hp.heapKeys
  · exact attach_compBound w2 w4 p CompType.children hp.compBound h4heap h4ni
  · exact attach_chBound w2 w4 _ hp.chBound h4ch h4ni
  · intro e cid hc2
    by_cases hep : e = p
    · subst hep
      rw [G1] at hc2
      injection hc2 with h5
      rw [← h5]
      exact ⟨[], G2⟩
    · rw [G3 e CompType.children (Or.inl hep)] at hc2
      obtain ⟨l, hl⟩ := hp.childShape e cid hc2
      have hlt : cid < w2.nextIid := hp.chBound cid (getCompVal_some_mem hl)
      exact ⟨l, by rw [G4 cid (Nat.ne_of_lt hlt)]; exact hl⟩
  · intro c' p' hcc hp'
    rw [G9 c'] at hp'
    have hmem := hp.sym' c' p' hcc hp'
    by_cases hpp : p' = p
    · subst hpp
      rw [getChildrenE_eq, hpcnone] at hmem
      simp at hmem
    · rw [getChildrenE_eq] at hmem
      rw [getChildrenE_eq, G3 p' CompType.children (Or.inl hpp)]
      cases hpc : compOf w2 p' CompType.children with
      | none => rw [hpc] at hmem; exact hmem
      | some i =>
          rw [hpc] at hmem
          show c' ∈ childrenValOf w4 i
          unfold childrenValOf at hmem ⊢
          rw [G4 i (Nat.ne_of_lt (compOf_some_bound hp.compBound hpc))]
          exact hmem
  · rw [G9 c]
    exact hpar

theorem hinv_push_final (w2 : World) (c p cid : Nat)
    (hp : HPend w2 c) (hpar : getParentE w2 c = some p)
    (hpc : compOf w2 p CompType.children = some cid) :
    HInv (pushChild w2 cid c) := by
  obtain ⟨l, hl⟩ := hp.childShape p cid hpc
  refine ⟨?_, ?_, ?_, ?_, ?_⟩
  · rw [pushChild_heap, (pushChild_ids w2 cid c).1]; exact hp.heapKeys
  · intro e r hl' ty i hm
    rw [pushChild_heap] at hl'
    rw [(pushChild_ids w2 cid c).2.1]
    exact hp.compBound e r hl' ty i hm
  · intro k hk
    rw [(pushChild_ids w2 cid c).2.2] at hk
    rw [(pushChild_ids w2 cid c).2.1]
    exact hp.chBound k hk
  · intro e cid' hc'
    rw [compOf_pushChild] at hc'
    obtain ⟨l', hl'⟩ := hp.childShape e cid' hc'
    exact childShape_pushChild w2 cid c cid' l' hl'
  · intro c' p' hp'
    rw [getParentE_pushChild] at hp'
    by_cases hcc : c' = c
    · subst hcc
      rw [hpar] at hp'
      injection hp' with hpp
      subst hpp
      rw [getChildrenE_eq, compOf_pushChild, hpc]
      show c' ∈ childrenValOf (pushChild w2 cid c') cid
      exact childrenValOf_pushChild_self w2 cid c' l hl
    · have hmem : c' ∈ getChildrenE w2 p' := hp.sym' c' p' hcc hp'
      exact getChildrenE_pushChild_mono w2 cid c p' c' hmem

/-- Preservation of the hierarchy invariant by one `Parent` attachment
followed by the static `Parent.onAdd` hook: the body of `setParent`, stated
over the field equations of the post-attach world. -/
theorem hinv_parentAttach (w w2 : World) (c p : Nat) (hw : HInv w)
    (hcb : c < w.nextEntityID) (hpb : p < w.nextEntityID)
    (hheap : w2.heap = amod w.heap c
      (fun r => { r with comps := aset r.comps CompType.parent w.nextIid }))
    (hch : w2.compHeap = aset w.compHeap w.nextIid
      { cty := CompType.parent, val := CompVal.parentVal p, owner := c })
    (hni : w2.nextIid = w.nextIid + 1) (hne : w2.nextEntityID = w.nextEntityID) :
    HInv (parentOnAdd w2 c).1 := by
  have hcmem : c ∈ akeys w.heap := by
    rw [hw.heapKeys]; exact List.mem_range.mpr hcb
  obtain ⟨rc, hrc⟩ := Option.isSome_iff_exists.mp ((mem_alookup_isSome w.heap c).mpr hcmem)
  have F1 : compOf w2 c CompType.parent = some w.nextIid :=
    attach_compOf_self w w2 c CompType.parent hrc hheap
  have F2 : getCompVal w2 w.nextIid = some (CompVal.parentVal p) :=
    attach_getCompVal_self w w2 _ hch
  obtain ⟨hp2, hpar2⟩ := hpend_parentAttach w w2 c p hw hrc hheap hch hni hne
  rw [parentOnAdd_fst_of_parent w2 c w.nextIid p F1 F2]
  cases hpc : compOf w2 p CompType.children with
  | some cid =>
      show HInv (pushChild w2 cid c)
      exact hinv_push_final w2 c p cid hp2 hpar2 hpc
  | none =>
      show HInv (pushChild
        (addComponentWith noHook w2 p CompType.children (CompVal.childrenVal [])).1
        w2.nextIid c)
      have hpmem : p ∈ akeys w2.heap := by
        rw [hp2.heapKeys, hne]; exact List.mem_range.mpr hpb
      obtain ⟨rp, hrp⟩ :=
        Option.isSome_iff_exists.mp ((mem_alookup_isSome w2.heap p).mpr hpmem)
      obtain ⟨hp4, hpar4, hc4⟩ :=
        hpend_childrenAttach w2
          (addComponentWith noHook w2 p CompType.children (CompVal.childrenVal [])).1
          c p hp2 hpar2 hpc hrp rfl rfl rfl rfl
      exact hinv_push_final _ c p w2.nextIid hp4 hpar4 hc4

/-- Preservation of the hierarchy invariant by `ECS.setParent`. -/
theorem hinv_setParent (w : World) (c p : Nat) (hw : HInv w)
    (hcb : c < w.nextEntityID) (hpb : p < w.nextEntityID) :
    HInv (setParent w c p) := by
  show HInv (parentOnAdd
    (checkE (attachComp w c CompType.parent (CompVal.parentVal p)).1 c) c).1
  exact hinv_parentAttach w _ c p hw hcb hpb rfl rfl rfl rfl

theorem spliceChild_ids (w : World) (cid c : Nat) :
    (spliceChild w cid c).nextEntityID = w.nextEntityID
    ∧ (spliceChild w cid c).nextIid = w.nextIid
    ∧ akeys (spliceChild w cid c).compHeap = akeys w.compHeap := by
  by_cases hex : ∃ l, getCompVal w cid = some (CompVal.childrenVal l)
  · obtain ⟨l, hcv⟩ := hex
    rw [spliceChild_of_val w cid c l hcv]
    refine ⟨rfl, rfl, ?_⟩
    have hk2 : akeys (amod w.compHeap cid
        (fun r => { r with val := CompVal.childrenVal (l.erase c) })) = akeys w.compHeap :=
      akeys_amod _ _ _
    exact hk2
  · rw [spliceChild_eq_self w cid c (fun l hl => hex ⟨l, hl⟩)]
    exact ⟨rfl, rfl, rfl⟩

/-- `Parent.onRemove` either does nothing or splices the removed child out
of one `Children` list. -/
theorem parentOnRemove_cases (w : World) (e : Nat) :
    (parentOnRemove w e).1 = w ∨ ∃ cid, (parentOnRemove w e).1 = spliceChild w cid e := by
  unfold parentOnRemove
  repeat' split
  all_goals first
    | exact Or.inl rfl
    | exact Or.inr ⟨_, rfl⟩

/-- Preservation of the hierarchy invariant by the detach phase of
`removeComponent(entity, Parent)`, after the static `onRemove` hook has run:
stated over the field equations of the final world. -/
theorem hinv_detach_parent (w : World) (e : Nat) (hw : HInv w) (wf w1 : World)
    (hcase : w1 = w ∨ ∃ cid, w1 = spliceChild w cid e)
    (hfheap : wf.heap = amod w1.heap e
      (fun r => { r with comps := adel r.comps CompType.parent }))
    (hfch : wf.compHeap = w1.compHeap)
    (hfni : wf.nextIid = w1.nextIid) (hfne : wf.nextEntityID = w1.nextEntityID) :
    HInv wf := by
  have h1heap : w1.heap = w.heap := by
    rcases hcase with rfl | ⟨cid, rfl⟩
    · rfl
    · exact spliceChild_heap w cid e
  have h1ni : w1.nextIid = w.nextIid := by
    rcases hcase with rfl | ⟨cid, rfl⟩
    · rfl
    · exact (spliceChild_ids w cid e).2.1
  have h1ne : w1.nextEntityID = w.nextEntityID := by
    rcases hcase with rfl | ⟨cid, rfl⟩
    · rfl
    · exact (spliceChild_ids w cid e).1
  have h1keys : akeys w1.compHeap = akeys w.compHeap := by
    rcases hcase with rfl | ⟨cid, rfl⟩
    · rfl
    · exact (spliceChild_ids w cid e).2.2
  have h1pv : ∀ i, parentValOf w1 i = parentValOf w i := by
    rcases hcase with rfl | ⟨cid, rfl⟩
    · intro i; rfl
    · exact parentValOf_spliceChild w cid e
  have h1cvmono : ∀ i x, x ≠ e → x ∈ childrenValOf w i → x ∈ childrenValOf w1 i := by
    rcases hcase with rfl | ⟨cid, rfl⟩
    · intro i x _ hx; exact hx
    · intro i x hxc hx; exact childrenValOf_spliceChild_mono w cid e i x hxc hx
  have h1shape : ∀ i l, getCompVal w i = some (CompVal.childrenVal l) →
      ∃ l', getCompVal w1 i = some (CompVal.childrenVal l') := by
    rcases hcase with rfl | ⟨cid, rfl⟩
    · intro i l hl; exact ⟨l, hl⟩
    · intro i l hl; exact childShape_spliceChild w cid e i l hl
  have hfcv : ∀ i, getCompVal wf i = getCompVal w1 i := by
    intro i; unfold getCompVal; rw [hfch]
  have hfco_ne : ∀ e' ty', e' ≠ e ∨ ty' ≠ CompType.parent →
      compOf wf e' ty' = compOf w e' ty' := by
    intro e' ty' h
    unfold compOf entRec
    rw [hfheap, h1heap]
    by_cases he : e' = e
    · subst he
      have hty : ty' ≠ CompType.parent := h.resolve_left (fun hh => hh rfl)
      rw [alookup_amod_self]
      cases hre : alookup w.heap e' with
      | none => rfl
      | some re =>
          simp only [Option.map_some']
          exact alookup_adel_ne _ hty
    · rw [alookup_amod_ne _ _ he]
  have hfco_e : compOf wf e CompType.parent = none := by
    unfold compOf entRec
    rw [hfheap, h1heap, alookup_amod_self]
    cases hre : alookup w.heap e with
    | none => rfl
    | some re =>
        simp only [Option.map_some']
        exact alookup_adel_self _ _
  refine ⟨?_, ?_, ?_, ?_, ?_⟩
  · rw [hfheap, akeys_amod, h1heap, hfne, h1ne]
    exact hw.heapKeys
  · intro e' r hl ty i hm
    rw [hfheap, h1heap] at hl
    obtain ⟨⟨r0, h0, hm0⟩, _⟩ := heap_detach_cases w.heap e CompType.parent e' r hl ty i hm
    rw [hfni, h1ni]
    exact hw.compBound e' r0 h0 ty i hm0
  · intro k hk
    rw [hfch, h1keys] at hk
    rw [hfni, h1ni]
    exact hw.chBound k hk
  · intro e' cid hc
    rw [hfco_ne e' CompType.children (Or.inr (by decide))] at hc
    obtain ⟨l, hl⟩ := hw.childShape e' cid hc
    obtain ⟨l', hl'⟩ := h1shape cid l hl
    exact ⟨l', by rw [hfcv]; exact hl'⟩
  · intro c' p' hp'
    have hcc : c' ≠ e := by
      intro hceq
      subst hceq
      rw [getParentE_eq, hfco_e] at hp'
      simp at hp'
    rw [getParentE_eq, hfco_ne c' CompType.parent (Or.inl hcc)] at hp'
    cases hco : compOf w c' CompType.parent with
    | none => rw [hco] at hp'; simp at hp'
    | some i =>
        rw [hco] at hp'
        have hpv2 : parentValOf wf i = some p' := hp'
        have hpveq : parentValOf wf i = parentValOf w i := by
          unfold parentValOf
          rw [hfcv i]
          have h2 := h1pv i
          unfold parentValOf at h2
          exact h2
        rw [hpveq] at hpv2
        have hp0 : getParentE w c' = some p' := by
          rw [getParentE_eq, hco]
          exact hpv2
        have hmem := hw.sym c' p' hp0
        rw [getChildrenE_eq] at hmem
        rw [getChildrenE_eq, hfco_ne p' CompType.children (Or.inr (by decide))]
        cases hcc2 : compOf w p' CompType.children with
        | none => rw [hcc2] at hmem; simp at hmem
        | some j =>
            rw [hcc2] at hmem
            show c' ∈ childrenValOf wf j
            have hmem1 : c' ∈ childrenValOf w1 j := h1cvmono j c' hcc hmem
            unfold childrenValOf at hmem1 ⊢
            rw [hfcv j]
            exact hmem1

/-- Preservation of the hierarchy invariant by `ECS.removeParent`. -/
theorem hinv_removeParent (w : World) (e : Nat) (hw : HInv w) :
    HInv (removeParent w e) := by
  show HInv (removeComponent w e CompType.parent).1
  unfold removeComponent
  cases hc : compOf w e CompType.parent with
  | none => exact hw
  | some iid =>
      exact hinv_detach_parent w e hw _ (parentOnRemove w e).1
        (parentOnRemove_cases w e) rfl rfl rfl rfl

theorem heap_aset_cases (h : List (Nat × EntityRec)) (k : Nat) (v : EntityRec)
    (e : Nat) (r : EntityRec) (hl : alookup (aset h k v) e = some r) :
    (e = k ∧ r = v) ∨ alookup h e = some r := by
  by_cases he : e = k
  · subst he
    rw [alookup_aset_self] at hl
    injection hl with h5
    exact Or.inl ⟨rfl, h5.symm⟩
  · rw [alookup_aset_ne _ _ he] at hl
    exact Or.inr hl

/-- Preservation of the hierarchy invariant by `ECS.createEntity`. -/
theorem hinv_createEntity (w : World) (hw : HInv w) : HInv (createEntity w).1 := by
  have hfresh : w.nextEntityID ∉ akeys w.heap := by
    rw [hw.heapKeys]
    simp
  have hh : (createEntity w).1.heap
      = aset w.heap w.nextEntityID { comps := [], destroyed := false } := rfl
  have hco : ∀ e ty, e ≠ w.nextEntityID →
      compOf (createEntity w).1 e ty = compOf w e ty := by
    intro e ty he
    unfold compOf entRec
    rw [hh, alookup_aset_ne _ _ he]
  have hconew : ∀ ty, compOf (createEntity w).1 w.nextEntityID ty = none := by
    intro ty
    unfold compOf entRec
    rw [hh, alookup_aset_self]
    rfl
  have hnone : alookup w.heap w.nextEntityID = none := by
    cases hh2 : alookup w.heap w.nextEntityID with
    | none => rfl
    | some r =>
        exact absurd ((mem_alookup_isSome _ _).mp (by rw [hh2]; rfl)) hfresh
  refine ⟨?_, ?_, ?_, ?_, ?_⟩
  · rw [hh, akeys_aset_not_mem _ _ _ hfresh, hw.heapKeys]
    show List.range w.nextEntityID ++ [w.nextEntityID] = List.range (w.nextEntityID + 1)
    rw [List.range_succ]
  · intro e r hl ty i hm
    rw [hh] at hl
    rcases heap_aset_cases w.heap w.nextEntityID _ e r hl with ⟨_, hr⟩ | hold
    · rw [hr] at hm
      simp at hm
    · exact hw.compBound e r hold ty i hm
  · intro k hk
    exact hw.chBound k hk
  · intro e cid hc
    by_cases he : e = w.nextEntityID
    · subst he
      rw [hconew] at hc
      simp at hc
    · rw [hco e _ he] at hc
      obtain ⟨l, hl⟩ := hw.childShape e cid hc
      exact ⟨l, hl⟩
  · intro c p hp
    by_cases hc' : c = w.nextEntityID
    · subst hc'
      rw [getParentE_eq, hconew CompType.parent] at hp
      simp at hp
    · have hpv : ∀ i, parentValOf (createEntity w).1 i = parentValOf w i := fun i => rfl
      rw [getParentE_eq, hco c CompType.parent hc'] at hp
      have hp0 : getParentE w c = some p := by
        rw [getParentE_eq]
        cases hco2 : compOf w c CompType.parent with
        | none => rw [hco2] at hp; simp at hp
        | some i =>
            rw [hco2] at hp
            show parentValOf w i = some p
            rw [← hpv i]
            exact hp
      have hmem := hw.sym c p hp0
      by_cases hpe : p = w.nextEntityID
      · subst hpe
        have hcnone : compOf w w.nextEntityID CompType.children = none := by
          unfold compOf entRec
          rw [hnone]
        rw [getChildrenE_eq, hcnone] at hmem
        simp at hmem
      · have hchv : ∀ i, childrenValOf (createEntity w).1 i = childrenValOf w i :=
          fun i => rfl
        rw [getChildrenE_eq] at hmem
        rw [getChildrenE_eq, hco p CompType.children hpe]
        cases hco3 : compOf w p CompType.children with
        | none => rw [hco3] at hmem; simp at hmem
        | some i =>
            rw [hco3] at hmem
            show c ∈ childrenValOf (createEntity w).1 i
            rw [hchv i]
            exact hmem

/-- Preservation of the hierarchy invariant by `ECS.destroyEntity` (only
the `destroyed` flag, the entity table, observers and caches change). -/
theorem hinv_destroyEntity (w : World) (d : Nat) (hw : HInv w) :
    HInv (destroyEntity w d) := by
  have hh : (destroyEntity w d).heap
      = amod w.heap d (fun r => { r with destroyed := true }) := rfl
  refine @hinv_of_agree w (destroyEntity w d) hw ?_ (fun i => rfl) ?_ rfl rfl rfl
  · intro e ty
    unfold compOf entRec
    rw [hh]
    by_cases he : e = d
    · subst he
      rw [alookup_amod_self]
      cases hre : alookup w.heap e with
      | none => rfl
      | some re => rfl
    · rw [alookup_amod_ne _ _ he]
  · rw [hh]
    exact akeys_amod _ _ _

theorem hinv_foldl_destroy (l : List Nat) (w : World) (hw : HInv w) :
    HInv (l.foldl destroyEntity w) := by
  induction l generalizing w with
  | nil => exact hw
  | cons d rest ih => exact ih _ (hinv_destroyEntity w d hw)

theorem hinv_flushDestroy (w : World) (hw : HInv w) : HInv (flushDestroy w) := by
  show HInv (w.toDestroy.reverse.foldl destroyEntity { w with toDestroy := [] })
  exact hinv_foldl_destroy _ _ (hinv_congr hw rfl rfl rfl rfl)

theorem hinv_update (w : World) (hw : HInv w) : HInv (update w) := by
  show HInv (flushDestroy
    { w with eventQueues := w.nextFrameEvents, nextFrameEvents := [] })
  exact hinv_flushDestroy _ (hinv_congr hw rfl rfl rfl rfl)

theorem hinv_despawnRec (fuel : Nat) : ∀ (w : World) (e : Nat), HInv w →
    HInv (despawnRec fuel w e) := by
  induction fuel with
  | zero => intro w e hw; exact hw
  | succ n ih =>
      intro w e hw
      show HInv (removeEntity
        ((getChildrenE w e).foldl (fun acc c => despawnRec n acc c) w) e)
      have hfold : ∀ (l : List Nat) (w0 : World), HInv w0 →
          HInv (l.foldl (fun acc c => despawnRec n acc c) w0) := by
        intro l
        induction l with
        | nil => intro w0 h0; exact h0
        | cons a rest ihl => intro w0 h0; exact ihl _ (ih w0 a h0)
      exact hinv_congr (hfold _ w hw) rfl rfl rfl rfl

theorem hinv_applyOp (w : World) (op : Op) (hok : hierOpB op = true) (hw : HInv w) :
    HInv (applyOp w op) := by
  cases op with
  | createE => exact hinv_createEntity w hw
  | addComp e ty v => simp [hierOpB] at hok
  | removeComp e ty => simp [hierOpB] at hok
  | removeEnt e =>
      show HInv (if e < w.nextEntityID then removeEntity w e else w)
      by_cases h : e < w.nextEntityID
      · rw [if_pos h]; exact hinv_congr hw rfl rfl rfl rfl
      · rw [if_neg h]; exact hw
  | updateW => exact hinv_update w hw
  | pushEv t => exact hinv_congr hw rfl rfl rfl rfl
  | triggerEv t target => exact hw
  | setPar c p =>
      show HInv (if c < w.nextEntityID ∧ p < w.nextEntityID then setParent w c p else w)
      by_cases h : c < w.nextEntityID ∧ p < w.nextEntityID
      · rw [if_pos h]; exact hinv_setParent w c p hw h.1 h.2
      · rw [if_neg h]; exact hw
  | removePar e =>
      show HInv (if e < w.nextEntityID then removeParent w e else w)
      by_cases h : e < w.nextEntityID
      · rw [if_pos h]; exact hinv_removeParent w e hw
      · rw [if_neg h]; exact hw
  | despawn fuel e =>
      show HInv (if e < w.nextEntityID then despawnRec fuel w e else w)
      by_cases h : e < w.nextEntityID
      · rw [if_pos h]; exact hinv_despawnRec fuel w e hw
      · rw [if_neg h]; exact hw
  | addObs t l => exact hinv_congr hw rfl rfl rfl rfl
  | addEntObs e t l =>
      show HInv (if e < w.nextEntityID then addEntityObserver w e t l else w)
      by_cases h : e < w.nextEntityID
      · rw [if_pos h]; exact hinv_congr hw rfl rfl rfl rfl
      · rw [if_neg h]; exact hw
  | addInitCb ty l => exact hinv_congr hw rfl rfl rfl rfl
  | addDestroyCb ty l => exact hinv_congr hw rfl rfl rfl rfl
  | regSystem sid req g =>
      show HInv (registerSystem w sid req g)
      unfold registerSystem
      by_cases h : w.systems.any (fun s => s.sid = sid) = true
      · rw [if_pos h]; exact hw
      · rw [if_neg h]; exact hinv_congr hw rfl rfl rfl rfl
  | insertRes rid v => exact hinv_congr hw rfl rfl rfl rfl
  | removeRes rid => exact hinv_congr hw rfl rfl rfl rfl
  | getSingle t =>
      show HInv (getSingleComp w t).2
      unfold getSingleComp
      cases h : getResource w t.rid with
      | some v => exact hw
      | none => exact hinv_congr hw rfl rfl rfl rfl

theorem hinv_applyOps (ops : List Op) : ∀ (w : World),
    (∀ op ∈ ops, hierOpB op = true) → HInv w → HInv (applyOps w ops) := by
  induction ops with
  | nil => intro w _ hw; exact hw
  | cons op rest ih =>
      intro w hops hw
      show HInv (applyOps (applyOp w op) rest)
      exact ih _ (fun o ho => hops o (List.mem_cons_of_mem _ ho))
        (hinv_applyOp w op (hops op (List.mem_cons_self _ _)) hw)

theorem destroyedProps_self (w : World) (e : Nat) (he : (entRec w e).isSome = true) :
    destroyedProps (destroyEntity w e) e := by
  obtain ⟨r, hr⟩ := Option.isSome_iff_exists.mp he
  simp only [entRec] at hr
  refine ⟨?_, ?_, ?_, ?_⟩
  · intro hmem
    exact ((mem_sdel _ _ _).mp hmem).2 rfl
  · intro s hs hmem
    simp only [destroyEntity, List.mem_map] at hs
    obtain ⟨s0, -, rfl⟩ := hs
    exact ((mem_sdel _ _ _).mp hmem).2 rfl
  · simp only [destroyedFlag, entRec, destroyEntity]
    rw [alookup_amod_self, hr]
    rfl
  · simp [destroyEntity]

theorem destroyedProps_mono {w : World} {e : Nat} (h : destroyedProps w e) (d : Nat) :
    destroyedProps (destroyEntity w d) e := by
  obtain ⟨h1, h2, h3, h4⟩ := h
  have hrec : (entRec w e).isSome = true := by
    by_contra hcon
    have : entRec w e = none := by
      cases hh : entRec w e with
      | none => rfl
      | some r => rw [hh] at hcon; simp at hcon
    simp [destroyedFlag, this] at h3
  obtain ⟨r, hr⟩ := Option.isSome_iff_exists.mp hrec
  simp only [entRec] at hr
  refine ⟨?_, ?_, ?_, ?_⟩
  · intro hmem
    exact h1 ((mem_sdel _ _ _).mp hmem).1
  · intro s hs hmem
    simp only [destroyEntity, List.mem_map] at hs
    obtain ⟨s0, hs0, rfl⟩ := hs
    exact h2 s0 hs0 ((mem_sdel _ _ _).mp hmem).1
  · by_cases hde : e = d
    · subst hde
      simp only [destroyedFlag, entRec, destroyEntity]
      rw [alookup_amod_self, hr]
      rfl
    · simp only [destroyedFlag, entRec, destroyEntity]
      rw [alookup_amod_ne _ _ hde]
      exact h3
  · by_cases hde : e = d
    · subst hde
      simp [destroyEntity]
    · simp only [destroyEntity]
      rw [alookup_adel_ne _ hde]
      exact h4

theorem destroyedProps_foldl {w : World} {e : Nat} (h : destroyedProps w e) (l : List Nat) :
    destroyedProps (l.foldl destroyEntity w) e := by
  induction l generalizing w with
  | nil => exact h
  | cons d rest ih => exact ih (destroyedProps_mono h d)

/-! ## Claim C3 (amended): deferred destruction -/

/-- C3 (amended): `removeEntity` only appends the entity to the
destruction queue — the entity table, the entity's components, the
component index, the system caches and the `destroyed` flag are all
untouched until the next `update()`.  After that `update()`'s flush the
entity is out of the entity table and out of every system's cached set,
its entity-scoped observers are discarded and its `destroyed` flag is
true; the per-type component index, however, is left exactly as it was
(destroyed entities' instances are not purged from it). -/
theorem c3_deferred_destruction_amended (w : World) (e : Nat)
    (he : (entRec w e).isSome = true) (hd : destroyedFlag w e = false) :
    removeEntity w e = { w with toDestroy := w.toDestroy ++ [e] }
    ∧ (removeEntity w e).table = w.table
    ∧ (∀ ty, compOf (removeEntity w e) e ty = compOf w e ty)
    ∧ (removeEntity w e).index = w.index
    ∧ (removeEntity w e).systems = w.systems
    ∧ destroyedFlag (removeEntity w e) e = false
    ∧ e ∉ (update (removeEntity w e)).table
    ∧ (∀ s ∈ (update (removeEntity w e)).systems, e ∉ s.cache)
    ∧ destroyedFlag (update (removeEntity w e)) e = true
    ∧ alookup (update (removeEntity w e)).entityObs e = none
    ∧ (update (removeEntity w e)).index = w.index := by
  have hupd : update (removeEntity w e)
      = w.toDestroy.reverse.foldl destroyEntity
          (destroyEntity
            { w with toDestroy := [], eventQueues := w.nextFrameEvents, nextFrameEvents := [] }
            e) := by
    unfold update flushDestroy removeEntity
    simp [List.reverse_append]
  have hbase : (entRec
      { w with toDestroy := [], eventQueues := w.nextFrameEvents, nextFrameEvents := [] }
      e).isSome = true := he
  have hprops : destroyedProps (update (removeEntity w e)) e := by
    rw [hupd]
    exact destroyedProps_foldl (destroyedProps_self _ e hbase) _
  have hindex : (update (removeEntity w e)).index = w.index :=
    (update_events (removeEntity w e)).2.2.2.1
  exact ⟨rfl, rfl, fun ty => rfl, rfl, rfl, hd, hprops.1, hprops.2.1, hprops.2.2.1,
    hprops.2.2.2, hindex⟩

/-- Witness for `c3_deferred_destruction_amended` on a one-entity world
with one component. -/
theorem c3_deferred_destruction_amended_witness :
    (entRec (applyOps initWorld
        [Op.createE, Op.addComp 0 (CompType.plain 0) (CompVal.userVal 5)]) 0).isSome = true
    ∧ destroyedFlag (applyOps initWorld
        [Op.createE, Op.addComp 0 (CompType.plain 0) (CompVal.userVal 5)]) 0 = false
    ∧ destroyedFlag (update (removeEntity (applyOps initWorld
        [Op.createE, Op.addComp 0 (CompType.plain 0) (CompVal.userVal 5)]) 0)) 0 = true
    ∧ (update (removeEntity (applyOps initWorld
        [Op.createE, Op.addComp 0 (CompType.plain 0) (CompVal.userVal 5)]) 0)).index
      = (applyOps initWorld
        [Op.createE, Op.addComp 0 (CompType.plain 0) (CompVal.userVal 5)]).index := by
  have h := c3_deferred_destruction_amended (applyOps initWorld
    [Op.createE, Op.addComp 0 (CompType.plain 0) (CompVal.userVal 5)]) 0
    (by decide) (by decide)
  exact ⟨by decide, by decide, h.2.2.2.2.2.2.2.2.1, h.2.2.2.2.2.2.2.2.2.2⟩

/-! ## Component-index / cache-consistency invariant (claim C2) -/

theorem checkES_fields (w : World) (e : Nat) (s : SysRec) :
    (checkES w e s).req = s.req ∧ (checkES w e s).isGlobal = s.isGlobal := by
  unfold checkES
  split
  · exact ⟨rfl, rfl⟩
  · split
    · exact ⟨rfl, rfl⟩
    · exact ⟨rfl, rfl⟩

theorem checkES_cache_self (w : World) (e : Nat) (s : SysRec) (hg : s.isGlobal = false) :
    e ∈ (checkES w e s).cache ↔ hasAll w e s.req = true := by
  unfold checkES
  rw [if_neg (by simp [hg])]
  by_cases h : hasAll w e s.req = true
  · simp [h]
  · have hfalse : hasAll w e s.req = false := by
      cases hh : hasAll w e s.req
      · rfl
      · exact absurd hh h
    simp [hfalse]

theorem checkES_cache_other (w : World) (e : Nat) (s : SysRec) (e' : Nat) (hne : e' ≠ e) :
    (e' ∈ (checkES w e s).cache ↔ e' ∈ s.cache) := by
  unfold checkES
  split
  · exact Iff.rfl
  · split
    · simp [hne]
    · simp [hne]

theorem checkES_cache_sub (w : World) (e : Nat) (s : SysRec) :
    ∀ x ∈ (checkES w e s).cache,
      x ∈ s.cache ∨ (x = e ∧ hasAll w e s.req = true ∧ s.isGlobal = false) := by
  intro x hx
  unfold checkES at hx
  split at hx
  · exact Or.inl hx
  · split at hx
    · rcases (mem_sadd _ _ _).mp hx with h | h
      · exact Or.inl h
      · rename_i hgl hall
        refine Or.inr ⟨h, hall, ?_⟩
        cases hg : s.isGlobal
        · rfl
        · exact absurd hg hgl
    · exact Or.inl ((mem_sdel _ _ _).mp hx).1

theorem hasAll_entRec_isSome (w : World) (e : Nat) (req : List CompType)
    (hne : req ≠ []) (h : hasAll w e req = true) : (entRec w e).isSome = true := by
  cases req with
  | nil => exact absurd rfl hne
  | cons t0 rest =>
      have h0 : hasComp w e t0 = true := by
        unfold hasAll at h
        simp only [List.all_cons, Bool.and_eq_true] at h
        exact h.1
      unfold hasComp compOf at h0
      cases hh : entRec w e with
      | none => rw [hh] at h0; simp at h0
      | some r => simp [hh]

theorem entRec_amod_isSome (h : List (Nat × EntityRec)) (e : Nat) (f : EntityRec → EntityRec) :
    (alookup (amod h e f) e).isSome = (alookup h e).isSome := by
  rw [alookup_amod_self]
  cases alookup h e <;> rfl

/-- `hasAll` only reads the entity heap. -/
theorem hasAll_eq_of_heap {w w' : World} (h : w'.heap = w.heap) (e : Nat) (req : List CompType) :
    hasAll w' e req = hasAll w e req := by
  unfold hasAll hasComp compOf entRec
  rw [h]

theorem compOf_eq_of_heap {w w' : World} (h : w'.heap = w.heap) (e : Nat) (ty : CompType) :
    compOf w' e ty = compOf w e ty := by
  unfold compOf entRec
  rw [h]

/-- `Inv2` only depends on the listed fields. -/
theorem inv2_congr {w w' : World} (hw : Inv2 w)
    (h1 : w'.toDestroy = w.toDestroy) (h2 : w'.systems = w.systems)
    (h3 : w'.heap = w.heap) (h4 : w'.table = w.table) (h5 : w'.index = w.index)
    (h6 : w'.nextEntityID = w.nextEntityID) (h7 : w'.nextIid = w.nextIid) : Inv2 w' := by
  have hgi : ∀ ty, getIndex w' ty = getIndex w ty := by
    intro ty; unfold getIndex; rw [h5]
  refine ⟨?_, ?_, ?_, ?_, ?_, ?_, ?_⟩
  · rw [h1, hw.queueEmpty]
  · rw [h3, h6]; exact hw.heapKeys
  · rw [h4, h6]; exact hw.tableKeys
  · rw [h2, h4]; exact hw.cacheSub
  · rw [h3, h7]
    intro e r hr ty iid hm
    rw [hgi ty]
    exact hw.idx e r hr ty iid hm
  · rw [h4, h2]
    intro e he s hs hg hr
    rw [hasAll_eq_of_heap h3]
    exact hw.compat e he s hs hg hr
  · rw [h3]; exact hw.inj

theorem inv2_initWorld : Inv2 initWorld := by
  refine ⟨rfl, rfl, rfl, ?_, ?_, ?_, ?_⟩
  · intro s hs; simp [initWorld] at hs
  · intro e r hr; simp [initWorld, alookup] at hr
  · intro e he; simp [initWorld] at he
  · intro e1 r1 e2 r2 ty1 ty2 iid h1; simp [initWorld, alookup] at h1

/-- The attach + index update + membership re-check prefix of
`addComponent` re-establishes the invariant. -/
theorem inv2_attach_check (w : World) (e : Nat) (ty : CompType) (v : CompVal)
    (hw : Inv2 w) : Inv2 (checkE (attachComp w e ty v).1 e) := by
  have hheap : (checkE (attachComp w e ty v).1 e).heap
      = amod w.heap e (fun r => { r with comps := aset r.comps ty w.nextIid }) := rfl
  have hindex : (checkE (attachComp w e ty v).1 e).index
      = aset w.index ty (sadd (getIndex w ty) w.nextIid) := rfl
  have hsystems : (checkE (attachComp w e ty v).1 e).systems
      = w.systems.map (checkES (attachComp w e ty v).1 e) := rfl
  have hW1heap : ((attachComp w e ty v).1).heap
      = amod w.heap e (fun r => { r with comps := aset r.comps ty w.nextIid }) := rfl
  have hgi_self : getIndex (checkE (attachComp w e ty v).1 e) ty
      = sadd (getIndex w ty) w.nextIid := by
    unfold getIndex
    rw [hindex, alookup_aset_self]
    rfl
  have hgi_other : ∀ ty', ty' ≠ ty → getIndex (checkE (attachComp w e ty v).1 e) ty'
      = getIndex w ty' := by
    intro ty' hty
    unfold getIndex
    rw [hindex, alookup_aset_ne _ _ hty]
  have hcomp_other : ∀ e', e' ≠ e → ∀ ty',
      compOf (attachComp w e ty v).1 e' ty' = compOf w e' ty' := by
    intro e' he' ty'
    unfold compOf entRec
    rw [hW1heap, alookup_amod_ne _ _ he']
  have hasAll_other : ∀ e', e' ≠ e → ∀ req,
      hasAll ((attachComp w e ty v).1) e' req = hasAll w e' req := by
    intro e' he' req
    unfold hasAll hasComp
    rw [show (fun t => (compOf (attachComp w e ty v).1 e' t).isSome)
        = (fun t => (compOf w e' t).isSome) from funext (fun t => by
          rw [hcomp_other e' he' t])]
  refine ⟨hw.queueEmpty, ?_, hw.tableKeys, ?_, ?_, ?_, ?_⟩
  · rw [hheap, akeys_amod]
    exact hw.heapKeys
  · rw [hsystems]
    intro s' hs' hg hr x hx
    obtain ⟨s, hsmem, rfl⟩ := List.mem_map.mp hs'
    have hgs : s.isGlobal = false := by
      rw [← (checkES_fields _ e s).2]; exact hg
    have hne : s.req ≠ [] := by
      rw [← (checkES_fields _ e s).1]; exact hr
    rcases checkES_cache_sub _ e s x hx with hold | ⟨rfl, hall, hgl⟩
    · exact hw.cacheSub s hsmem hgs hne x hold
    · have hsome := hasAll_entRec_isSome _ x s.req hne hall
      unfold entRec at hsome
      rw [hW1heap, entRec_amod_isSome] at hsome
      have hkey : x ∈ akeys w.heap := (mem_alookup_isSome w.heap x).mp hsome
      rw [hw.heapKeys] at hkey
      show x ∈ w.table
      rw [hw.tableKeys]
      exact hkey
  · intro e' r' hl ty' iid' hm
    rw [hheap] at hl
    rcases heap_attach_cases w.heap e ty w.nextIid e' r' hl ty' iid' hm with
      ⟨he', hty', hiid'⟩ | ⟨r0, h0, hm0⟩
    · subst hty'
      subst hiid'
      constructor
      · rw [hgi_self]
        simp
      · exact Nat.lt_succ_self _
    · obtain ⟨hin, hlt⟩ := hw.idx e' r0 h0 ty' iid' hm0
      constructor
      · by_cases hty : ty' = ty
        · subst hty
          rw [hgi_self]
          simp [hin]
        · rw [hgi_other ty' hty]
          exact hin
      · exact Nat.lt_succ_of_lt hlt
  · intro e' he' s' hs' hg hr
    rw [hsystems] at hs'
    obtain ⟨s, hsmem, rfl⟩ := List.mem_map.mp hs'
    have hgs : s.isGlobal = false := by
      rw [← (checkES_fields _ e s).2]; exact hg
    have hrs : s.req ≠ [] := by
      rw [← (checkES_fields _ e s).1]; exact hr
    have hhaeq : hasAll (checkE (attachComp w e ty v).1 e) e'
          (checkES (attachComp w e ty v).1 e s).req
        = hasAll ((attachComp w e ty v).1) e' s.req := by
      rw [(checkES_fields (attachComp w e ty v).1 e s).1]
      exact hasAll_eq_of_heap rfl e' s.req
    by_cases hee : e' = e
    · subst hee
      rw [hhaeq]
      exact checkES_cache_self _ e' s hgs
    · rw [hhaeq]
      constructor
      · intro hx
        have hmem := (checkES_cache_other _ e s e' hee).mp hx
        rw [hasAll_other e' hee s.req]
        exact (hw.compat e' he' s hsmem hgs hrs).mp hmem
      · intro hx
        rw [hasAll_other e' hee s.req] at hx
        exact (checkES_cache_other _ e s e' hee).mpr
          ((hw.compat e' he' s hsmem hgs hrs).mpr hx)
  · intro e1 r1 e2 r2 ty1 ty2 iid h1 h2 hm1 hm2
    rw [hheap] at h1 h2
    rcases heap_attach_cases w.heap e ty w.nextIid e1 r1 h1 ty1 iid hm1 with
      ⟨he1, hty1, hiid1⟩ | ⟨r01, h01, hm01⟩
    · rcases heap_attach_cases w.heap e ty w.nextIid e2 r2 h2 ty2 iid hm2 with
        ⟨he2, hty2, hiid2⟩ | ⟨r02, h02, hm02⟩
      · exact ⟨he1.trans he2.symm, hty1.trans hty2.symm⟩
      · have hlt := (hw.idx e2 r02 h02 ty2 iid hm02).2
        rw [hiid1] at hlt
        exact absurd hlt (lt_irrefl _)
    · rcases heap_attach_cases w.heap e ty w.nextIid e2 r2 h2 ty2 iid hm2 with
        ⟨he2, hty2, hiid2⟩ | ⟨r02, h02, hm02⟩
      · have hlt := (hw.idx e1 r01 h01 ty1 iid hm01).2
        rw [hiid2] at hlt
        exact absurd hlt (lt_irrefl _)
      · exact hw.inj e1 r01 e2 r02 ty1 ty2 iid h01 h02 hm01 hm02

theorem inv2_pushChild (w : World) (cid c : Nat) (hw : Inv2 w) : Inv2 (pushChild w cid c) := by
  unfold pushChild
  split
  · split
    · exact hw
    · exact inv2_congr hw rfl rfl rfl rfl rfl rfl rfl
  · exact hw

theorem inv2_spliceChild (w : World) (cid c : Nat) (hw : Inv2 w) :
    Inv2 (spliceChild w cid c) := by
  unfold spliceChild
  split
  · exact inv2_congr hw rfl rfl rfl rfl rfl rfl rfl
  · exact hw

theorem inv2_addComponentWith (hook : World → Nat → World × List Step)
    (hhook : ∀ w' e', Inv2 w' → Inv2 (hook w' e').1)
    (w : World) (e : Nat) (ty : CompType) (v : CompVal) (hw : Inv2 w) :
    Inv2 (addComponentWith hook w e ty v).1 := by
  rw [addComponentWith_fst]
  exact hhook _ e (inv2_attach_check w e ty v hw)

theorem inv2_parentOnAdd (w : World) (c : Nat) (hw : Inv2 w) : Inv2 (parentOnAdd w c).1 := by
  unfold parentOnAdd
  split
  · exact hw
  · split
    · split
      · exact inv2_pushChild _ _ _ hw
      · exact inv2_pushChild _ _ _
          (inv2_addComponentWith noHook (fun w' e' h => h) w _ _ _ hw)
    · exact hw

theorem inv2_staticAddHook (ty : CompType) :
    ∀ w' e', Inv2 w' → Inv2 (staticAddHookFn ty w' e').1 := by
  intro w' e' h
  cases ty with
  | parent => exact inv2_parentOnAdd w' e' h
  | children => exact h
  | plain n => exact h
  | hooked n => exact h

theorem inv2_addComponent (w : World) (e : Nat) (ty : CompType) (v : CompVal)
    (hw : Inv2 w) : Inv2 (addComponent w e ty v).1 :=
  inv2_addComponentWith (staticAddHookFn ty) (inv2_staticAddHook ty) w e ty v hw

theorem inv2_parentOnRemove (w : World) (c : Nat) (hw : Inv2 w) :
    Inv2 (parentOnRemove w c).1 := by
  unfold parentOnRemove
  split
  · exact hw
  · split
    · split
      · exact hw
      · split
        · exact inv2_spliceChild _ _ _ hw
        · exact hw
    · exact hw

theorem inv2_staticRemoveHook (ty : CompType) :
    ∀ w' e', Inv2 w' → Inv2 (staticRemoveHookFn ty w' e').1 := by
  intro w' e' h
  cases ty with
  | parent => exact inv2_parentOnRemove w' e' h
  | children => exact h
  | plain n => exact h
  | hooked n => exact h

theorem staticRemoveHook_heap (ty : CompType) (w : World) (e : Nat) :
    ((staticRemoveHookFn ty w e).1).heap = w.heap := by
  cases ty with
  | parent =>
      show ((parentOnRemove w e).1).heap = w.heap
      unfold parentOnRemove
      split
      · rfl
      · split
        · split
          · rfl
          · split
            · show (spliceChild w _ e).heap = w.heap
              unfold spliceChild
              split <;> rfl
            · rfl
        · rfl
  | children => rfl
  | plain n => rfl
  | hooked n => rfl

/-- The detach + index update + membership re-check suffix of
`removeComponent` re-establishes the invariant.  `w2` is the world after
the detach and index update, described by its field equations. -/
theorem inv2_detach_check (w w2 : World) (e : Nat) (ty : CompType) (iid : Nat)
    (hw : Inv2 w) (hc : compOf w e ty = some iid)
    (hheap : w2.heap = amod w.heap e (fun r => { r with comps := adel r.comps ty }))
    (hindex : w2.index = aset w.index ty (sdel (getIndex w ty) iid))
    (hsys : w2.systems = w.systems) (htab : w2.table = w.table)
    (htd : w2.toDestroy = w.toDestroy) (hnid : w2.nextEntityID = w.nextEntityID)
    (hniid : w2.nextIid = w.nextIid) :
    Inv2 (checkE w2 e) := by
  obtain ⟨re, hre, hme⟩ : ∃ re, alookup w.heap e = some re ∧ alookup re.comps ty = some iid := by
    unfold compOf entRec at hc
    cases hh : alookup w.heap e with
    | none => rw [hh] at hc; simp at hc
    | some r => rw [hh] at hc; exact ⟨r, rfl, hc⟩
  have hgi_self : getIndex (checkE w2 e) ty = sdel (getIndex w ty) iid := by
    show (alookup w2.index ty).getD [] = _
    rw [hindex, alookup_aset_self]
    rfl
  have hgi_other : ∀ ty', ty' ≠ ty → getIndex (checkE w2 e) ty' = getIndex w ty' := by
    intro ty' hty
    show (alookup w2.index ty').getD [] = _
    rw [hindex, alookup_aset_ne _ _ hty]
    rfl
  have hcomp_other : ∀ e', e' ≠ e → ∀ ty', compOf w2 e' ty' = compOf w e' ty' := by
    intro e' he' ty'
    unfold compOf entRec
    rw [hheap, alookup_amod_ne _ _ he']
  have hasAll_other : ∀ e', e' ≠ e → ∀ req, hasAll w2 e' req = hasAll w e' req := by
    intro e' he' req
    unfold hasAll hasComp
    rw [show (fun t => (compOf w2 e' t).isSome) = (fun t => (compOf w e' t).isSome)
      from funext (fun t => by rw [hcomp_other e' he' t])]
  refine ⟨?_, ?_, ?_, ?_, ?_, ?_, ?_⟩
  · show w2.toDestroy = []
    rw [htd]
    exact hw.queueEmpty
  · show akeys w2.heap = List.range w2.nextEntityID
    rw [hheap, akeys_amod, hnid]
    exact hw.heapKeys
  · show w2.table = List.range w2.nextEntityID
    rw [htab, hnid]
    exact hw.tableKeys
  · show ∀ s' ∈ w2.systems.map (checkES w2 e), s'.isGlobal = false → s'.req ≠ [] →
        ∀ x ∈ s'.cache, x ∈ w2.table
    rw [hsys, htab]
    intro s' hs' hg hr x hx
    obtain ⟨s, hsmem, rfl⟩ := List.mem_map.mp hs'
    have hgs : s.isGlobal = false := by
      rw [← (checkES_fields w2 e s).2]; exact hg
    have hne : s.req ≠ [] := by
      rw [← (checkES_fields w2 e s).1]; exact hr
    rcases checkES_cache_sub w2 e s x hx with hold | ⟨rfl, hall, hgl⟩
    · exact hw.cacheSub s hsmem hgs hne x hold
    · have hsome := hasAll_entRec_isSome w2 x s.req hne hall
      unfold entRec at hsome
      rw [hheap, entRec_amod_isSome] at hsome
      have hkey : x ∈ akeys w.heap := (mem_alookup_isSome w.heap x).mp hsome
      rw [hw.heapKeys] at hkey
      rw [hw.tableKeys]
      exact hkey
  · intro e' r' hl ty' iid' hm
    rw [show (checkE w2 e).heap = w2.heap from rfl, hheap] at hl
    obtain ⟨⟨r0, h0, hm0⟩, hexcl⟩ := heap_detach_cases w.heap e ty e' r' hl ty' iid' hm
    obtain ⟨hin, hlt⟩ := hw.idx e' r0 h0 ty' iid' hm0
    constructor
    · by_cases hty : ty' = ty
      · subst hty
        rw [hgi_self, mem_sdel]
        refine ⟨hin, ?_⟩
        intro hcon
        subst hcon
        have hinj := hw.inj e' r0 e re ty' ty' iid' h0 hre hm0 hme
        exact hexcl hinj.1 rfl
      · rw [hgi_other ty' hty]
        exact hin
    · show iid' < w2.nextIid
      rw [hniid]
      exact hlt
  · show ∀ e' ∈ w2.table, ∀ s' ∈ w2.systems.map (checkES w2 e), s'.isGlobal = false →
        s'.req ≠ [] → (e' ∈ s'.cache ↔ hasAll (checkE w2 e) e' s'.req = true)
    rw [htab, hsys]
    intro e' he' s' hs' hg hr
    obtain ⟨s, hsmem, rfl⟩ := List.mem_map.mp hs'
    have hgs : s.isGlobal = false := by
      rw [← (checkES_fields w2 e s).2]; exact hg
    have hrs : s.req ≠ [] := by
      rw [← (checkES_fields w2 e s).1]; exact hr
    have hhaeq : hasAll (checkE w2 e) e' (checkES w2 e s).req = hasAll w2 e' s.req := by
      rw [(checkES_fields w2 e s).1]
      exact hasAll_eq_of_heap rfl e' s.req
    by_cases hee : e' = e
    · subst hee
      rw [hhaeq]
      exact checkES_cache_self w2 e' s hgs
    · rw [hhaeq, hasAll_other e' hee s.req]
      constructor
      · intro hx
        exact (hw.compat e' he' s hsmem hgs hrs).mp
          ((checkES_cache_other w2 e s e' hee).mp hx)
      · intro hx
        exact (checkES_cache_other w2 e s e' hee).mpr
          ((hw.compat e' he' s hsmem hgs hrs).mpr hx)
  · intro e1 r1 e2 r2 ty1 ty2 iid0 h1 h2 hm1 hm2
    rw [show (checkE w2 e).heap = w2.heap from rfl, hheap] at h1 h2
    obtain ⟨⟨r01, h01, hm01⟩, -⟩ := heap_detach_cases w.heap e ty e1 r1 h1 ty1 iid0 hm1
    obtain ⟨⟨r02, h02, hm02⟩, -⟩ := heap_detach_cases w.heap e ty e2 r2 h2 ty2 iid0 hm2
    exact hw.inj e1 r01 e2 r02 ty1 ty2 iid0 h01 h02 hm01 hm02

theorem inv2_removeComponent (w : World) (e : Nat) (ty : CompType) (hw : Inv2 w) :
    Inv2 (removeComponent w e ty).1 := by
  unfold removeComponent
  cases hc : compOf w e ty with
  | none => exact hw
  | some iid =>
      exact inv2_detach_check (staticRemoveHookFn ty w e).1 _ e ty iid
        (inv2_staticRemoveHook ty w e hw)
        (by rw [compOf_eq_of_heap (staticRemoveHook_heap ty w e)]; exact hc)
        rfl rfl rfl rfl rfl rfl rfl

theorem inv2_createEntity (w : World) (hw : Inv2 w) : Inv2 (createEntity w).1 := by
  have hfresh : w.nextEntityID ∉ akeys w.heap := by
    rw [hw.heapKeys]
    simp
  have hheap : ((createEntity w).1).heap
      = aset w.heap w.nextEntityID { comps := [], destroyed := false } := rfl
  have hcomp_new : ∀ ty, compOf (createEntity w).1 w.nextEntityID ty = none := by
    intro ty
    unfold compOf entRec
    rw [hheap, alookup_aset_self]
    rfl
  have hcomp_old : ∀ e', e' ≠ w.nextEntityID → ∀ ty,
      compOf (createEntity w).1 e' ty = compOf w e' ty := by
    intro e' he ty
    unfold compOf entRec
    rw [hheap, alookup_aset_ne _ _ he]
  refine ⟨hw.queueEmpty, ?_, ?_, ?_, ?_, ?_, ?_⟩
  · show akeys (aset w.heap w.nextEntityID { comps := [], destroyed := false })
      = List.range (w.nextEntityID + 1)
    rw [akeys_aset_not_mem _ _ _ hfresh, hw.heapKeys, List.range_succ]
  · show w.table ++ [w.nextEntityID] = List.range (w.nextEntityID + 1)
    rw [hw.tableKeys, List.range_succ]
  · intro s hs hg hr x hx
    exact List.mem_append_left _ (hw.cacheSub s hs hg hr x hx)
  · intro e' r' hl ty iid hm
    rw [hheap] at hl
    by_cases he : e' = w.nextEntityID
    · subst he
      rw [alookup_aset_self] at hl
      cases hl
      simp [alookup] at hm
    · rw [alookup_aset_ne _ _ he] at hl
      exact hw.idx e' r' hl ty iid hm
  · intro e' he' s hs hg hr
    rcases List.mem_append.mp he' with hin | hnew
    · have hold := hw.compat e' hin s hs hg hr
      have hne : e' ≠ w.nextEntityID := by
        rw [hw.tableKeys] at hin
        have := List.mem_range.mp hin
        omega
      have hh : hasAll (createEntity w).1 e' s.req = hasAll w e' s.req := by
        unfold hasAll hasComp
        rw [show (fun t => (compOf (createEntity w).1 e' t).isSome)
          = (fun t => (compOf w e' t).isSome) from funext (fun t => by
            rw [hcomp_old e' hne t])]
      rw [hh]
      exact hold
    · have he2 : e' = w.nextEntityID := by simpa using hnew
      subst he2
      constructor
      · intro hx
        have hmem := hw.cacheSub s hs hg hr w.nextEntityID hx
        rw [hw.tableKeys] at hmem
        have := List.mem_range.mp hmem
        omega
      · intro hx
        exfalso
        cases hreq : s.req with
        | nil => exact hr hreq
        | cons t0 rest =>
            rw [hreq] at hx
            unfold hasAll at hx
            simp only [List.all_cons, Bool.and_eq_true] at hx
            have h0 := hx.1
            unfold hasComp at h0
            rw [hcomp_new t0] at h0
            simp at h0
  · intro e1 r1 e2 r2 ty1 ty2 iid h1 h2 hm1 hm2
    rw [hheap] at h1 h2
    by_cases ha : e1 = w.nextEntityID
    · subst ha
      rw [alookup_aset_self] at h1
      cases h1
      simp [alookup] at hm1
    · rw [alookup_aset_ne _ _ ha] at h1
      by_cases hb : e2 = w.nextEntityID
      · subst hb
        rw [alookup_aset_self] at h2
        cases h2
        simp [alookup] at hm2
      · rw [alookup_aset_ne _ _ hb] at h2
        exact hw.inj e1 r1 e2 r2 ty1 ty2 iid h1 h2 hm1 hm2

theorem update_of_queueEmpty (w : World) (hq : w.toDestroy = []) :
    update w = { w with toDestroy := [], eventQueues := w.nextFrameEvents, nextFrameEvents := [] } := by
  unfold update flushDestroy
  rw [hq]
  rfl

theorem inv2_update (w : World) (hw : Inv2 w) : Inv2 (update w) := by
  rw [update_of_queueEmpty w hw.queueEmpty]
  exact inv2_congr hw hw.queueEmpty.symm rfl rfl rfl rfl rfl rfl

theorem foldl_checkES_fields (w : World) (todo : List Nat) (s : SysRec) :
    (todo.foldl (fun s e => checkES w e s) s).req = s.req
    ∧ (todo.foldl (fun s e => checkES w e s) s).isGlobal = s.isGlobal := by
  induction todo generalizing s with
  | nil => exact ⟨rfl, rfl⟩
  | cons c rest ih =>
      rw [List.foldl_cons]
      obtain ⟨h1, h2⟩ := ih (checkES w c s)
      exact ⟨h1.trans (checkES_fields w c s).1, h2.trans (checkES_fields w c s).2⟩

theorem foldl_checkES_not_mem (w : World) (todo : List Nat) :
    ∀ (s : SysRec) (e : Nat), e ∉ todo →
      (e ∈ (todo.foldl (fun s e => checkES w e s) s).cache ↔ e ∈ s.cache) := by
  induction todo with
  | nil => intro s e _; exact Iff.rfl
  | cons c rest ih =>
      intro s e he
      rw [List.foldl_cons]
      have hc : e ≠ c := fun h => he (h ▸ List.mem_cons_self _ _)
      rw [ih (checkES w c s) e (fun h => he (List.mem_cons_of_mem _ h))]
      exact checkES_cache_other w c s e hc

theorem foldl_checkES_mem (w : World) (todo : List Nat) :
    ∀ (s : SysRec) (e : Nat), e ∈ todo → s.isGlobal = false →
      (e ∈ (todo.foldl (fun s e => checkES w e s) s).cache ↔ hasAll w e s.req = true) := by
  induction todo with
  | nil => intro s e he _; simp at he
  | cons c rest ih =>
      intro s e he hg
      rw [List.foldl_cons]
      by_cases hr : e ∈ rest
      · rw [ih (checkES w c s) e hr ((checkES_fields w c s).2.trans hg),
          (checkES_fields w c s).1]
      · have hec : e = c := by
          rcases List.mem_cons.mp he with h | h
          · exact h
          · exact absurd h hr
        subst hec
        rw [foldl_checkES_not_mem w rest (checkES w e s) e hr]
        exact checkES_cache_self w e s hg

theorem foldl_checkES_cache_sub (w : World) (todo : List Nat) :
    ∀ (s : SysRec) (x : Nat), x ∈ (todo.foldl (fun s e => checkES w e s) s).cache →
      x ∈ s.cache ∨ x ∈ todo := by
  induction todo with
  | nil => intro s x hx; exact Or.inl hx
  | cons c rest ih =>
      intro s x hx
      rw [List.foldl_cons] at hx
      rcases ih (checkES w c s) x hx with h | h
      · rcases checkES_cache_sub w c s x h with h2 | ⟨rfl, -, -⟩
        · exact Or.inl h2
        · exact Or.inr (List.mem_cons_self _ _)
      · exact Or.inr (List.mem_cons_of_mem _ h)

theorem inv2_registerSystem (w : World) (sid : Nat) (req : List CompType) (g : Bool)
    (hw : Inv2 w) : Inv2 (registerSystem w sid req g) := by
  unfold registerSystem
  split
  · exact hw
  · refine ⟨hw.queueEmpty, hw.heapKeys, hw.tableKeys, ?_, ?_, ?_, ?_⟩
    · intro s hs hg hr x hx
      rcases List.mem_append.mp hs with h | h
      · exact hw.cacheSub s h hg hr x hx
      · have hs1 : s = w.table.foldl (fun s e => checkES w e s)
            { sid := sid, req := req, isGlobal := g, cache := [] } := by
          simpa using h
        subst hs1
        rcases foldl_checkES_cache_sub w w.table _ x hx with h2 | h2
        · simp at h2
        · exact h2
    · intro e r hl ty iid hm
      exact hw.idx e r hl ty iid hm
    · intro e he s hs hg hr
      rcases List.mem_append.mp hs with h | h
      · exact hw.compat e he s h hg hr
      · have hs1 : s = w.table.foldl (fun s e => checkES w e s)
            { sid := sid, req := req, isGlobal := g, cache := [] } := by
          simpa using h
        subst hs1
        have hg0 : ({ sid := sid, req := req, isGlobal := g, cache := [] } : SysRec).isGlobal
            = false := by
          rw [← (foldl_checkES_fields w w.table
            { sid := sid, req := req, isGlobal := g, cache := [] }).2]
          exact hg
        rw [(foldl_checkES_fields w w.table
          { sid := sid, req := req, isGlobal := g, cache := [] }).1]
        exact foldl_checkES_mem w w.table _ e he hg0
    · intro e1 r1 e2 r2 ty1 ty2 iid h1 h2 hm1 hm2
      exact hw.inj e1 r1 e2 r2 ty1 ty2 iid h1 h2 hm1 hm2

theorem inv2_applyOp (w : World) (op : Op) (hok : okOpB op = true) (hw : Inv2 w) :
    Inv2 (applyOp w op) := by
  cases op with
  | createE => exact inv2_createEntity w hw
  | addComp e ty v =>
      simp only [applyOp]
      split
      · exact inv2_addComponent w e ty v hw
      · exact hw
  | removeComp e ty =>
      simp only [applyOp]
      split
      · exact inv2_removeComponent w e ty hw
      · exact hw
  | removeEnt e => simp [okOpB] at hok
  | updateW => exact inv2_update w hw
  | pushEv t => exact inv2_congr hw rfl rfl rfl rfl rfl rfl rfl
  | triggerEv t tgt => exact hw
  | setPar c p =>
      simp only [applyOp]
      split
      · exact inv2_addComponent w c CompType.parent (CompVal.parentVal p) hw
      · exact hw
  | removePar e =>
      simp only [applyOp]
      split
      · exact inv2_removeComponent w e CompType.parent hw
      · exact hw
  | despawn fuel e => simp [okOpB] at hok
  | addObs t l => exact inv2_congr hw rfl rfl rfl rfl rfl rfl rfl
  | addEntObs e t l =>
      simp only [applyOp]
      split
      · exact inv2_congr hw rfl rfl rfl rfl rfl rfl rfl
      · exact hw
  | addInitCb ty l => exact inv2_congr hw rfl rfl rfl rfl rfl rfl rfl
  | addDestroyCb ty l => exact inv2_congr hw rfl rfl rfl rfl rfl rfl rfl
  | regSystem sid req g => exact inv2_registerSystem w sid req g hw
  | insertRes rid v => exact inv2_congr hw rfl rfl rfl rfl rfl rfl rfl
  | removeRes rid => exact inv2_congr hw rfl rfl rfl rfl rfl rfl rfl
  | getSingle t =>
      simp only [applyOp]
      unfold getSingleComp
      split
      · exact hw
      · exact inv2_congr hw rfl rfl rfl rfl rfl rfl rfl

theorem inv2_applyOps (w : World) (ops : List Op)
    (hok : ∀ op ∈ ops, okOpB op = true) (hw : Inv2 w) : Inv2 (applyOps w ops) := by
  induction ops generalizing w with
  | nil => exact hw
  | cons op rest ih =>
      exact ih (applyOp w op)
        (fun o ho => hok o (List.mem_cons_of_mem _ ho))
        (inv2_applyOp w op (hok op (List.mem_cons_self _ _)) hw)

/-- Counterexample to C2 as stated: one registered (non-global) system
requiring two component classes, one entity holding only the first.  The
entity has the component, yet it is not in the system's cached set even
though the system's `componentsRequired` includes that class. -/
theorem c2_counterexample :
    ¬ claimIndexConsistency
      (applyOps initWorld
        [Op.regSystem 0 [CompType.plain 0, CompType.plain 1] false,
         Op.createE,
         Op.addComp 0 (CompType.plain 0) (CompVal.userVal 7)])
      0 (CompType.plain 0) := by
  intro h
  have h2 := h.2.1 (by decide)
  have h3 := h2 (⟨0, [CompType.plain 0, CompType.plain 1], false, []⟩ : SysRec)
    (by decide) (by decide) (by decide)
  simp at h3

/-- C2 (amended): after any sequence of `createEntity` / `addComponent` /
`removeComponent` / `update` calls (together with the other calls that do
not request entity destruction), for every entity in the entity table:
`E.has(C)` iff the `componentsByType` set for C contains E's instance of C,
and each registered non-global system that declares at least one required
component class caches E iff E has every class in its `componentsRequired`
— so E sits in the cache of a system requiring C exactly when E also has
the system's other required classes.  A non-global system registered with
an empty `componentsRequired` is genuinely out of sync, in the model as in
`World.ts`: `registerSystem` scans only the entities existing at
registration and `createEntity` runs no re-check, so a later-created
entity vacuously satisfies `_hasAll([])` without being cached until its
next `addComponent`/`removeComponent`. -/
theorem c2_index_consistency_amended (ops : List Op)
    (hok : ∀ op ∈ ops, okOpB op = true) (e : Nat) (ty : CompType)
    (he : e ∈ (applyOps initWorld ops).table) :
    hasComp (applyOps initWorld ops) e ty = instanceInIndex (applyOps initWorld ops) e ty
    ∧ ∀ s ∈ (applyOps initWorld ops).systems, s.isGlobal = false → s.req ≠ [] →
        (e ∈ s.cache ↔ hasAll (applyOps initWorld ops) e s.req = true) := by
  have hw := inv2_applyOps initWorld ops hok inv2_initWorld
  constructor
  · unfold hasComp instanceInIndex
    cases hc : compOf (applyOps initWorld ops) e ty with
    | none => rfl
    | some iid =>
        obtain ⟨r, hr, hm⟩ : ∃ r, alookup (applyOps initWorld ops).heap e = some r
            ∧ alookup r.comps ty = some iid := by
          unfold compOf entRec at hc
          cases hh : alookup (applyOps initWorld ops).heap e with
          | none => rw [hh] at hc; simp at hc
          | some r => rw [hh] at hc; exact ⟨r, rfl, hc⟩
        have hin := (hw.idx e r hr ty iid hm).1
        simp [hin]
  · intro s hs hg hr
    exact hw.compat e he s hs hg hr

/-- Witness for `c2_index_consistency_amended`: one one-component system,
one non-global system with empty requirements registered alongside it, one
entity holding the component. -/
theorem c2_index_consistency_amended_witness :
    (∀ op ∈ [Op.regSystem 0 [CompType.plain 0] false, Op.regSystem 1 [] false,
        Op.createE, Op.addComp 0 (CompType.plain 0) (CompVal.userVal 1), Op.updateW],
      okOpB op = true)
    ∧ 0 ∈ (applyOps initWorld [Op.regSystem 0 [CompType.plain 0] false,
        Op.regSystem 1 [] false, Op.createE,
        Op.addComp 0 (CompType.plain 0) (CompVal.userVal 1), Op.updateW]).table
    ∧ (hasComp (applyOps initWorld [Op.regSystem 0 [CompType.plain 0] false,
          Op.regSystem 1 [] false, Op.createE,
          Op.addComp 0 (CompType.plain 0) (CompVal.userVal 1), Op.updateW])
          0 (CompType.plain 0)
        = instanceInIndex (applyOps initWorld [Op.regSystem 0 [CompType.plain 0] false,
          Op.regSystem 1 [] false, Op.createE,
          Op.addComp 0 (CompType.plain 0) (CompVal.userVal 1), Op.updateW])
          0 (CompType.plain 0)
      ∧ ∀ s ∈ (applyOps initWorld [Op.regSystem 0 [CompType.plain 0] false,
          Op.regSystem 1 [] false, Op.createE,
          Op.addComp 0 (CompType.plain 0) (CompVal.userVal 1), Op.updateW]).systems,
          s.isGlobal = false → s.req ≠ [] →
          (0 ∈ s.cache ↔ hasAll (applyOps initWorld
            [Op.regSystem 0 [CompType.plain 0] false, Op.regSystem 1 [] false,
             Op.createE, Op.addComp 0 (CompType.plain 0) (CompVal.userVal 1),
             Op.updateW]) 0 s.req = true)) :=
  ⟨by decide, by decide,
    c2_index_consistency_amended
      [Op.regSystem 0 [CompType.plain 0] false, Op.regSystem 1 [] false,
       Op.createE, Op.addComp 0 (CompType.plain 0) (CompVal.userVal 1), Op.updateW]
      (by decide) 0 (CompType.plain 0) (by decide)⟩

/-- Counterexample to C3 as stated: an entity with one component, queued by
`removeEntity` and flushed by `update`, is gone from the entity table but
its component instance is still in `componentsByType` (the flush never
purges the per-type index). -/
theorem c3_counterexample :
    ¬ claimAbsentAfterFlush
      (applyOps initWorld
        [Op.createE,
         Op.addComp 0 (CompType.plain 0) (CompVal.userVal 5),
         Op.removeEnt 0,
         Op.updateW])
      0 := by
  intro h
  have h3 := h.2.2.1 (CompType.plain 0, 0) (by decide)
  exact h3 (by decide)

/-- Counterexample to C4 as stated: after re-parenting entity 2 from
entity 0 to entity 1, entity 2 is still in entity 0's `Children` list,
while `getParent` now answers entity 1. -/
theorem c4_counterexample :
    ¬ claimHierarchySymmetry
      (applyOps initWorld
        [Op.createE, Op.createE, Op.createE, Op.setPar 2 0, Op.setPar 2 1]) := by
  intro h
  have h2 := (h 2 0).2 (by decide)
  have : ¬ (getParentE (applyOps initWorld
      [Op.createE, Op.createE, Op.createE, Op.setPar 2 0, Op.setPar 2 1]) 2
      = some 0) := by decide
  exact this h2

/-- C4 (amended): after any sequence of hierarchy-level calls against a
fresh world — `setParent` / `removeParent` / `despawnRecursive` plus entity
creation, deferred destruction, updates and the non-component calls, i.e.
everything except raw `addComponent` / `removeComponent` — the parent link
is mirrored in the parent's `Children` list: `A.getParent() === B` implies
`B.getChildren().includes(A)`.  The spec's converse direction fails under
re-parenting (`c4_counterexample`), so only this direction holds. -/
theorem c4_hierarchy_symmetry_amended (ops : List Op)
    (hops : ∀ op ∈ ops, hierOpB op = true) (c p : Nat)
    (hp : getParentE (applyOps initWorld ops) c = some p) :
    c ∈ getChildrenE (applyOps initWorld ops) p :=
  (hinv_applyOps ops initWorld hops hinv_initWorld).sym c p hp

/-- Witness for `c4_hierarchy_symmetry_amended` on a concrete call list. -/
theorem c4_hierarchy_symmetry_amended_witness :
    (∀ op ∈ [Op.createE, Op.createE, Op.setPar 1 0], hierOpB op = true)
    ∧ getParentE (applyOps initWorld [Op.createE, Op.createE, Op.setPar 1 0]) 1 = some 0
    ∧ 1 ∈ getChildrenE (applyOps initWorld [Op.createE, Op.createE, Op.setPar 1 0]) 0 :=
  ⟨by decide, by decide,
    c4_hierarchy_symmetry_amended [Op.createE, Op.createE, Op.setPar 1 0]
      (by decide) 1 0 (by decide)⟩

theorem mem_insertTs (x : IntentRecord D) (l : List (IntentRecord D)) (z : IntentRecord D) :
    z ∈ insertTs x l ↔ z ∈ l ∨ z = x := by
  induction l with
  | nil => simp [insertTs]
  | cons y ys ih =>
      by_cases h : y.timestamp < x.timestamp
      · simp only [insertTs, if_pos h, List.mem_cons, ih]
        tauto
      · simp only [insertTs, if_neg h, List.mem_cons]
        tauto

theorem pairwise_insertTs (x : IntentRecord D) (l : List (IntentRecord D))
    (hl : List.Pairwise (fun a b => a.timestamp ≤ b.timestamp) l) :
    List.Pairwise (fun a b => a.timestamp ≤ b.timestamp) (insertTs x l) := by
  induction l with
  | nil => simp [insertTs]
  | cons y ys ih =>
      rcases List.pairwise_cons.mp hl with ⟨hy, hys⟩
      by_cases h : y.timestamp < x.timestamp
      · rw [insertTs, if_pos h]
        refine List.pairwise_cons.mpr ⟨?_, ih hys⟩
        intro z hz
        rcases (mem_insertTs x ys z).mp hz with hz1 | rfl
        · exact hy z hz1
        · exact Nat.le_of_lt h
      · rw [insertTs, if_neg h]
        have hxy : x.timestamp ≤ y.timestamp := Nat.le_of_not_lt h
        refine List.pairwise_cons.mpr ⟨?_, hl⟩
        intro z hz
        rcases List.mem_cons.mp hz with rfl | hz1
        · exact hxy
        · exact le_trans hxy (hy z hz1)

theorem pairwise_sortByTs (l : List (IntentRecord D)) :
    List.Pairwise (fun a b => a.timestamp ≤ b.timestamp) (sortByTs l) := by
  induction l with
  | nil => simp [sortByTs]
  | cons x xs ih => exact pairwise_insertTs x _ ih

theorem filter_ts_insertTs (x : IntentRecord D) (l : List (IntentRecord D)) (t : Nat) :
    (insertTs x l).filter (fun r => decide (r.timestamp = t))
      = if x.timestamp = t
        then x :: l.filter (fun r => decide (r.timestamp = t))
        else l.filter (fun r => decide (r.timestamp = t)) := by
  induction l with
  | nil =>
      by_cases hx : x.timestamp = t <;> simp [insertTs, List.filter_cons, hx]
  | cons y ys ih =>
      by_cases h : y.timestamp < x.timestamp
      · rw [insertTs, if_pos h]
        by_cases hx : x.timestamp = t
        · have hy : ¬ (y.timestamp = t) := by omega
          simp [List.filter_cons, hy, ih, hx]
        · simp [List.filter_cons, ih, hx]
      · rw [insertTs, if_neg h]
        by_cases hx : x.timestamp = t <;> simp [List.filter_cons, hx]

theorem filter_ts_sortByTs (l : List (IntentRecord D)) (t : Nat) :
    (sortByTs l).filter (fun r => decide (r.timestamp = t))
      = l.filter (fun r => decide (r.timestamp = t)) := by
  induction l with
  | nil => rfl
  | cons x xs ih =>
      show ((insertTs x (sortByTs xs)).filter _) = _
      rw [filter_ts_insertTs]
      by_cases hx : x.timestamp = t
      · rw [if_pos hx, ih]
        simp [List.filter_cons, hx]
      · rw [if_neg hx, ih]
        simp [List.filter_cons, hx]

theorem insertTs_map_priority (q : Int) (x : IntentRecord D) (l : List (IntentRecord D)) :
    insertTs { x with priority := q } (l.map (fun r => { r with priority := q }))
      = (insertTs x l).map (fun r => { r with priority := q }) := by
  induction l with
  | nil => rfl
  | cons y ys ih =>
      by_cases h : y.timestamp < x.timestamp
      · simp only [List.map_cons, insertTs, if_pos h, ih]
      · simp only [List.map_cons, insertTs, if_neg h]

theorem sortByTs_map_priority (q : Int) (l : List (IntentRecord D)) :
    sortByTs (l.map (fun r => { r with priority := q }))
      = (sortByTs l).map (fun r => { r with priority := q }) := by
  induction l with
  | nil => rfl
  | cons x xs ih =>
      show insertTs _ (sortByTs (xs.map _)) = _
      rw [ih]
      exact insertTs_map_priority q x (sortByTs xs)

theorem insertTs_eq_cons_of_all_ge (x : IntentRecord D) (l : List (IntentRecord D))
    (h : ∀ z ∈ l, x.timestamp ≤ z.timestamp) : insertTs x l = x :: l := by
  cases l with
  | nil => rfl
  | cons y ys =>
      have : ¬ (y.timestamp < x.timestamp) :=
        Nat.not_lt.mpr (h y (List.mem_cons_self _ _))
      rw [insertTs, if_neg this]

theorem filter_insertTs_of_sorted (q : IntentRecord D → Bool) (x : IntentRecord D)
    (l : List (IntentRecord D))
    (hl : List.Pairwise (fun a b => a.timestamp ≤ b.timestamp) l) :
    (insertTs x l).filter q
      = if q x then insertTs x (l.filter q) else l.filter q := by
  induction l with
  | nil => by_cases hq : q x = true <;> simp [insertTs, List.filter_cons, hq]
  | cons y ys ih =>
      rcases List.pairwise_cons.mp hl with ⟨hy, hys⟩
      by_cases h : y.timestamp < x.timestamp
      · have hrec := ih hys
        rw [insertTs, if_pos h]
        by_cases hq : q y = true <;> by_cases hqx : q x = true <;>
          simp [List.filter_cons, hq, hqx, hrec, insertTs, h]
      · have hall : ∀ z ∈ (y :: ys).filter q, x.timestamp ≤ z.timestamp := by
          intro z hz
          have hz2 := List.mem_of_mem_filter hz
          rcases List.mem_cons.mp hz2 with rfl | hz1
          · exact Nat.le_of_not_lt h
          · exact le_trans (Nat.le_of_not_lt h) (hy z hz1)
        rw [insertTs, if_neg h]
        by_cases hqx : q x = true
        · rw [if_pos hqx, insertTs_eq_cons_of_all_ge x _ hall]
          simp [List.filter_cons, hqx]
        · rw [if_neg hqx]
          simp [List.filter_cons, hqx]

theorem sortByTs_filter (q : IntentRecord D → Bool) (l : List (IntentRecord D)) :
    sortByTs (l.filter q) = (sortByTs l).filter q := by
  induction l with
  | nil => rfl
  | cons x xs ih =>
      rw [List.filter_cons]
      by_cases hq : q x = true
      · rw [if_pos hq]
        show insertTs x (sortByTs (xs.filter q)) = (insertTs x (sortByTs xs)).filter q
        rw [ih, filter_insertTs_of_sorted q x _ (pairwise_sortByTs xs), if_pos hq]
      · rw [if_neg hq]
        show sortByTs (xs.filter q) = (insertTs x (sortByTs xs)).filter q
        rw [ih, filter_insertTs_of_sorted q x _ (pairwise_sortByTs xs), if_neg hq]

theorem replay_filter_registered (W : Type) (spawnInsert : W → RIntent D → W)
    (upd : W → W) (reg : List String) (w : W) (rs : List (IntentRecord D)) :
    replay spawnInsert upd reg w rs
      = replay spawnInsert upd reg w (rs.filter (fun r => decide (r.ty ∈ reg))) := by
  unfold replay
  rw [sortByTs_filter]
  generalize sortByTs rs = l
  induction l generalizing w with
  | nil => rfl
  | cons r rest ih =>
      rw [List.filter_cons]
      by_cases hq : r.ty ∈ reg
      · have hd : deserializeIntent reg r
            = some { tyName := r.ty, processed := false, timestamp := r.data.timestamp
                     id := r.data.id, priority := r.data.priority, payload := r.data.payload } := by
          simp [deserializeIntent, hq]
        rw [if_pos (by simp [hq])]
        simp only [List.foldl_cons, hd]
        exact ih _
      · have hd : deserializeIntent reg r = none := by
          simp [deserializeIntent, hq]
        rw [if_neg (by simp [hq])]
        simp only [List.foldl_cons, hd]
        exact ih w

theorem replay_eq_trace_foldl (W : Type) (spawnInsert : W → RIntent D → W)
    (upd : W → W) (reg : List String) (w : W) (rs : List (IntentRecord D)) :
    replay spawnInsert upd reg w rs
      = (replayTrace reg rs).foldl
          (fun acc tag => match tag with
            | RTag.played i => upd (spawnInsert acc i)
            | RTag.skipped _ => acc) w := by
  unfold replay replayTrace
  rw [List.foldl_map]
  have hfun : (fun (acc : W) (r : IntentRecord D) =>
        match tagOf reg r with
        | RTag.played i => upd (spawnInsert acc i)
        | RTag.skipped _ => acc)
      = (fun (acc : W) (r : IntentRecord D) =>
        match deserializeIntent reg r with
        | some i => upd (spawnInsert acc i)
        | none => acc) := by
    funext acc r
    unfold tagOf
    cases deserializeIntent reg r <;> rfl
  rw [hfun]

theorem recordsOfLive_oneIntentPerTick (l : List (RIntent D)) :
    recordsOfLive (oneIntentPerTick l) = l.map recordOf := by
  induction l with
  | nil => rfl
  | cons i rest ih =>
      show recordsOfLive (LiveEv.intent i :: LiveEv.tick :: oneIntentPerTick rest) = _
      unfold recordsOfLive at ih ⊢
      simp only [List.filterMap_cons]
      rw [ih]
      rfl

theorem sortByTs_sorted_id (l : List (IntentRecord D))
    (hl : List.Pairwise (fun a b => a.timestamp ≤ b.timestamp) l) : sortByTs l = l := by
  induction l with
  | nil => rfl
  | cons x xs ih =>
      rcases List.pairwise_cons.mp hl with ⟨hx, hxs⟩
      show insertTs x (sortByTs xs) = x :: xs
      rw [ih hxs]
      exact insertTs_eq_cons_of_all_ge x xs hx

theorem liveRun_oneIntentPerTick (W : Type) (spawnInsert : W → RIntent D → W)
    (upd : W → W) : ∀ (l : List (RIntent D)) (w : W),
    liveRun spawnInsert upd w (oneIntentPerTick l)
      = l.foldl (fun acc i => upd (spawnInsert acc i)) w := by
  intro l
  induction l with
  | nil => intro w; rfl
  | cons i rest ih => intro w; exact ih (upd (spawnInsert w i))

theorem deserialize_recordOf (reg : List String) (i : RIntent D)
    (hr : i.tyName ∈ reg) (hp : i.processed = false) :
    deserializeIntent reg (recordOf i) = some i := by
  unfold deserializeIntent recordOf serializeIntent
  rw [if_pos hr]
  cases i with
  | mk t pr ts idf q pl =>
      obtain rfl : pr = false := hp
      rfl

theorem replay_foldl_deserialize (W : Type) (spawnInsert : W → RIntent D → W)
    (upd : W → W) (reg : List String) :
    ∀ (l : List (RIntent D)) (w : W),
      (∀ i ∈ l, i.tyName ∈ reg) → (∀ i ∈ l, i.processed = false) →
      l.foldl (fun acc i =>
        match deserializeIntent reg (recordOf i) with
        | some j => upd (spawnInsert acc j)
        | none => acc) w
      = l.foldl (fun acc i => upd (spawnInsert acc i)) w := by
  intro l
  induction l with
  | nil => intro w _ _; rfl
  | cons i rest ih =>
      intro w hreg hproc
      simp only [List.foldl_cons,
        deserialize_recordOf reg i (hreg i (List.mem_cons_self _ _))
          (hproc i (List.mem_cons_self _ _))]
      exact ih _ (fun j hj => hreg j (List.mem_cons_of_mem _ hj))
        (fun j hj => hproc j (List.mem_cons_of_mem _ hj))

/-- C9: `IntentRecorder.replay` processes the records in ascending
timestamp order with ties kept in original record order and with the sort
never consulting `priority`; a record whose type name has no registered
constructor deserializes to `null` and is skipped while replay continues
with the remaining records; every successfully reconstructed intent carries
exactly the recorded data fields with `processed` reset to its default; and
the final state is the fold that spawns each played intent and runs one
full `update()` per played record, in trace order. -/
theorem c9_replay_order_and_skip {D : Type} [DecidableEq D] (W : Type)
    (spawnInsert : W → RIntent D → W) (upd : W → W) (reg : List String)
    (w : W) (rs : List (IntentRecord D)) (q : Int) :
    List.Pairwise (fun a b => a.timestamp ≤ b.timestamp) (sortByTs rs)
    ∧ (∀ t, (sortByTs rs).filter (fun r => decide (r.timestamp = t))
        = rs.filter (fun r => decide (r.timestamp = t)))
    ∧ sortByTs (rs.map (fun r => { r with priority := q }))
        = (sortByTs rs).map (fun r => { r with priority := q })
    ∧ (∀ r : IntentRecord D, r.ty ∈ reg → deserializeIntent reg r
        = some { tyName := r.ty, processed := false, timestamp := r.data.timestamp
                 id := r.data.id, priority := r.data.priority, payload := r.data.payload })
    ∧ (∀ r : IntentRecord D, r.ty ∉ reg → deserializeIntent reg r = none)
    ∧ replay spawnInsert upd reg w rs
        = replay spawnInsert upd reg w (rs.filter (fun r => decide (r.ty ∈ reg)))
    ∧ replay spawnInsert upd reg w rs
        = (replayTrace reg rs).foldl
            (fun acc tag => match tag with
              | RTag.played i => upd (spawnInsert acc i)
              | RTag.skipped _ => acc) w := by
  refine ⟨pairwise_sortByTs rs, filter_ts_sortByTs rs, sortByTs_map_priority q rs,
    ?_, ?_, replay_filter_registered W spawnInsert upd reg w rs,
    replay_eq_trace_foldl W spawnInsert upd reg w rs⟩
  · intro r hr
    simp [deserializeIntent, hr]
  · intro r hr
    simp [deserializeIntent, hr]

/-- C1 is refuted as stated: a live run may batch several intents into one
`update()` while replay runs one `update()` per intent, so any per-frame
observable effect of `update` (here a frame counter) diverges.  Two intents
inserted in the same frame give one live tick but two replay ticks. -/
theorem c1_counterexample :
    ¬ claimReplayDeterminism Nat (fun w _ => w) (fun w => w + 1) ["A"] 0
      [LiveEv.intent ⟨"A", false, 0, none, 0, 0⟩,
       LiveEv.intent ⟨"A", false, 0, none, 0, 0⟩, LiveEv.tick] := by
  unfold claimReplayDeterminism
  decide

/-- C1 (amended): for live runs that give every intent its own `update()`
call, record the intents before they are processed (`processed` still
false), hand them over in nondecreasing timestamp order, and register every
intent type name, replaying the recorded session against a fresh world
initialized identically reproduces the live final state. -/
theorem c1_replay_determinism_amended {D : Type} (W : Type)
    (spawnInsert : W → RIntent D → W) (upd : W → W) (reg : List String)
    (w : W) (intents : List (RIntent D))
    (hreg : ∀ i ∈ intents, i.tyName ∈ reg)
    (hproc : ∀ i ∈ intents, i.processed = false)
    (hts : List.Pairwise (fun a b : RIntent D => a.timestamp ≤ b.timestamp) intents) :
    claimReplayDeterminism W spawnInsert upd reg w (oneIntentPerTick intents) := by
  unfold claimReplayDeterminism
  rw [recordsOfLive_oneIntentPerTick, liveRun_oneIntentPerTick]
  unfold replay
  have hsorted : List.Pairwise
      (fun a b : IntentRecord D => a.timestamp ≤ b.timestamp)
      (intents.map recordOf) := by
    rw [List.pairwise_map]
    exact hts
  rw [sortByTs_sorted_id _ hsorted, List.foldl_map]
  exact replay_foldl_deserialize W spawnInsert upd reg intents w hreg hproc

/-- Witness for `c1_replay_determinism_amended` on a concrete run. -/
theorem c1_replay_determinism_amended_witness :
    (∀ i ∈ ([⟨"A", false, 0, none, 0, 3⟩, ⟨"A", false, 1, none, 0, 4⟩]
        : List (RIntent Nat)), i.tyName ∈ ["A"])
    ∧ (∀ i ∈ ([⟨"A", false, 0, none, 0, 3⟩, ⟨"A", false, 1, none, 0, 4⟩]
        : List (RIntent Nat)), i.processed = false)
    ∧ List.Pairwise (fun a b : RIntent Nat => a.timestamp ≤ b.timestamp)
        [⟨"A", false, 0, none, 0, 3⟩, ⟨"A", false, 1, none, 0, 4⟩]
    ∧ claimReplayDeterminism Nat (fun w i => w + i.payload) (fun w => w * 2) ["A"] 1
        (oneIntentPerTick [⟨"A", false, 0, none, 0, 3⟩, ⟨"A", false, 1, none, 0, 4⟩]) :=
  ⟨by decide, by decide, by decide,
    c1_replay_determinism_amended Nat (fun w i => w + i.payload) (fun w => w * 2)
      ["A"] 1 [⟨"A", false, 0, none, 0, 3⟩, ⟨"A", false, 1, none, 0, 4⟩]
      (by decide) (by decide) (by decide)⟩

/-- Witness for `c10_observer_idempotent` on a small concrete world. -/
theorem c10_observer_idempotent_witness :
    (7 ∉ getGlobalObs (applyOps initWorld [Op.createE]) (EvTy.user 2))
    ∧ (7 ∉ getEntityObs (applyOps initWorld [Op.createE]) 0 (EvTy.user 2))
    ∧ countOcc (triggerSteps (addObserver (addObserver
          (applyOps initWorld [Op.createE]) (EvTy.user 2) 7) (EvTy.user 2) 7)
          (EvTy.user 2) none) (Step.globalObsCall 7 (EvTy.user 2)) = 1 := by
  refine ⟨by decide, by decide, ?_⟩
  exact (c10_observer_idempotent (applyOps initWorld [Op.createE]) (EvTy.user 2) 0 7 none
    (by decide) (by decide)).2.2.1

end ECSM
